import Mathlib

/-!
# Multi-data interceptor

A shallow embedding of `process/interceptors/multiDataInterceptor.go`.

The interceptor talks to six collaborators through Go interfaces (marshalizer,
factory, processor, throttler, anti-flood handler, white list) and to a
replaceable debug handler.  Each collaborator is embedded as a record of its
methods over a shared world state `W`: a method takes the world, answers, and
gives the world back, so answers may depend on everything that happened
before.  Every function of the interceptor returns, next to its result and the
new world, the list of interface calls it made, in the order it made them, each
with its arguments and the answer it got.
-/

namespace interceptors

/-- The identity of a peer (`core.PeerID`, a string type). -/
abbrev PeerID := String

/-- A byte slice. -/
abbrev Bytes := List Nat

/-- The error values the interceptor handles: the sentinels of package `process`
it names, and any other error a collaborator may answer with. -/
inductive Error where
  | ErrEmptyTopic
  | ErrNilMarshalizer
  | ErrNilInterceptedDataFactory
  | ErrNilInterceptedDataProcessor
  | ErrNilInterceptorThrottler
  | ErrNilAntifloodHandler
  | ErrNilWhiteListHandler
  | ErrNoDataInMessage
  | ErrNilDebugger
  | ErrSystemBusy
  | other (msg : String)
  deriving DecidableEq, Repr

/-- A blacklisting duration: the constant `core.InvalidMessageBlacklistDuration`,
whose value is declared outside the sources at hand and is kept symbolic, or any
other length of time. -/
inductive Duration where
  | InvalidMessageBlacklistDuration
  | other (nanoseconds : Nat)
  deriving DecidableEq, Repr

/-- The message handed over by the transport (`p2p.MessageP2P`): the accessors
the interceptor uses. `Peer` is the originator of the message. -/
structure MessageP2P where
  Data : Bytes
  Peer : PeerID
  SeqNo : Nat
  Topics : List String
  deriving DecidableEq, Repr

/-- The envelope of a multi-data message (`batch.Batch`). -/
structure Batch where
  Data : List Bytes
  deriving DecidableEq, Repr

/-- The capability surface of an intercepted datum (`process.InterceptedData`):
`CheckValidity` answers `none` for a valid datum and the validation error
otherwise. The three methods read the datum and nothing else. -/
class InterceptedData (D : Type) where
  CheckValidity : D → Option Error
  IsForCurrentShard : D → Bool
  Hash : D → Bytes

/-- Interface `marshal.Marshalizer`, the method the interceptor uses. -/
structure Marshalizer (W : Type) where
  Unmarshal : Bytes → W → Except Error Batch × W

/-- Interface `process.InterceptedDataFactory`. -/
structure InterceptedDataFactory (W D : Type) where
  Create : Bytes → W → Except Error D × W

/-- Interface `process.InterceptorProcessor`: the sink that commits accepted
data. -/
structure InterceptorProcessor (W D : Type) where
  Commit : D → String → MessageP2P → W → Option Error × W

/-- Interface `process.InterceptorThrottler`. -/
structure InterceptorThrottler (W : Type) where
  CanProcess : W → Bool × W
  StartProcessing : W → W
  EndProcessing : W → W

/-- Interface `process.WhiteListHandler`. -/
structure WhiteListHandler (W D : Type) where
  IsWhiteListed : D → W → Bool × W

/-- Interface `process.P2PAntifloodHandler`. -/
structure P2PAntifloodHandler (W : Type) where
  CanProcessMessage : MessageP2P → PeerID → W → Option Error × W
  CanProcessMessagesOnTopic : PeerID → String → Nat → Nat → Nat → W → Option Error × W
  BlacklistPeer : PeerID → String → Duration → W → W

/-- Interface `process.InterceptedDebugger`: the instrumentation handler. -/
structure InterceptedDebugger (W D : Type) where
  LogReceived : String → D → W → W
  LogProcessed : String → D → Option Error → W → W

/-- One interface call made by the interceptor, with its arguments and, where
the method answers, the answer. -/
inductive Call (D : Type) where
  | CanProcessMessage (message : MessageP2P) (fromConnectedPeer : PeerID) (res : Option Error)
  | CanProcess (res : Bool)
  | StartProcessing
  | EndProcessing
  | Unmarshal (buff : Bytes) (res : Except Error Batch)
  | BlacklistPeer (peer : PeerID) (reason : String) (duration : Duration)
  | CanProcessMessagesOnTopic (peer : PeerID) (topic : String) (numMessages : Nat)
      (totalSize : Nat) (sequence : Nat) (res : Option Error)
  | Create (buff : Bytes) (res : Except Error D)
  | LogReceived (topic : String) (data : D)
  | CheckValidity (data : D) (res : Option Error)
  | IsForCurrentShard (data : D) (res : Bool)
  | IsWhiteListed (data : D) (res : Bool)
  | Hash (data : D)
  | Commit (data : D) (topic : String) (message : MessageP2P) (res : Option Error)
  | LogProcessed (topic : String) (data : D) (err : Option Error)

/-- What a function of the interceptor leaves behind: its return value, the
world after it, and the interface calls it made, oldest first. -/
structure Step (W D α : Type) where
  ret : α
  world : W
  calls : List (Call D)

/-- The Go struct `MultiDataInterceptor` (the mutex guarding the debug handler is
not part of the sequential state). -/
structure MultiDataInterceptor (W D : Type) where
  topic : String
  marshalizer : Marshalizer W
  factory : InterceptedDataFactory W D
  processor : InterceptorProcessor W D
  throttler : InterceptorThrottler W
  whiteListRequest : WhiteListHandler W D
  antifloodHandler : P2PAntifloodHandler W
  interceptedDebugHandler : InterceptedDebugger W D

/-- Modelled from the spec: `resolver.NewDisabledInterceptorResolver`, the
disabled debug handler a new interceptor starts with; its methods do nothing. -/
def NewDisabledInterceptorResolver {W D : Type} : InterceptedDebugger W D :=
  { LogReceived := fun _ _ w => w
    LogProcessed := fun _ _ _ w => w }

/-- Constructor `NewMultiDataInterceptor`. A nil collaborator (`check.IfNil`) is
`none`; the pair `(nil, err)` is `Except.error err`. -/
def NewMultiDataInterceptor {W D : Type}
    (topic : String)
    (marshalizer : Option (Marshalizer W))
    (factory : Option (InterceptedDataFactory W D))
    (processor : Option (InterceptorProcessor W D))
    (throttler : Option (InterceptorThrottler W))
    (antifloodHandler : Option (P2PAntifloodHandler W))
    (whiteListRequest : Option (WhiteListHandler W D)) :
    Except Error (MultiDataInterceptor W D) :=
  if topic.length = 0 then .error .ErrEmptyTopic else
  match marshalizer with
  | none => .error .ErrNilMarshalizer
  | some marshalizer =>
  match factory with
  | none => .error .ErrNilInterceptedDataFactory
  | some factory =>
  match processor with
  | none => .error .ErrNilInterceptedDataProcessor
  | some processor =>
  match throttler with
  | none => .error .ErrNilInterceptorThrottler
  | some throttler =>
  match antifloodHandler with
  | none => .error .ErrNilAntifloodHandler
  | some antifloodHandler =>
  match whiteListRequest with
  | none => .error .ErrNilWhiteListHandler
  | some whiteListRequest =>
    .ok
      { topic := topic
        marshalizer := marshalizer
        factory := factory
        processor := processor
        throttler := throttler
        whiteListRequest := whiteListRequest
        antifloodHandler := antifloodHandler
        interceptedDebugHandler := NewDisabledInterceptorResolver }

/-- Modelled from the spec: `preProcessMesage`, the admission step shared by the
interceptors, which is not among the sources at hand. The message is rejected
when the anti-flood handler refuses it (a blacklisted peer or connected-hop
peer) or when the throttler has no capacity, in which case no slot is consumed;
otherwise a throttle slot is acquired with `StartProcessing`. -/
def preProcessMesage {W D : Type}
    (throttler : InterceptorThrottler W)
    (antifloodHandler : P2PAntifloodHandler W)
    (message : MessageP2P) (fromConnectedPeer : PeerID) (_topic : String) (w : W) :
    Step W D (Option Error) :=
  match antifloodHandler.CanProcessMessage message fromConnectedPeer w with
  | (some err, w1) =>
    ⟨some err, w1, [.CanProcessMessage message fromConnectedPeer (some err)]⟩
  | (none, w1) =>
    match throttler.CanProcess w1 with
    | (false, w2) =>
      ⟨some .ErrSystemBusy, w2,
        [.CanProcessMessage message fromConnectedPeer none, .CanProcess false]⟩
    | (true, w2) =>
      ⟨none, throttler.StartProcessing w2,
        [.CanProcessMessage message fromConnectedPeer none, .CanProcess true,
         .StartProcessing]⟩

/-- Modelled from the spec: `receivedDebugInterceptedData`, which is not among
the sources at hand: it tells the debug handler that a datum was received. -/
def receivedDebugInterceptedData {W D : Type}
    (handler : InterceptedDebugger W D) (data : D) (topic : String) (w : W) :
    Step W D Unit :=
  ⟨(), handler.LogReceived topic data w, [.LogReceived topic data]⟩

/-- Modelled from the spec: `processDebugInterceptedData`, which is not among
the sources at hand: it tells the debug handler how the handling of a datum
ended. -/
def processDebugInterceptedData {W D : Type}
    (handler : InterceptedDebugger W D) (data : D) (topic : String)
    (err : Option Error) (w : W) : Step W D Unit :=
  ⟨(), handler.LogProcessed topic data err w, [.LogProcessed topic data err]⟩

/-- Modelled from the spec: `processInterceptedData`, which is not among the
sources at hand: it hands the datum to the processor for commit, reports the
outcome to the debug handler and returns the processor's error. -/
def processInterceptedData {W D : Type}
    (processor : InterceptorProcessor W D) (handler : InterceptedDebugger W D)
    (data : D) (topic : String) (message : MessageP2P) (w : W) :
    Step W D (Option Error) :=
  match processor.Commit data topic message w with
  | (err, w1) =>
    let dbg := processDebugInterceptedData handler data topic err w1
    ⟨err, dbg.world, .Commit data topic message err :: dbg.calls⟩

/-- Method `interceptedData`: builds the datum from the raw element and checks
its validity; a factory failure blacklists the originator and the connected
peer. -/
def interceptedData {W D : Type} [InterceptedData D]
    (mdi : MultiDataInterceptor W D)
    (dataBuff : Bytes) (originator : PeerID) (fromConnectedPeer : PeerID) (w : W) :
    Step W D (Except Error D) :=
  match mdi.factory.Create dataBuff w with
  | (.error err, w1) =>
    let reason := "can not create object from received bytes, topic " ++ mdi.topic
    let w2 := mdi.antifloodHandler.BlacklistPeer originator reason
      .InvalidMessageBlacklistDuration w1
    let w3 := mdi.antifloodHandler.BlacklistPeer fromConnectedPeer reason
      .InvalidMessageBlacklistDuration w2
    ⟨.error err, w3,
      [.Create dataBuff (.error err),
       .BlacklistPeer originator reason .InvalidMessageBlacklistDuration,
       .BlacklistPeer fromConnectedPeer reason .InvalidMessageBlacklistDuration]⟩
  | (.ok data, w1) =>
    let rcv := receivedDebugInterceptedData mdi.interceptedDebugHandler data mdi.topic w1
    match InterceptedData.CheckValidity data with
    | some err =>
      let dbg := processDebugInterceptedData mdi.interceptedDebugHandler data mdi.topic
        (some err) rcv.world
      ⟨.error err, dbg.world,
        .Create dataBuff (.ok data) :: rcv.calls
          ++ .CheckValidity data (some err) :: dbg.calls⟩
    | none =>
      ⟨.ok data, rcv.world,
        .Create dataBuff (.ok data) :: rcv.calls ++ [.CheckValidity data none]⟩

/-- The statement `if err != nil { lastErrEncountered = err }`: the value of
`lastErrEncountered` after it. -/
def recordError (err lastErrEncountered : Option Error) : Option Error :=
  match err with
  | some e => some e
  | none => lastErrEncountered

/-- The element loop of `ProcessReceivedMessage` (`for _, dataBuff := range
multiDataBuff`), with `lastErrEncountered` as accumulator. An element that
should not be processed is only traced (the trace reads its hash) and the loop
continues. -/
def processElements {W D : Type} [InterceptedData D]
    (mdi : MultiDataInterceptor W D) (message : MessageP2P) (fromConnectedPeer : PeerID) :
    List Bytes → Option Error → W → Step W D (Option Error)
  | [], lastErrEncountered, w => ⟨lastErrEncountered, w, []⟩
  | dataBuff :: rest, lastErrEncountered, w =>
    let made := interceptedData mdi dataBuff message.Peer fromConnectedPeer w
    match made.ret with
    | .error err =>
      let tail := processElements mdi message fromConnectedPeer rest (some err) made.world
      ⟨tail.ret, tail.world, made.calls ++ tail.calls⟩
    | .ok data =>
      let isForCurrentShard := InterceptedData.IsForCurrentShard data
      match mdi.whiteListRequest.IsWhiteListed data made.world with
      | (isWhiteListed, w1) =>
        let shouldProcess := isForCurrentShard || isWhiteListed
        let asked : List (Call D) :=
          [.IsForCurrentShard data isForCurrentShard, .IsWhiteListed data isWhiteListed]
        if !shouldProcess then
          let tail := processElements mdi message fromConnectedPeer rest
            lastErrEncountered w1
          ⟨tail.ret, tail.world, made.calls ++ asked ++ .Hash data :: tail.calls⟩
        else
          let done := processInterceptedData mdi.processor mdi.interceptedDebugHandler
            data mdi.topic message w1
          let tail := processElements mdi message fromConnectedPeer rest
            (recordError done.ret lastErrEncountered) done.world
          ⟨tail.ret, tail.world, made.calls ++ asked ++ done.calls ++ tail.calls⟩

/-- Method `ProcessReceivedMessage`, the callback of the transport for every
message received on the interceptor's topic. The conversions `uint32(...)` and
`uint64(...)` of the Go code are reductions modulo `2^32` and `2^64`. -/
def ProcessReceivedMessage {W D : Type} [InterceptedData D]
    (mdi : MultiDataInterceptor W D) (message : MessageP2P) (fromConnectedPeer : PeerID)
    (w : W) : Step W D (Option Error) :=
  let pre : Step W D (Option Error) :=
    preProcessMesage mdi.throttler mdi.antifloodHandler message fromConnectedPeer mdi.topic w
  match pre.ret with
  | some err => ⟨some err, pre.world, pre.calls⟩
  | none =>
    match mdi.marshalizer.Unmarshal message.Data pre.world with
    | (.error err, w1) =>
      let w2 := mdi.throttler.EndProcessing w1
      let reason := "unmarshalable data got on topic " ++ mdi.topic
      let w3 := mdi.antifloodHandler.BlacklistPeer message.Peer reason
        .InvalidMessageBlacklistDuration w2
      let w4 := mdi.antifloodHandler.BlacklistPeer fromConnectedPeer reason
        .InvalidMessageBlacklistDuration w3
      ⟨some err, w4,
        pre.calls ++
          [.Unmarshal message.Data (.error err),
           .EndProcessing,
           .BlacklistPeer message.Peer reason .InvalidMessageBlacklistDuration,
           .BlacklistPeer fromConnectedPeer reason .InvalidMessageBlacklistDuration]⟩
    | (.ok b, w1) =>
      let multiDataBuff := b.Data
      let lenMultiData := multiDataBuff.length
      if lenMultiData = 0 then
        ⟨some .ErrNoDataInMessage, mdi.throttler.EndProcessing w1,
          pre.calls ++ [.Unmarshal message.Data (.ok b), .EndProcessing]⟩
      else
        match mdi.antifloodHandler.CanProcessMessagesOnTopic fromConnectedPeer mdi.topic
            (lenMultiData % 2 ^ 32) (message.Data.length % 2 ^ 64) message.SeqNo w1 with
        | (some err, w2) =>
          ⟨some err, w2,
            pre.calls ++
              [.Unmarshal message.Data (.ok b),
               .CanProcessMessagesOnTopic fromConnectedPeer mdi.topic
                 (lenMultiData % 2 ^ 32) (message.Data.length % 2 ^ 64) message.SeqNo
                 (some err)]⟩
        | (none, w2) =>
          let loop := processElements mdi message fromConnectedPeer multiDataBuff none w2
          ⟨loop.ret, mdi.throttler.EndProcessing loop.world,
            pre.calls ++
              [.Unmarshal message.Data (.ok b),
               .CanProcessMessagesOnTopic fromConnectedPeer mdi.topic
                 (lenMultiData % 2 ^ 32) (message.Data.length % 2 ^ 64) message.SeqNo none]
              ++ loop.calls ++ [.EndProcessing]⟩

/-- Method `SetInterceptedDebugHandler`: the error it returns and the
interceptor after the call. A nil handler is `none`. -/
def SetInterceptedDebugHandler {W D : Type}
    (mdi : MultiDataInterceptor W D) (handler : Option (InterceptedDebugger W D)) :
    Option Error × MultiDataInterceptor W D :=
  match handler with
  | none => (some .ErrNilDebugger, mdi)
  | some handler => (none, { mdi with interceptedDebugHandler := handler })

/-! ## Stub collaborators

A concrete world and a concrete set of collaborators, in the manner of the
stubs of the test suite, on which the interceptor can be run on explicit
inputs. -/

/-- The world of the stub collaborators: the throttler's counter of in-flight
messages, the blacklist, the number of elements the topic quota still allows,
the white list and the pool of committed data (both by hash). -/
structure World where
  inFlight : Nat
  blacklist : List (PeerID × String × Duration)
  quotaLeft : Nat
  whiteList : List Bytes
  pool : List Bytes
  deriving DecidableEq, Repr

/-- The datum of the stub factory: the raw element it was built from. -/
structure Datum where
  raw : Bytes
  deriving DecidableEq, Repr

/-- A stub datum is valid when it has at least three bytes, is for the current
shard when its second byte is zero, and is its own hash. -/
instance : InterceptedData Datum where
  CheckValidity := fun d =>
    if d.raw.length < 3 then some (.other "missing fields") else none
  IsForCurrentShard := fun d => d.raw.tail.head? = some 0
  Hash := fun d => d.raw

/-- Decoder of the stub marshalizer: the envelope is a sequence of elements,
each preceded by its length; a length that runs past the end of the payload
makes the payload unmarshalable. -/
def stubDecode : Nat → Bytes → Except Error (List Bytes)
  | 0, _ => .ok []
  | _ + 1, [] => .ok []
  | fuel + 1, n :: rest =>
    if rest.length < n then .error (.other "unexpected end of payload")
    else
      match stubDecode fuel (rest.drop n) with
      | .error err => .error err
      | .ok elems => .ok (rest.take n :: elems)

/-- Stub marshalizer. -/
def stubMarshalizer : Marshalizer World :=
  { Unmarshal := fun buff w =>
      match stubDecode buff.length buff with
      | .error err => (.error err, w)
      | .ok elems => (.ok ⟨elems⟩, w) }

/-- Stub factory: an element is malformed when it is empty or starts with the
byte 255. -/
def stubFactory : InterceptedDataFactory World Datum :=
  { Create := fun buff w =>
      match buff with
      | [] => (.error (.other "empty element"), w)
      | b :: _ => if b = 255 then (.error (.other "malformed element"), w)
                  else (.ok ⟨buff⟩, w) }

/-- Stub processor: commits the hash of the datum to the pool, and refuses a
datum that is in the pool already. -/
def stubProcessor : InterceptorProcessor World Datum :=
  { Commit := fun d _ _ w =>
      if d.raw ∈ w.pool then (some (.other "already in pool"), w)
      else (none, { w with pool := w.pool ++ [d.raw] }) }

/-- Stub throttler with room for two messages in flight. -/
def stubThrottler : InterceptorThrottler World :=
  { CanProcess := fun w => (decide (w.inFlight < 2), w)
    StartProcessing := fun w => { w with inFlight := w.inFlight + 1 }
    EndProcessing := fun w => { w with inFlight := w.inFlight - 1 } }

/-- Stub white list. -/
def stubWhiteList : WhiteListHandler World Datum :=
  { IsWhiteListed := fun d w => (decide (d.raw ∈ w.whiteList), w) }

/-- Stub anti-flood handler: refuses a message of a blacklisted peer, and counts
the elements received on the topic against the quota left. -/
def stubAntiflood : P2PAntifloodHandler World :=
  { CanProcessMessage := fun message fromConnectedPeer w =>
      if w.blacklist.any (fun e => e.1 = message.Peer || e.1 = fromConnectedPeer)
      then (some (.other "peer is blacklisted"), w) else (none, w)
    CanProcessMessagesOnTopic := fun _ _ numMessages _ _ w =>
      if w.quotaLeft < numMessages then (some (.other "topic quota exceeded"), w)
      else (none, { w with quotaLeft := w.quotaLeft - numMessages })
    BlacklistPeer := fun peer reason duration w =>
      { w with blacklist := w.blacklist ++ [(peer, reason, duration)] } }

/-- The interceptor built on the stub collaborators, on topic `"txs"`. -/
def stubInterceptor : MultiDataInterceptor World Datum :=
  { topic := "txs"
    marshalizer := stubMarshalizer
    factory := stubFactory
    processor := stubProcessor
    throttler := stubThrottler
    whiteListRequest := stubWhiteList
    antifloodHandler := stubAntiflood
    interceptedDebugHandler := NewDisabledInterceptorResolver }

/-- A fresh stub world with a topic quota of `quota` elements. -/
def stubWorld (quota : Nat) : World :=
  { inFlight := 0, blacklist := [], quotaLeft := quota, whiteList := [], pool := [] }

/-- A message of originator `"origin"` with the given payload. -/
def stubMessage (payload : Bytes) : MessageP2P :=
  { Data := payload, Peer := "origin", SeqNo := 7, Topics := ["txs"] }

/-! ## Reading the list of calls -/

/-- Number of `EndProcessing` calls in a list of calls. -/
def endProcessings {D : Type} (calls : List (Call D)) : Nat :=
  calls.countP (fun c => match c with | .EndProcessing => true | _ => false)

/-- Number of `StartProcessing` calls in a list of calls. -/
def startProcessings {D : Type} (calls : List (Call D)) : Nat :=
  calls.countP (fun c => match c with | .StartProcessing => true | _ => false)

/-- The `BlacklistPeer` calls of a list of calls: peer, reason and duration. -/
def blacklistings {D : Type} (calls : List (Call D)) : List (PeerID × String × Duration) :=
  calls.filterMap (fun c => match c with
    | .BlacklistPeer peer reason duration => some (peer, reason, duration)
    | _ => none)

/-- The elements on which `factory.Create` was called, with the answers. -/
def creations {D : Type} (calls : List (Call D)) : List (Bytes × Except Error D) :=
  calls.filterMap (fun c => match c with
    | .Create buff res => some (buff, res)
    | _ => none)

/-- The data the factory created successfully. -/
def created {D : Type} (calls : List (Call D)) : List D :=
  calls.filterMap (fun c => match c with
    | .Create _ (.ok data) => some data
    | _ => none)

/-- The errors of the failed `factory.Create` calls. -/
def createFailures {D : Type} (calls : List (Call D)) : List Error :=
  calls.filterMap (fun c => match c with
    | .Create _ (.error err) => some err
    | _ => none)

/-- The data on which `CheckValidity` was called. -/
def validityChecks {D : Type} (calls : List (Call D)) : List D :=
  calls.filterMap (fun c => match c with
    | .CheckValidity data _ => some data
    | _ => none)

/-- The data on which `CheckValidity` failed. -/
def invalids {D : Type} (calls : List (Call D)) : List D :=
  calls.filterMap (fun c => match c with
    | .CheckValidity data (some _) => some data
    | _ => none)

/-- The data the white list was asked about, with its answers. -/
def whiteListChecks {D : Type} (calls : List (Call D)) : List (D × Bool) :=
  calls.filterMap (fun c => match c with
    | .IsWhiteListed data res => some (data, res)
    | _ => none)

/-- The data handed to the processor. -/
def commits {D : Type} (calls : List (Call D)) : List D :=
  calls.filterMap (fun c => match c with
    | .Commit data _ _ _ => some data
    | _ => none)

/-- The errors the processor answered with. -/
def commitFailures {D : Type} (calls : List (Call D)) : List Error :=
  calls.filterMap (fun c => match c with
    | .Commit _ _ _ (some err) => some err
    | _ => none)

/-- The `CanProcessMessagesOnTopic` calls: peer, topic, number of elements,
size, sequence number. -/
def quotaChecks {D : Type} (calls : List (Call D)) :
    List (PeerID × String × Nat × Nat × Nat) :=
  calls.filterMap (fun c => match c with
    | .CanProcessMessagesOnTopic peer topic n size sequence _ =>
      some (peer, topic, n, size, sequence)
    | _ => none)

/-- The errors of the failing elements, in the order they occurred: failed
factory creations, failed validity checks and failed commits. -/
def failures {D : Type} (calls : List (Call D)) : List Error :=
  calls.filterMap (fun c => match c with
    | .Create _ (.error err) => some err
    | .CheckValidity _ (some err) => some err
    | .Commit _ _ _ (some err) => some err
    | _ => none)

/-- A datum is relevant when it is for the current shard or the white list
answered `true` for it. -/
def relevant {D : Type} [InterceptedData D] (check : D × Bool) : Bool :=
  InterceptedData.IsForCurrentShard check.1 || check.2

/-- The pre-processing step of `ProcessReceivedMessage`: its first statement. -/
def admission {W D : Type}
    (mdi : MultiDataInterceptor W D) (message : MessageP2P) (fromConnectedPeer : PeerID)
    (w : W) : Step W D (Option Error) :=
  preProcessMesage mdi.throttler mdi.antifloodHandler message fromConnectedPeer mdi.topic w

/-- The calls `ProcessReceivedMessage` makes once pre-processing is over. -/
def callsAfterAdmission {W D : Type} [InterceptedData D]
    (mdi : MultiDataInterceptor W D) (message : MessageP2P) (fromConnectedPeer : PeerID)
    (w : W) : List (Call D) :=
  (ProcessReceivedMessage mdi message fromConnectedPeer w).calls.drop
    (admission mdi message fromConnectedPeer w).calls.length

/-- The reason given when blacklisting for a payload that is not a batch. -/
def unmarshalReason {W D : Type} (mdi : MultiDataInterceptor W D) : String :=
  "unmarshalable data got on topic " ++ mdi.topic

/-- The reason given when blacklisting for an element the factory cannot
build. -/
def createReason {W D : Type} (mdi : MultiDataInterceptor W D) : String :=
  "can not create object from received bytes, topic " ++ mdi.topic

/-- The effect of one logged call on the world: the world the collaborator
called leaves. The methods of an intercepted datum leave the world as it
is. -/
def effect {W D : Type} (mdi : MultiDataInterceptor W D) (call : Call D) (w : W) : W :=
  match call with
  | .CanProcessMessage message fromConnectedPeer _ =>
    (mdi.antifloodHandler.CanProcessMessage message fromConnectedPeer w).2
  | .CanProcess _ => (mdi.throttler.CanProcess w).2
  | .StartProcessing => mdi.throttler.StartProcessing w
  | .EndProcessing => mdi.throttler.EndProcessing w
  | .Unmarshal buff _ => (mdi.marshalizer.Unmarshal buff w).2
  | .BlacklistPeer peer reason duration =>
    mdi.antifloodHandler.BlacklistPeer peer reason duration w
  | .CanProcessMessagesOnTopic peer topic numMessages totalSize sequence _ =>
    (mdi.antifloodHandler.CanProcessMessagesOnTopic peer topic numMessages totalSize
      sequence w).2
  | .Create buff _ => (mdi.factory.Create buff w).2
  | .LogReceived topic data => mdi.interceptedDebugHandler.LogReceived topic data w
  | .CheckValidity _ _ => w
  | .IsForCurrentShard _ _ => w
  | .IsWhiteListed data _ => (mdi.whiteListRequest.IsWhiteListed data w).2
  | .Hash _ => w
  | .Commit data topic message _ => (mdi.processor.Commit data topic message w).2
  | .LogProcessed topic data err =>
    mdi.interceptedDebugHandler.LogProcessed topic data err w

/-- The answer logged with a call is the answer the collaborator gives in the
world in which the call is made. -/
def answered {W D : Type} [InterceptedData D] (mdi : MultiDataInterceptor W D)
    (call : Call D) (w : W) : Prop :=
  match call with
  | .CanProcessMessage message fromConnectedPeer res =>
    (mdi.antifloodHandler.CanProcessMessage message fromConnectedPeer w).1 = res
  | .CanProcess res => (mdi.throttler.CanProcess w).1 = res
  | .Unmarshal buff res => (mdi.marshalizer.Unmarshal buff w).1 = res
  | .CanProcessMessagesOnTopic peer topic numMessages totalSize sequence res =>
    (mdi.antifloodHandler.CanProcessMessagesOnTopic peer topic numMessages totalSize
      sequence w).1 = res
  | .Create buff res => (mdi.factory.Create buff w).1 = res
  | .CheckValidity data res => InterceptedData.CheckValidity data = res
  | .IsForCurrentShard data res => InterceptedData.IsForCurrentShard data = res
  | .IsWhiteListed data res => (mdi.whiteListRequest.IsWhiteListed data w).1 = res
  | .Commit data topic message res => (mdi.processor.Commit data topic message w).1 = res
  | _ => True

/-- The world a list of calls leads to: the effects of the calls, one after the
other, on the world the first call is made in. -/
def replay {W D : Type} (mdi : MultiDataInterceptor W D) : List (Call D) → W → W
  | [], w => w
  | call :: rest, w => replay mdi rest (effect mdi call w)

/-- Every call of the list carries the answer its collaborator gives in the
world the calls before it lead to. -/
def faithful {W D : Type} [InterceptedData D] (mdi : MultiDataInterceptor W D) :
    List (Call D) → W → Prop
  | [], _ => True
  | call :: rest, w => answered mdi call w ∧ faithful mdi rest (effect mdi call w)

/-- The datum an element contributes to the commits when the factory and the
white list answer by the element alone: the datum the factory creates from it,
if it is valid and for the current shard or white-listed. -/
def selected {D : Type} [InterceptedData D] (create : Bytes → Except Error D)
    (listed : D → Bool) (buff : Bytes) : Option D :=
  match create buff with
  | .ok data =>
    if (InterceptedData.CheckValidity data).isNone
        && (InterceptedData.IsForCurrentShard data || listed data) then some data
    else none
  | .error _ => none

/-- A white list that holds a fixed list of hashes, whatever the world. -/
def fixedWhiteList (allowed : List Bytes) : WhiteListHandler World Datum :=
  { IsWhiteListed := fun d w => (decide (d.raw ∈ allowed), w) }

/-- The stub interceptor with a fixed white list. -/
def fixedInterceptor (allowed : List Bytes) : MultiDataInterceptor World Datum :=
  { stubInterceptor with whiteListRequest := fixedWhiteList allowed }

/-- The answer of the stub factory, which reads the element alone. -/
def stubCreate (buff : Bytes) : Except Error Datum :=
  (stubFactory.Create buff (stubWorld 0)).1

end interceptors

/-!
# Seed node

A shallow embedding of `cmd/seednode/main.go`: the seed-based reader that
replaces the source of randomness of the key generation, and the construction
of the node's messenger.
-/

namespace seednode

/-- A byte slice. -/
abbrev Bytes := List Nat

/-- The error values of the seed node: those made with `errors.New`, known by
their text, and those answered by the libraries it calls. -/
inductive Error where
  | New (text : String)
  | external (code : Nat)
  deriving DecidableEq, Repr

/-- The Go struct `seedRandReader`. A nil seed is `none`; `index` is a Go
`int`. -/
structure seedRandReader where
  index : Int
  seed : Option Bytes
  deriving DecidableEq, Repr

/-- Constructor `NewSeedRandReader`. -/
def NewSeedRandReader (seed : Option Bytes) : seedRandReader :=
  { seed := seed, index := 0 }

/-- What a call of `Read` leaves behind: the count and the error it returns, the
buffer after the call, and the reader after the call. -/
structure ReadResult where
  n : Int
  err : Option Error
  p : Option Bytes
  srr : seedRandReader
  deriving DecidableEq, Repr

/-- The loop of `Read` over the positions of the buffer still to be written:
`p[i] = srr.seed[srr.index]; srr.index++; srr.index = srr.index % len(srr.seed)`.
The result is the written positions and the index after the loop, or `none`
when `srr.seed[srr.index]` is out of range, which panics. The operator `%` of Go
truncates towards zero; `srr.index++` cannot overflow, as it is only reached
with an index below the length of a slice. -/
def readLoop (seed : Bytes) : Int → Bytes → Option (Bytes × Int)
  | index, [] => some ([], index)
  | index, _ :: rest =>
    if 0 ≤ index ∧ index < seed.length then
      match seed[index.toNat]? with
      | none => none
      | some b =>
        match readLoop seed (Int.tmod (index + 1) seed.length) rest with
        | none => none
        | some (written, last) => some (b :: written, last)
    else none

/-- Method `seedRandReader.Read`. A nil buffer is `none`. The result is `none`
when the call panics. -/
def seedRandReader.Read (srr : seedRandReader) (p : Option Bytes) : Option ReadResult :=
  match srr.seed with
  | none => some { n := 0, err := some (.New "nil seed"), p := p, srr := srr }
  | some seed =>
    if seed.length = 0 then
      some { n := 0, err := some (.New "empty seed"), p := p, srr := srr }
    else
      match p with
      | none => some { n := 0, err := some (.New "nil buffer"), p := p, srr := srr }
      | some buff =>
        if buff.length = 0 then
          some { n := 0, err := some (.New "empty buffer"), p := p, srr := srr }
        else
          match readLoop seed srr.index buff with
          | none => none
          | some (written, last) =>
            some { n := buff.length, err := none, p := some written,
                   srr := { srr with index := last } }

/-- A sequence of calls of `Read` on one reader, one per buffer: what each call
returns (count, error, buffer after the call). A call that panics ends the
sequence with `none`. -/
def readAll : seedRandReader → List (Option Bytes) →
    List (Option (Int × Option Error × Option Bytes))
  | _, [] => []
  | srr, p :: ps =>
    match srr.Read p with
    | none => [none]
    | some r => some (r.n, r.err, r.p) :: readAll r.srr ps

/-- The bytes of the seed repeated cyclically: `n` bytes from position `start`
of the repetition. -/
def cycle (seed : Bytes) (start n : Nat) : Bytes :=
  (List.range n).map (fun k => seed.getD ((start + k) % seed.length) 0)

/-- What a sequence of reads of the given lengths returns when the bytes depend
only on the seed and on the number of bytes read so far: each read returns its
length, no error, and the next bytes of the repeated seed. -/
def expectedReads (seed : Bytes) : Nat → List Nat →
    List (Option (Int × Option Error × Option Bytes))
  | _, [] => []
  | total, n :: ns =>
    some ((n : Int), none, some (cycle seed total n)) :: expectedReads seed (total + n) ns

/-- The node section of the P2P configuration. `Port` is a Go `int`. -/
structure NodeConfig where
  Port : Int
  Seed : String
  deriving DecidableEq, Repr

/-- The P2P configuration (`config.P2PConfig`): the node section, and the rest
of the configuration, which only the peer discovery factory reads. -/
structure P2PConfig (C : Type) where
  Node : NodeConfig
  Discovery : C

/-- The source of randomness handed to the key generation: the seed-based
reader, or `rand.Reader` of the system. -/
inductive RandReader where
  | seeded (srr : seedRandReader)
  | system
  deriving DecidableEq, Repr

/-- A peer discoverer, by its dynamic type: the Kad-DHT discoverer
(`*discovery.KadDhtDiscoverer`) or any other. -/
inductive Discoverer where
  | KadDhtDiscoverer (name : String)
  | other (name : String)
  deriving DecidableEq, Repr

/-- The libraries the construction of the node calls: the hasher, the peer
discovery factory, the key generation and the constructor of the network
messenger. `C` is the rest of the configuration, `K` the private keys, `M` the
messengers. -/
structure Libraries (C K M : Type) where
  Compute : String → Bytes
  CreatePeerDiscoverer : P2PConfig C → Except Error Discoverer
  GenerateKey : RandReader → K
  NewNetworkMessenger : Int → K → Discoverer → Except Error M

/-- One construction made while building the messenger. -/
inductive Construction where
  | CreatePeerDiscoverer
  | GenerateKey
  | NewNetworkMessenger
  deriving DecidableEq, Repr

/-- Function `createNetMessenger`: the messenger or the error, and the
constructions made, oldest first. The pair `(nil, err)` is `Except.error err`. -/
def createNetMessenger {C K M : Type} (lib : Libraries C K M)
    (p2pConfig : P2PConfig C) (randReader : RandReader) :
    Except Error M × List Construction :=
  if p2pConfig.Node.Port ≤ 0 then
    (.error (.New "cannot start node on port <= 0"), [])
  else
    match lib.CreatePeerDiscoverer p2pConfig with
    | .error err => (.error err, [.CreatePeerDiscoverer])
    | .ok pDiscoverer =>
      match pDiscoverer with
      | .other _ =>
        (.error (.New "kad-dht peer discovery should have been enabled"),
          [.CreatePeerDiscoverer])
      | .KadDhtDiscoverer _ =>
        let sk := lib.GenerateKey randReader
        match lib.NewNetworkMessenger p2pConfig.Node.Port sk pDiscoverer with
        | .error err =>
          (.error err, [.CreatePeerDiscoverer, .GenerateKey, .NewNetworkMessenger])
        | .ok nm => (.ok nm, [.CreatePeerDiscoverer, .GenerateKey, .NewNetworkMessenger])

/-- The source of randomness `createNode` chooses: the seed-based reader over
the hash of the configured seed when a seed is configured, the system's
otherwise. -/
def chooseRandReader {C K M : Type} (lib : Libraries C K M) (p2pConfig : P2PConfig C) :
    RandReader :=
  if p2pConfig.Node.Seed ≠ "" then
    .seeded (NewSeedRandReader (some (lib.Compute p2pConfig.Node.Seed)))
  else .system

/-- Function `createNode`. -/
def createNode {C K M : Type} (lib : Libraries C K M) (p2pConfig : P2PConfig C) :
    Except Error M × List Construction :=
  let randReader := chooseRandReader lib p2pConfig
  match createNetMessenger lib p2pConfig randReader with
  | (.error err, made) => (.error err, made)
  | (.ok netMessenger, made) => (.ok netMessenger, made)

/-- Stub libraries: the hash of a seed is its list of character codes, the
discoverer is the Kad-DHT one exactly when the rest of the configuration says
`true`, a key is the reader it was generated from, and a messenger is its
port. -/
def stubLibraries : Libraries Bool RandReader Int :=
  { Compute := fun seed => seed.toList.map Char.toNat
    CreatePeerDiscoverer := fun cfg =>
      if cfg.Discovery then .ok (.KadDhtDiscoverer "kad-dht") else .ok (.other "mdns")
    GenerateKey := fun r => r
    NewNetworkMessenger := fun port _ _ => .ok port }

end seednode

/-!
# Change of owner address

A shallow embedding of
`process/smartContract/builtInFunctions/changeOwnerAddress.go`.
-/

namespace builtInFunctions

/-- A byte slice. `bytes.Equal` is equality of lists: it does not tell a nil
slice from an empty one. -/
abbrev Bytes := List Nat

/-- The error values of the built-in function: the sentinels of package
`process` it names, and any other error the account may answer with. -/
inductive Error where
  | ErrNilVmInput
  | ErrInvalidArguments
  | ErrNilSCDestAccount
  | ErrOperationNotPermitted
  | ErrInvalidAddressLength
  | other (msg : String)
  deriving DecidableEq, Repr

/-- The input of a contract call (`vmcommon.ContractCallInput`): the fields the
built-in function reads. -/
structure ContractCallInput where
  CallerAddr : Bytes
  Arguments : List Bytes
  deriving DecidableEq, Repr

/-- Interface `state.UserAccountHandler`, the methods the built-in function
uses: the owner address, the bytes of the account's address
(`AddressContainer().Bytes()`), and `ChangeOwnerAddress`, which answers with an
error or nil and leaves the account in a new state. -/
class UserAccountHandler (A : Type) where
  GetOwnerAddress : A → Bytes
  AddressContainerBytes : A → Bytes
  ChangeOwnerAddress : Bytes → Bytes → A → Option Error × A

/-- The Go struct `changeOwnerAddress`; `gasCost` is a `uint64`. -/
structure changeOwnerAddress where
  gasCost : Nat
  deriving DecidableEq, Repr

/-- Constructor `NewChangeOwnerAddressFunc`. -/
def NewChangeOwnerAddressFunc (gasCost : Nat) : changeOwnerAddress :=
  { gasCost := gasCost }

/-- Method `GasUsed`. -/
def changeOwnerAddress.GasUsed (c : changeOwnerAddress) : Nat :=
  c.gasCost

/-- What a call of `ProcessBuiltinFunction` leaves behind: the value and the
error it returns (a nil `*big.Int` is `none`), the destination account after
the call, and the `ChangeOwnerAddress` calls made on it, each with its two
arguments. -/
structure Outcome (A : Type) where
  value : Option Int
  err : Option Error
  acntDst : Option A
  changes : List (Bytes × Bytes)

/-- Method `ProcessBuiltinFunction`. A nil account and a nil input are `none`;
the first parameter, the sender account, has no name in the source. The test
`len(vmInput.Arguments) == 0` and the later read of `vmInput.Arguments[0]` are
the two branches of the match on the arguments. -/
def changeOwnerAddress.ProcessBuiltinFunction {A : Type} [UserAccountHandler A]
    (_c : changeOwnerAddress) (_acntSnd acntDst : Option A)
    (vmInput : Option ContractCallInput) : Outcome A :=
  match vmInput with
  | none => { value := none, err := some .ErrNilVmInput, acntDst := acntDst, changes := [] }
  | some vmInput =>
    match vmInput.Arguments with
    | [] =>
      { value := none, err := some .ErrInvalidArguments, acntDst := acntDst, changes := [] }
    | argument0 :: _ =>
      match acntDst with
      | none =>
        { value := none, err := some .ErrNilSCDestAccount, acntDst := none, changes := [] }
      | some dst =>
        if vmInput.CallerAddr ≠ UserAccountHandler.GetOwnerAddress dst then
          { value := none, err := some .ErrOperationNotPermitted, acntDst := some dst,
            changes := [] }
        else if argument0.length ≠ (UserAccountHandler.AddressContainerBytes dst).length then
          { value := none, err := some .ErrInvalidAddressLength, acntDst := some dst,
            changes := [] }
        else
          match UserAccountHandler.ChangeOwnerAddress vmInput.CallerAddr argument0 dst with
          | (some err, dst1) =>
            { value := none, err := some err, acntDst := some dst1,
              changes := [(vmInput.CallerAddr, argument0)] }
          | (none, dst1) =>
            { value := some 0, err := none, acntDst := some dst1,
              changes := [(vmInput.CallerAddr, argument0)] }

/-- A stub account: its address, its owner, and whether it refuses changes. -/
structure StubAccount where
  address : Bytes
  owner : Bytes
  frozen : Bool
  deriving DecidableEq, Repr

/-- The stub account changes its owner unless it is frozen. -/
instance : UserAccountHandler StubAccount where
  GetOwnerAddress := fun a => a.owner
  AddressContainerBytes := fun a => a.address
  ChangeOwnerAddress := fun _ newAddress a =>
    if a.frozen then (some (.other "account is frozen"), a)
    else (none, { a with owner := newAddress })

end builtInFunctions

/-!
# Genesis smart contracts parser

A shallow embedding of `genesis/parsing/smartContractParser.go`.
-/

namespace parsing

/-- A byte slice. -/
abbrev Bytes := List Nat

/-- The errors of `hex.DecodeString`: an input of odd length, or a byte that is
no hexadecimal digit. -/
inductive HexError where
  | ErrLength
  | InvalidByteError (b : Nat)
  deriving DecidableEq, Repr

/-- The error values of the parser: the sentinels of package `genesis` it
names, an error made with `fmt.Errorf("%w ...")`, which wraps a sentinel and
tells the entry it is about (and the cause, when the format prints one), and
any other error a collaborator may answer with. -/
inductive Error where
  | ErrNilPubkeyConverter
  | ErrEmptyOwnerAddress
  | ErrInvalidOwnerAddress
  | ErrEmptyVmType
  | ErrInvalidVmType
  | ErrDuplicateOwnerAddress
  | ErrNilShardCoordinator
  | wrap (sentinel : Error) (subject : String) (cause : Option HexError)
  | other (msg : String)
  deriving DecidableEq, Repr

/-- An error wraps a sentinel when it is made from it with `fmt.Errorf("%w ...")`. -/
def Error.wraps (err sentinel : Error) : Prop :=
  ∃ subject cause, err = .wrap sentinel subject cause

/-- The Go struct `data.InitialSmartContract`: the fields read from the genesis
file, and the owner bytes set by the parser. -/
structure InitialSmartContract where
  Owner : String
  Filename : String
  VmType : String
  ownerBytes : Bytes
  deriving DecidableEq, Repr

/-- Method `SetOwnerBytes`. -/
def InitialSmartContract.SetOwnerBytes (isc : InitialSmartContract) (owner : Bytes) :
    InitialSmartContract :=
  { isc with ownerBytes := owner }

/-- Method `OwnerBytes`. -/
def InitialSmartContract.OwnerBytes (isc : InitialSmartContract) : Bytes :=
  isc.ownerBytes

/-- Interface `state.PubkeyConverter`, the methods the parser uses; `Addr` is
the type of addresses. -/
structure PubkeyConverter (Addr : Type) where
  Decode : String → Except Error Bytes
  CreateAddressFromBytes : Bytes → Except Error Addr

/-- Interface `sharding.Coordinator`, the method the parser uses; shard
identifiers are `uint32`. -/
structure Coordinator (Addr : Type) where
  ComputeId : Addr → Nat

/-- The Go struct `smartContractParser`. -/
structure smartContractParser (Addr : Type) where
  initialSmartContracts : List InitialSmartContract
  pubkeyConverter : PubkeyConverter Addr
  checkForFileHandler : String → Option Error

/-- The bytes a character takes in a Go string: its UTF-8 encoding, of one byte
below `0x80` for an ASCII character and of two to four bytes from `0x80` on
for any other. -/
def utf8EncodeChar (c : Char) : Bytes :=
  let v := c.toNat
  if v < 0x80 then [v]
  else if v < 0x800 then [0xC0 + v / 64, 0x80 + v % 64]
  else if v < 0x10000 then [0xE0 + v / 4096, 0x80 + v / 64 % 64, 0x80 + v % 64]
  else [0xF0 + v / 262144, 0x80 + v / 4096 % 64, 0x80 + v / 64 % 64, 0x80 + v % 64]

/-- The bytes of the characters of a string, in order. -/
def utf8Encode : List Char → Bytes
  | [] => []
  | c :: cs => utf8EncodeChar c ++ utf8Encode cs

/-- The conversion `[]byte(s)` of a Go string. -/
def stringBytes (s : String) : Bytes :=
  utf8Encode s.toList

/-- The value of a hexadecimal digit (`reverseHexTable` of `encoding/hex`), or
`none` for any other byte. -/
def fromHexChar (c : Nat) : Option Nat :=
  if 48 ≤ c ∧ c ≤ 57 then some (c - 48)
  else if 97 ≤ c ∧ c ≤ 102 then some (c - 97 + 10)
  else if 65 ≤ c ∧ c ≤ 70 then some (c - 65 + 10)
  else none

/-- The loop of `hex.Decode` of the standard library: the digits are read in
pairs from the left; the first byte that is no digit is reported; a single byte
left over is reported as a bad length if it is a digit. -/
def hexDecode : Bytes → Except HexError Bytes
  | [] => .ok []
  | [p] =>
    match fromHexChar p with
    | none => .error (.InvalidByteError p)
    | some _ => .error .ErrLength
  | p :: q :: rest =>
    match fromHexChar p with
    | none => .error (.InvalidByteError p)
    | some a =>
      match fromHexChar q with
      | none => .error (.InvalidByteError q)
      | some b =>
        match hexDecode rest with
        | .error err => .error err
        | .ok bytes => .ok ((a * 16 + b) :: bytes)

/-- Function `hex.DecodeString` of the standard library: `hex.Decode` on the
bytes of the string. -/
def DecodeString (s : String) : Except HexError Bytes :=
  hexDecode (stringBytes s)

/-- A string is valid hexadecimal when it has an even number of characters,
all of them hexadecimal digits. -/
def validHex (s : String) : Prop :=
  s.length % 2 = 0 ∧ ∀ c ∈ s.toList, (fromHexChar c.toNat).isSome

/-- Method `parseElement`: the error it returns and the entry after the
call. -/
def parseElement {Addr : Type} (pubkeyConverter : PubkeyConverter Addr)
    (initialSmartContract : InitialSmartContract) :
    Option Error × InitialSmartContract :=
  if initialSmartContract.Owner.length = 0 then
    (some .ErrEmptyOwnerAddress, initialSmartContract)
  else
    match pubkeyConverter.Decode initialSmartContract.Owner with
    | .error _ =>
      (some (.wrap .ErrInvalidOwnerAddress initialSmartContract.Owner none),
        initialSmartContract)
    | .ok ownerBytes =>
      let parsed := initialSmartContract.SetOwnerBytes ownerBytes
      if parsed.VmType.length = 0 then
        (some (.wrap .ErrEmptyVmType parsed.Owner none), parsed)
      else
        match DecodeString parsed.VmType with
        | .error err => (some (.wrap .ErrInvalidVmType parsed.VmType (some err)), parsed)
        | .ok _ => (none, parsed)

/-- Method `checkForDuplicates`, on the list of entries: the two nested index
loops return at the first pair of indexes `idx1 < idx2` whose entries have the
same owner. -/
def checkForDuplicates (initialSmartContracts : List InitialSmartContract) :
    Option Error :=
  (List.range initialSmartContracts.length).findSome? fun idx1 =>
    (List.range' (idx1 + 1) (initialSmartContracts.length - (idx1 + 1))).findSome?
      fun idx2 =>
        match initialSmartContracts[idx1]?, initialSmartContracts[idx2]? with
        | some ib1, some ib2 =>
          if ib1.Owner = ib2.Owner then
            some (.wrap .ErrDuplicateOwnerAddress ib1.Owner none)
          else none
        | _, _ => none

/-- The first loop of `process`: every entry is parsed and its file is checked,
up to the first error; the entries are returned as the loop leaves them. -/
def processEntries {Addr : Type} (pubkeyConverter : PubkeyConverter Addr)
    (checkForFileHandler : String → Option Error) :
    List InitialSmartContract → Option Error × List InitialSmartContract
  | [] => (none, [])
  | initialSmartContract :: rest =>
    match parseElement pubkeyConverter initialSmartContract with
    | (some err, parsed) => (some err, parsed :: rest)
    | (none, parsed) =>
      match checkForFileHandler parsed.Filename with
      | some err => (some err, parsed :: rest)
      | none =>
        match processEntries pubkeyConverter checkForFileHandler rest with
        | (err, done) => (err, parsed :: done)

/-- Method `process`: the error it returns and the parser after the call. -/
def smartContractParser.process {Addr : Type} (scp : smartContractParser Addr) :
    Option Error × smartContractParser Addr :=
  match processEntries scp.pubkeyConverter scp.checkForFileHandler
      scp.initialSmartContracts with
  | (some err, entries) => (some err, { scp with initialSmartContracts := entries })
  | (none, entries) =>
    match checkForDuplicates entries with
    | some err => (some err, { scp with initialSmartContracts := entries })
    | none => (none, { scp with initialSmartContracts := entries })

/-- Constructor `NewSmartContractsParser`. The entries `core.LoadJsonFile` reads
from the genesis file, or its error, and the check of the file system behind
`checkForFile` are given; a nil converter is `none`. -/
def NewSmartContractsParser {Addr : Type}
    (loaded : Except Error (List InitialSmartContract))
    (checkForFile : String → Option Error)
    (pubkeyConverter : Option (PubkeyConverter Addr)) :
    Except Error (smartContractParser Addr) :=
  match pubkeyConverter with
  | none => .error .ErrNilPubkeyConverter
  | some pubkeyConverter =>
    match loaded with
    | .error err => .error err
    | .ok initialSmartContracts =>
      let scp : smartContractParser Addr :=
        { initialSmartContracts := initialSmartContracts
          pubkeyConverter := pubkeyConverter
          checkForFileHandler := checkForFile }
      match scp.process with
      | (some err, _) => .error err
      | (none, scp) => .ok scp

/-- Method `InitialSmartContracts`: a copy of the list of entries. -/
def smartContractParser.InitialSmartContracts {Addr : Type} (scp : smartContractParser Addr) :
    List InitialSmartContract :=
  scp.initialSmartContracts.map fun isc => isc

/-- The entries at positions `i` and `j` of the list have the same owner. -/
def sameOwner (entries : List InitialSmartContract) (i j : Nat) : Prop :=
  ∃ ib1 ib2, entries[i]? = some ib1 ∧ entries[j]? = some ib2 ∧ ib1.Owner = ib2.Owner

/-- A Go map from shard identifiers to lists of entries: the list under a key,
or `none` for a key that is not in the map. -/
abbrev ShardMap := Nat → Option (List InitialSmartContract)

/-- The map `make(map[uint32][]genesis.InitialSmartContractHandler)`. -/
def ShardMap.empty : ShardMap := fun _ => none

/-- Reading `smartContracts[shardID]`: a key that is not in the map reads as the
nil slice. -/
def ShardMap.get (m : ShardMap) (shardID : Nat) : List InitialSmartContract :=
  (m shardID).getD []

/-- Writing `smartContracts[shardID] = value`. -/
def ShardMap.set (m : ShardMap) (shardID : Nat) (value : List InitialSmartContract) :
    ShardMap :=
  fun k => if k = shardID then some value else m k

/-- The loop of `InitialSmartContractsSplitOnOwnersShards` over the entries
still to be placed. -/
def splitEntries {Addr : Type} (pubkeyConverter : PubkeyConverter Addr)
    (shardCoordinator : Coordinator Addr) :
    List InitialSmartContract → ShardMap → Except Error ShardMap
  | [], smartContracts => .ok smartContracts
  | isc :: rest, smartContracts =>
    match pubkeyConverter.CreateAddressFromBytes isc.OwnerBytes with
    | .error err => .error err
    | .ok ownerAddress =>
      let shardID := shardCoordinator.ComputeId ownerAddress
      splitEntries pubkeyConverter shardCoordinator rest
        (smartContracts.set shardID (smartContracts.get shardID ++ [isc]))

/-- Method `InitialSmartContractsSplitOnOwnersShards`. A nil coordinator is
`none`. -/
def smartContractParser.InitialSmartContractsSplitOnOwnersShards {Addr : Type}
    (scp : smartContractParser Addr) (shardCoordinator : Option (Coordinator Addr)) :
    Except Error ShardMap :=
  match shardCoordinator with
  | none => .error .ErrNilShardCoordinator
  | some shardCoordinator =>
    splitEntries scp.pubkeyConverter shardCoordinator scp.initialSmartContracts
      ShardMap.empty

/-- The shard of the owner of an entry: `shardCoordinator.ComputeId` of the
address made from its owner bytes (shard 0 stands in when no address can be
made). -/
def ownerShard {Addr : Type} (pubkeyConverter : PubkeyConverter Addr)
    (shardCoordinator : Coordinator Addr) (isc : InitialSmartContract) : Nat :=
  match pubkeyConverter.CreateAddressFromBytes isc.OwnerBytes with
  | .ok ownerAddress => shardCoordinator.ComputeId ownerAddress
  | .error _ => 0

/-- A stub converter: an owner is decoded to its character codes, and cannot be
decoded when it contains `'!'`; an address is its bytes, and cannot be made
from no bytes. -/
def stubConverter : PubkeyConverter Bytes :=
  { Decode := fun owner =>
      if '!' ∈ owner.toList then .error (.other "cannot decode")
      else .ok (owner.toList.map Char.toNat)
    CreateAddressFromBytes := fun bytes =>
      if bytes = [] then .error (.other "empty address") else .ok bytes }

/-- A stub coordinator over two shards: the shard is the parity of the last
byte of the address. -/
def stubCoordinator : Coordinator Bytes :=
  { ComputeId := fun address => address.getLastD 0 % 2 }

/-- A stub parser over the given entries, for which every file exists. -/
def stubParser (entries : List InitialSmartContract) : smartContractParser Bytes :=
  { initialSmartContracts := entries
    pubkeyConverter := stubConverter
    checkForFileHandler := fun _ => none }

end parsing

namespace interceptors

/-! ## The shape of the element loop -/

/-- Induction over the element loop: a property of the accumulator it starts
with, the batch, the error it returns and the calls it makes holds as soon as
it is kept by each of the four ways an element can go: the factory fails, the
datum is invalid, the datum is dropped as irrelevant, the datum is handed to
the processor. -/
theorem processElements_shape {W D : Type} [InterceptedData D]
    (mdi : MultiDataInterceptor W D) (message : MessageP2P) (fromConnectedPeer : PeerID)
    (motive : List Bytes → Option Error → Option Error → List (Call D) → Prop)
    (hnil : ∀ e, motive [] e e [])
    (hcreate : ∀ buff rest e ret t err,
      motive rest (some err) ret t →
      motive (buff :: rest) e ret
        (.Create buff (.error err)
          :: .BlacklistPeer message.Peer (createReason mdi) .InvalidMessageBlacklistDuration
          :: .BlacklistPeer fromConnectedPeer (createReason mdi)
              .InvalidMessageBlacklistDuration
          :: t))
    (hinvalid : ∀ buff rest e ret t data err,
      InterceptedData.CheckValidity data = some err →
      motive rest (some err) ret t →
      motive (buff :: rest) e ret
        (.Create buff (.ok data) :: .LogReceived mdi.topic data
          :: .CheckValidity data (some err) :: .LogProcessed mdi.topic data (some err) :: t))
    (hdrop : ∀ buff rest e ret t data,
      InterceptedData.CheckValidity data = none →
      InterceptedData.IsForCurrentShard data = false →
      motive rest e ret t →
      motive (buff :: rest) e ret
        (.Create buff (.ok data) :: .LogReceived mdi.topic data
          :: .CheckValidity data none :: .IsForCurrentShard data false
          :: .IsWhiteListed data false :: .Hash data :: t))
    (hcommit : ∀ buff rest e ret t data listed res,
      InterceptedData.CheckValidity data = none →
      (InterceptedData.IsForCurrentShard data || listed) = true →
      motive rest (recordError res e) ret t →
      motive (buff :: rest) e ret
        (.Create buff (.ok data) :: .LogReceived mdi.topic data
          :: .CheckValidity data none
          :: .IsForCurrentShard data (InterceptedData.IsForCurrentShard data)
          :: .IsWhiteListed data listed :: .Commit data mdi.topic message res
          :: .LogProcessed mdi.topic data res :: t))
    (bufs : List Bytes) (e : Option Error) (w : W) :
    motive bufs e (processElements mdi message fromConnectedPeer bufs e w).ret
      (processElements mdi message fromConnectedPeer bufs e w).calls := by
  induction bufs generalizing e w with
  | nil => simpa [processElements] using hnil e
  | cons buff rest ih =>
    rcases hc : mdi.factory.Create buff w with ⟨res, w1⟩
    cases res with
    | error err =>
      have := hcreate buff rest e _ _ err (ih (some err)
        (mdi.antifloodHandler.BlacklistPeer fromConnectedPeer (createReason mdi)
          .InvalidMessageBlacklistDuration
          (mdi.antifloodHandler.BlacklistPeer message.Peer (createReason mdi)
            .InvalidMessageBlacklistDuration w1)))
      simpa [processElements, interceptedData, hc, createReason] using this
    | ok data =>
      cases hv : InterceptedData.CheckValidity data with
      | some err =>
        have := hinvalid buff rest e _ _ data err hv (ih (some err)
          (mdi.interceptedDebugHandler.LogProcessed mdi.topic data (some err)
            (mdi.interceptedDebugHandler.LogReceived mdi.topic data w1)))
        simpa [processElements, interceptedData, hc, hv, receivedDebugInterceptedData,
          processDebugInterceptedData] using this
      | none =>
        rcases hw : mdi.whiteListRequest.IsWhiteListed data
          (mdi.interceptedDebugHandler.LogReceived mdi.topic data w1) with ⟨listed, w2⟩
        by_cases hr : (InterceptedData.IsForCurrentShard data || listed) = true
        · rcases hp : mdi.processor.Commit data mdi.topic message w2 with ⟨res, w3⟩
          have := hcommit buff rest e _ _ data listed res hv hr
            (ih (recordError res e)
              (mdi.interceptedDebugHandler.LogProcessed mdi.topic data res w3))
          simpa [processElements, interceptedData, hc, hv, hw, hr, hp,
            receivedDebugInterceptedData, processDebugInterceptedData,
            processInterceptedData] using this
        · simp only [Bool.not_eq_true, Bool.or_eq_false_iff] at hr
          have := hdrop buff rest e _ _ data hv hr.1 (ih e w2)
          simpa [processElements, interceptedData, hc, hv, hw, hr.1, hr.2,
            receivedDebugInterceptedData] using this

/-- Recording an error before a list of later errors: the last one wins. -/
theorem recordError_getLast_cons (err : Error) (l : List Error) (e : Option Error) :
    recordError (err :: l).getLast? e = recordError l.getLast? (some err) := by
  rw [List.getLast?_cons]
  cases l.getLast? <;> simp [recordError]

/-- The loop returns the error of the last failing element, or the accumulator
it started with when no element failed. -/
theorem processElements_ret {W D : Type} [InterceptedData D]
    (mdi : MultiDataInterceptor W D) (message : MessageP2P) (fromConnectedPeer : PeerID)
    (bufs : List Bytes) (e : Option Error) (w : W) :
    (processElements mdi message fromConnectedPeer bufs e w).ret
      = recordError
          (failures (processElements mdi message fromConnectedPeer bufs e w).calls).getLast?
          e := by
  refine processElements_shape mdi message fromConnectedPeer
    (fun _ e ret t => ret = recordError (failures t).getLast? e) ?_ ?_ ?_ ?_ ?_ bufs e w
  · intro e; simp [failures, recordError]
  · intro _ _ e ret t err h
    simp only [failures, List.filterMap_cons] at h ⊢
    rw [recordError_getLast_cons]; exact h
  · intro _ _ e ret t data err _ h
    simp only [failures, List.filterMap_cons] at h ⊢
    rw [recordError_getLast_cons]; exact h
  · intro _ _ e ret t data _ _ h
    simp only [failures, List.filterMap_cons] at h ⊢
    exact h
  · intro _ _ e ret t data listed res _ _ h
    cases res with
    | none =>
      simp only [failures, List.filterMap_cons, recordError] at h ⊢
      exact h
    | some err =>
      simp only [failures, List.filterMap_cons] at h ⊢
      rw [recordError_getLast_cons]; exact h

/-- Every element of the batch is given to the factory exactly once, in wire
order. -/
theorem processElements_creations {W D : Type} [InterceptedData D]
    (mdi : MultiDataInterceptor W D) (message : MessageP2P) (fromConnectedPeer : PeerID)
    (bufs : List Bytes) (e : Option Error) (w : W) :
    (creations (processElements mdi message fromConnectedPeer bufs e w).calls).map Prod.fst
      = bufs := by
  refine processElements_shape mdi message fromConnectedPeer
    (fun bufs _ _ t => (creations t).map Prod.fst = bufs) ?_ ?_ ?_ ?_ ?_ bufs e w
  · intro _; rfl
  all_goals
    intros
    simp only [creations, List.filterMap_cons, List.map_cons] at *
    simp [*]

/-- The factory either creates a datum or fails, on each element of the
batch. -/
theorem processElements_created_length {W D : Type} [InterceptedData D]
    (mdi : MultiDataInterceptor W D) (message : MessageP2P) (fromConnectedPeer : PeerID)
    (bufs : List Bytes) (e : Option Error) (w : W) :
    (created (processElements mdi message fromConnectedPeer bufs e w).calls).length
      + (createFailures (processElements mdi message fromConnectedPeer bufs e w).calls).length
      = bufs.length := by
  refine processElements_shape mdi message fromConnectedPeer
    (fun bufs _ _ t => (created t).length + (createFailures t).length = bufs.length)
    ?_ ?_ ?_ ?_ ?_ bufs e w
  · intro _; rfl
  all_goals
    intros
    simp only [created, createFailures, List.filterMap_cons, List.length_cons] at *
    omega

/-- The loop blacklists twice per failed factory creation, and never
otherwise. -/
theorem processElements_blacklistings {W D : Type} [InterceptedData D]
    (mdi : MultiDataInterceptor W D) (message : MessageP2P) (fromConnectedPeer : PeerID)
    (bufs : List Bytes) (e : Option Error) (w : W) :
    (blacklistings (processElements mdi message fromConnectedPeer bufs e w).calls).length
        = 2 * (createFailures
            (processElements mdi message fromConnectedPeer bufs e w).calls).length
      ∧ ∀ x ∈ blacklistings (processElements mdi message fromConnectedPeer bufs e w).calls,
          (x.1 = message.Peer ∨ x.1 = fromConnectedPeer)
            ∧ x.2.1 = createReason mdi
            ∧ x.2.2 = Duration.InvalidMessageBlacklistDuration := by
  refine processElements_shape mdi message fromConnectedPeer
    (fun _ _ _ t => (blacklistings t).length = 2 * (createFailures t).length
      ∧ ∀ x ∈ blacklistings t, (x.1 = message.Peer ∨ x.1 = fromConnectedPeer)
            ∧ x.2.1 = createReason mdi
            ∧ x.2.2 = Duration.InvalidMessageBlacklistDuration) ?_ ?_ ?_ ?_ ?_ bufs e w
  · intro _; simp [blacklistings, createFailures]
  · intro _ _ _ _ t err h
    simp only [blacklistings, createFailures, List.filterMap_cons, List.length_cons,
      List.mem_cons] at h ⊢
    refine ⟨by omega, ?_⟩
    rintro x (rfl | rfl | hx)
    · simp
    · simp
    · exact h.2 x hx
  all_goals
    intro _ _ _ _ t
    intros
    simp only [blacklistings, createFailures, List.filterMap_cons] at *
    assumption

/-- The validity of a datum is checked exactly when the factory created it. -/
theorem processElements_validityChecks {W D : Type} [InterceptedData D]
    (mdi : MultiDataInterceptor W D) (message : MessageP2P) (fromConnectedPeer : PeerID)
    (bufs : List Bytes) (e : Option Error) (w : W) :
    validityChecks (processElements mdi message fromConnectedPeer bufs e w).calls
      = created (processElements mdi message fromConnectedPeer bufs e w).calls := by
  refine processElements_shape mdi message fromConnectedPeer
    (fun _ _ _ t => validityChecks t = created t) ?_ ?_ ?_ ?_ ?_ bufs e w
  · intro _; rfl
  all_goals
    intros
    simp only [validityChecks, created, List.filterMap_cons] at *
    simp [*]

/-- The data whose validity check failed are the created data that are
invalid. -/
theorem processElements_invalids {W D : Type} [InterceptedData D]
    (mdi : MultiDataInterceptor W D) (message : MessageP2P) (fromConnectedPeer : PeerID)
    (bufs : List Bytes) (e : Option Error) (w : W) :
    invalids (processElements mdi message fromConnectedPeer bufs e w).calls
      = (created (processElements mdi message fromConnectedPeer bufs e w).calls).filter
          (fun d => (InterceptedData.CheckValidity d).isSome) := by
  refine processElements_shape mdi message fromConnectedPeer
    (fun _ _ _ t => invalids t
      = (created t).filter (fun d => (InterceptedData.CheckValidity d).isSome))
    ?_ ?_ ?_ ?_ ?_ bufs e w
  · intro _; rfl
  all_goals
    intros
    simp only [invalids, created, List.filterMap_cons] at *
    simp [*]

/-- The white list is asked about exactly the created data that are valid, in
wire order. -/
theorem processElements_whiteListChecks {W D : Type} [InterceptedData D]
    (mdi : MultiDataInterceptor W D) (message : MessageP2P) (fromConnectedPeer : PeerID)
    (bufs : List Bytes) (e : Option Error) (w : W) :
    (whiteListChecks (processElements mdi message fromConnectedPeer bufs e w).calls).map
        Prod.fst
      = (created (processElements mdi message fromConnectedPeer bufs e w).calls).filter
          (fun d => (InterceptedData.CheckValidity d).isNone) := by
  refine processElements_shape mdi message fromConnectedPeer
    (fun _ _ _ t => (whiteListChecks t).map Prod.fst
      = (created t).filter (fun d => (InterceptedData.CheckValidity d).isNone))
    ?_ ?_ ?_ ?_ ?_ bufs e w
  · intro _; rfl
  all_goals
    intros
    simp only [whiteListChecks, created, List.filterMap_cons] at *
    simp [*]

/-- The data handed to the processor are exactly the data the white list was
asked about that are relevant, in wire order. -/
theorem processElements_commits {W D : Type} [InterceptedData D]
    (mdi : MultiDataInterceptor W D) (message : MessageP2P) (fromConnectedPeer : PeerID)
    (bufs : List Bytes) (e : Option Error) (w : W) :
    commits (processElements mdi message fromConnectedPeer bufs e w).calls
      = ((whiteListChecks
          (processElements mdi message fromConnectedPeer bufs e w).calls).filter
            relevant).map Prod.fst := by
  refine processElements_shape mdi message fromConnectedPeer
    (fun _ _ _ t => commits t = ((whiteListChecks t).filter relevant).map Prod.fst)
    ?_ ?_ ?_ ?_ ?_ bufs e w
  · intro _; rfl
  all_goals
    intros
    simp only [whiteListChecks, commits, List.filterMap_cons] at *
    simp [*, relevant]

/-- The loop does not touch the throttler and does not ask for quota. -/
theorem processElements_throttle {W D : Type} [InterceptedData D]
    (mdi : MultiDataInterceptor W D) (message : MessageP2P) (fromConnectedPeer : PeerID)
    (bufs : List Bytes) (e : Option Error) (w : W) :
    endProcessings (processElements mdi message fromConnectedPeer bufs e w).calls = 0
      ∧ startProcessings (processElements mdi message fromConnectedPeer bufs e w).calls = 0
      ∧ quotaChecks (processElements mdi message fromConnectedPeer bufs e w).calls = [] := by
  refine processElements_shape mdi message fromConnectedPeer
    (fun _ _ _ t => endProcessings t = 0 ∧ startProcessings t = 0 ∧ quotaChecks t = [])
    ?_ ?_ ?_ ?_ ?_ bufs e w
  · intro _; simp [endProcessings, startProcessings, quotaChecks]
  all_goals
    intros
    simp only [endProcessings, startProcessings, quotaChecks, List.filterMap_cons,
      List.countP_cons] at *
    simp [*]

/-! ## The four ways out of `ProcessReceivedMessage` after admission -/

/-- Unmarshal failure: result, world and calls. -/
theorem ProcessReceivedMessage_unmarshal_error {W D : Type} [InterceptedData D]
    (mdi : MultiDataInterceptor W D) (message : MessageP2P) (fromConnectedPeer : PeerID)
    (w w1 : W) (err : Error)
    (hpre : (admission mdi message fromConnectedPeer w).ret = none)
    (hun : mdi.marshalizer.Unmarshal message.Data
      (admission mdi message fromConnectedPeer w).world = (.error err, w1)) :
    ProcessReceivedMessage mdi message fromConnectedPeer w =
      ⟨some err,
        mdi.antifloodHandler.BlacklistPeer fromConnectedPeer (unmarshalReason mdi)
          .InvalidMessageBlacklistDuration
          (mdi.antifloodHandler.BlacklistPeer message.Peer (unmarshalReason mdi)
            .InvalidMessageBlacklistDuration (mdi.throttler.EndProcessing w1)),
        (admission mdi message fromConnectedPeer w).calls ++
          [.Unmarshal message.Data (.error err), .EndProcessing,
           .BlacklistPeer message.Peer (unmarshalReason mdi) .InvalidMessageBlacklistDuration,
           .BlacklistPeer fromConnectedPeer (unmarshalReason mdi)
             .InvalidMessageBlacklistDuration]⟩ := by
  unfold admission at hpre hun
  simp only [ProcessReceivedMessage, hpre, hun, unmarshalReason, admission]

/-- Empty batch: result, world and calls. -/
theorem ProcessReceivedMessage_empty {W D : Type} [InterceptedData D]
    (mdi : MultiDataInterceptor W D) (message : MessageP2P) (fromConnectedPeer : PeerID)
    (w w1 : W) (b : Batch)
    (hpre : (admission mdi message fromConnectedPeer w).ret = none)
    (hun : mdi.marshalizer.Unmarshal message.Data
      (admission mdi message fromConnectedPeer w).world = (.ok b, w1))
    (hlen : b.Data.length = 0) :
    ProcessReceivedMessage mdi message fromConnectedPeer w =
      ⟨some .ErrNoDataInMessage, mdi.throttler.EndProcessing w1,
        (admission mdi message fromConnectedPeer w).calls ++
          [.Unmarshal message.Data (.ok b), .EndProcessing]⟩ := by
  unfold admission at hpre hun
  simp only [ProcessReceivedMessage, hpre, hun, hlen, admission, if_true]

/-- Quota error: result, world and calls. -/
theorem ProcessReceivedMessage_quota_error {W D : Type} [InterceptedData D]
    (mdi : MultiDataInterceptor W D) (message : MessageP2P) (fromConnectedPeer : PeerID)
    (w w1 w2 : W) (b : Batch) (err : Error)
    (hpre : (admission mdi message fromConnectedPeer w).ret = none)
    (hun : mdi.marshalizer.Unmarshal message.Data
      (admission mdi message fromConnectedPeer w).world = (.ok b, w1))
    (hlen : b.Data.length ≠ 0)
    (hquota : mdi.antifloodHandler.CanProcessMessagesOnTopic fromConnectedPeer mdi.topic
      (b.Data.length % 2 ^ 32) (message.Data.length % 2 ^ 64) message.SeqNo w1
        = (some err, w2)) :
    ProcessReceivedMessage mdi message fromConnectedPeer w =
      ⟨some err, w2,
        (admission mdi message fromConnectedPeer w).calls ++
          [.Unmarshal message.Data (.ok b),
           .CanProcessMessagesOnTopic fromConnectedPeer mdi.topic
             (b.Data.length % 2 ^ 32) (message.Data.length % 2 ^ 64) message.SeqNo
             (some err)]⟩ := by
  unfold admission at hpre hun
  simp only [ProcessReceivedMessage, hpre, hun, hlen, hquota, admission, if_false]

/-- Element loop: result, world and calls. -/
theorem ProcessReceivedMessage_loop {W D : Type} [InterceptedData D]
    (mdi : MultiDataInterceptor W D) (message : MessageP2P) (fromConnectedPeer : PeerID)
    (w w1 w2 : W) (b : Batch)
    (hpre : (admission mdi message fromConnectedPeer w).ret = none)
    (hun : mdi.marshalizer.Unmarshal message.Data
      (admission mdi message fromConnectedPeer w).world = (.ok b, w1))
    (hlen : b.Data.length ≠ 0)
    (hquota : mdi.antifloodHandler.CanProcessMessagesOnTopic fromConnectedPeer mdi.topic
      (b.Data.length % 2 ^ 32) (message.Data.length % 2 ^ 64) message.SeqNo w1
        = (none, w2)) :
    ProcessReceivedMessage mdi message fromConnectedPeer w =
      ⟨(processElements mdi message fromConnectedPeer b.Data none w2).ret,
        mdi.throttler.EndProcessing
          (processElements mdi message fromConnectedPeer b.Data none w2).world,
        (admission mdi message fromConnectedPeer w).calls ++
          (.Unmarshal message.Data (.ok b)
            :: .CanProcessMessagesOnTopic fromConnectedPeer mdi.topic
                (b.Data.length % 2 ^ 32) (message.Data.length % 2 ^ 64) message.SeqNo none
            :: (processElements mdi message fromConnectedPeer b.Data none w2).calls
              ++ [.EndProcessing])⟩ := by
  unfold admission at hpre hun
  simp only [ProcessReceivedMessage, hpre, hun, hlen, hquota, admission, if_false,
    List.append_assoc, List.cons_append, List.nil_append]

/-- The calls after admission are what follows the calls of pre-processing. -/
theorem callsAfterAdmission_eq {W D : Type} [InterceptedData D]
    (mdi : MultiDataInterceptor W D) (message : MessageP2P) (fromConnectedPeer : PeerID)
    (w : W) (t : List (Call D))
    (h : (ProcessReceivedMessage mdi message fromConnectedPeer w).calls
      = (admission mdi message fromConnectedPeer w).calls ++ t) :
    callsAfterAdmission mdi message fromConnectedPeer w = t := by
  unfold callsAfterAdmission
  rw [h]
  simp

/-! ## Throttle balance -/

/-- Number of `EndProcessing` calls after admission, on each way out: one when
unmarshalling fails, one for an empty batch, one after the element loop, and
none when the quota check fails. -/
theorem endProcessings_after_admission {W D : Type} [InterceptedData D]
    (mdi : MultiDataInterceptor W D) (message : MessageP2P) (fromConnectedPeer : PeerID)
    (w : W)
    (hpre : (admission mdi message fromConnectedPeer w).ret = none) :
    (∀ err w1, mdi.marshalizer.Unmarshal message.Data
        (admission mdi message fromConnectedPeer w).world = (.error err, w1) →
      endProcessings (callsAfterAdmission mdi message fromConnectedPeer w) = 1)
    ∧ (∀ b w1, mdi.marshalizer.Unmarshal message.Data
        (admission mdi message fromConnectedPeer w).world = (.ok b, w1) →
      b.Data.length = 0 →
      endProcessings (callsAfterAdmission mdi message fromConnectedPeer w) = 1)
    ∧ (∀ b w1 w2, mdi.marshalizer.Unmarshal message.Data
        (admission mdi message fromConnectedPeer w).world = (.ok b, w1) →
      b.Data.length ≠ 0 →
      mdi.antifloodHandler.CanProcessMessagesOnTopic fromConnectedPeer mdi.topic
        (b.Data.length % 2 ^ 32) (message.Data.length % 2 ^ 64) message.SeqNo w1
          = (none, w2) →
      endProcessings (callsAfterAdmission mdi message fromConnectedPeer w) = 1)
    ∧ (∀ b w1 w2 err, mdi.marshalizer.Unmarshal message.Data
        (admission mdi message fromConnectedPeer w).world = (.ok b, w1) →
      b.Data.length ≠ 0 →
      mdi.antifloodHandler.CanProcessMessagesOnTopic fromConnectedPeer mdi.topic
        (b.Data.length % 2 ^ 32) (message.Data.length % 2 ^ 64) message.SeqNo w1
          = (some err, w2) →
      endProcessings (callsAfterAdmission mdi message fromConnectedPeer w) = 0) := by
  refine ⟨?_, ?_, ?_, ?_⟩
  · intro err w1 hun
    rw [callsAfterAdmission_eq mdi message fromConnectedPeer w _
      (by rw [ProcessReceivedMessage_unmarshal_error mdi message fromConnectedPeer w w1 err
        hpre hun])]
    simp [endProcessings]
  · intro b w1 hun hlen
    rw [callsAfterAdmission_eq mdi message fromConnectedPeer w _
      (by rw [ProcessReceivedMessage_empty mdi message fromConnectedPeer w w1 b
        hpre hun hlen])]
    simp [endProcessings]
  · intro b w1 w2 hun hlen hquota
    rw [callsAfterAdmission_eq mdi message fromConnectedPeer w _
      (by rw [ProcessReceivedMessage_loop mdi message fromConnectedPeer w w1 w2 b
        hpre hun hlen hquota])]
    have h := (processElements_throttle mdi message fromConnectedPeer b.Data none w2).1
    simp only [endProcessings] at h
    simp [endProcessings, h]
  · intro b w1 w2 err hun hlen hquota
    rw [callsAfterAdmission_eq mdi message fromConnectedPeer w _
      (by rw [ProcessReceivedMessage_quota_error mdi message fromConnectedPeer w w1 w2 b err
        hpre hun hlen hquota])]
    simp [endProcessings]

/-- C1: the throttle slot is not released when the quota check fails. For every
message that passes pre-processing and unmarshals to a non-empty batch, if
`CanProcessMessagesOnTopic` answers with an error then `ProcessReceivedMessage`
returns that error having made no `EndProcessing` call: the only calls after
admission are the unmarshalling and the quota check. -/
theorem throttle_slot_kept_on_quota_error {W D : Type} [InterceptedData D]
    (mdi : MultiDataInterceptor W D) (message : MessageP2P) (fromConnectedPeer : PeerID)
    (w w1 w2 : W) (b : Batch) (err : Error)
    (hpre : (admission mdi message fromConnectedPeer w).ret = none)
    (hun : mdi.marshalizer.Unmarshal message.Data
      (admission mdi message fromConnectedPeer w).world = (.ok b, w1))
    (hlen : b.Data.length ≠ 0)
    (hquota : mdi.antifloodHandler.CanProcessMessagesOnTopic fromConnectedPeer mdi.topic
      (b.Data.length % 2 ^ 32) (message.Data.length % 2 ^ 64) message.SeqNo w1
        = (some err, w2)) :
    (ProcessReceivedMessage mdi message fromConnectedPeer w).ret = some err
      ∧ endProcessings (callsAfterAdmission mdi message fromConnectedPeer w) = 0
      ∧ (ProcessReceivedMessage mdi message fromConnectedPeer w).world = w2 := by
  have h := ProcessReceivedMessage_quota_error mdi message fromConnectedPeer w w1 w2 b err
    hpre hun hlen hquota
  refine ⟨by rw [h], ?_, by rw [h]⟩
  rw [callsAfterAdmission_eq mdi message fromConnectedPeer w _ (by rw [h])]
  simp [endProcessings]

/-- C1, on the stub collaborators: a batch of three elements against a quota of
two is refused; the run made one `StartProcessing` call and no `EndProcessing`
call, and the throttler still counts the message as in flight. -/
theorem throttle_slot_kept_on_quota_error_witness :
    (ProcessReceivedMessage stubInterceptor
        (stubMessage [3, 1, 0, 9, 2, 1, 0, 3, 2, 0, 8]) "hop" (stubWorld 2)).ret
        = some (.other "topic quota exceeded")
      ∧ startProcessings (ProcessReceivedMessage stubInterceptor
        (stubMessage [3, 1, 0, 9, 2, 1, 0, 3, 2, 0, 8]) "hop" (stubWorld 2)).calls = 1
      ∧ endProcessings (ProcessReceivedMessage stubInterceptor
        (stubMessage [3, 1, 0, 9, 2, 1, 0, 3, 2, 0, 8]) "hop" (stubWorld 2)).calls = 0
      ∧ (ProcessReceivedMessage stubInterceptor
        (stubMessage [3, 1, 0, 9, 2, 1, 0, 3, 2, 0, 8]) "hop" (stubWorld 2)).world.inFlight
        = 1 :=
  have h := throttle_slot_kept_on_quota_error stubInterceptor
    (stubMessage [3, 1, 0, 9, 2, 1, 0, 3, 2, 0, 8]) "hop" (stubWorld 2)
    { stubWorld 2 with inFlight := 1 } { stubWorld 2 with inFlight := 1 }
    ⟨[[1, 0, 9], [1, 0], [2, 0, 8]]⟩ (.other "topic quota exceeded")
    (by decide) rfl (by decide) (by decide)
  ⟨h.1, by decide, by decide, by rw [h.2.2]⟩

/-! ## Envelope corruption, empty batch, quota violation -/

/-- C2: envelope corruption. For every message that passes pre-processing and
whose payload fails to unmarshal as a batch, `ProcessReceivedMessage` returns
exactly the unmarshal error, and after admission it makes these calls and no
other: the unmarshalling, one `EndProcessing`, one `BlacklistPeer` for the
originator `message.Peer` and one for `fromConnectedPeer`, both with the reason
`"unmarshalable data got on topic " ++ topic` and the duration
`InvalidMessageBlacklistDuration`. In particular nothing is given to the
factory, the white list or the processor, and no quota is asked for. The world
it leaves is the world after the unmarshalling with the throttle slot released
and then both peers blacklisted, the originator first. -/
theorem unmarshal_failure_blacklists_both_peers {W D : Type} [InterceptedData D]
    (mdi : MultiDataInterceptor W D) (message : MessageP2P) (fromConnectedPeer : PeerID)
    (w w1 : W) (err : Error)
    (hpre : (admission mdi message fromConnectedPeer w).ret = none)
    (hun : mdi.marshalizer.Unmarshal message.Data
      (admission mdi message fromConnectedPeer w).world = (.error err, w1)) :
    (ProcessReceivedMessage mdi message fromConnectedPeer w).ret = some err
      ∧ callsAfterAdmission mdi message fromConnectedPeer w =
          [.Unmarshal message.Data (.error err), .EndProcessing,
           .BlacklistPeer message.Peer ("unmarshalable data got on topic " ++ mdi.topic)
             .InvalidMessageBlacklistDuration,
           .BlacklistPeer fromConnectedPeer ("unmarshalable data got on topic " ++ mdi.topic)
             .InvalidMessageBlacklistDuration]
      ∧ blacklistings (callsAfterAdmission mdi message fromConnectedPeer w) =
          [(message.Peer, "unmarshalable data got on topic " ++ mdi.topic,
              .InvalidMessageBlacklistDuration),
           (fromConnectedPeer, "unmarshalable data got on topic " ++ mdi.topic,
              .InvalidMessageBlacklistDuration)]
      ∧ creations (callsAfterAdmission mdi message fromConnectedPeer w) = []
      ∧ whiteListChecks (callsAfterAdmission mdi message fromConnectedPeer w) = []
      ∧ quotaChecks (callsAfterAdmission mdi message fromConnectedPeer w) = []
      ∧ commits (callsAfterAdmission mdi message fromConnectedPeer w) = []
      ∧ (ProcessReceivedMessage mdi message fromConnectedPeer w).world
        = mdi.antifloodHandler.BlacklistPeer fromConnectedPeer
            ("unmarshalable data got on topic " ++ mdi.topic)
            .InvalidMessageBlacklistDuration
            (mdi.antifloodHandler.BlacklistPeer message.Peer
              ("unmarshalable data got on topic " ++ mdi.topic)
              .InvalidMessageBlacklistDuration (mdi.throttler.EndProcessing w1)) := by
  have h := ProcessReceivedMessage_unmarshal_error mdi message fromConnectedPeer w w1 err
    hpre hun
  have hc := callsAfterAdmission_eq mdi message fromConnectedPeer w _ (by rw [h])
  rw [hc]
  refine ⟨by rw [h], ?_, ?_, ?_, ?_, ?_, ?_, by rw [h]; rfl⟩ <;>
    simp [unmarshalReason, blacklistings, creations, whiteListChecks, quotaChecks, commits]

/-- C2, on the stub collaborators: a payload announcing five bytes where two
are left. Afterwards no message is in flight, the blacklist holds the
originator and the connected peer, in this order, and the pool is empty. -/
theorem unmarshal_failure_blacklists_both_peers_witness :
    (ProcessReceivedMessage stubInterceptor (stubMessage [3, 1, 0, 9, 5, 1, 0]) "hop"
        (stubWorld 2)).ret = some (.other "unexpected end of payload")
      ∧ blacklistings (callsAfterAdmission stubInterceptor
          (stubMessage [3, 1, 0, 9, 5, 1, 0]) "hop" (stubWorld 2)) =
          [("origin", "unmarshalable data got on topic txs",
              .InvalidMessageBlacklistDuration),
           ("hop", "unmarshalable data got on topic txs", .InvalidMessageBlacklistDuration)]
      ∧ commits (callsAfterAdmission stubInterceptor
          (stubMessage [3, 1, 0, 9, 5, 1, 0]) "hop" (stubWorld 2)) = []
      ∧ (ProcessReceivedMessage stubInterceptor (stubMessage [3, 1, 0, 9, 5, 1, 0]) "hop"
          (stubWorld 2)).world
        = { inFlight := 0
            blacklist :=
              [("origin", "unmarshalable data got on topic txs",
                  .InvalidMessageBlacklistDuration),
               ("hop", "unmarshalable data got on topic txs",
                  .InvalidMessageBlacklistDuration)]
            quotaLeft := 2
            whiteList := []
            pool := [] } :=
  have h := unmarshal_failure_blacklists_both_peers stubInterceptor
    (stubMessage [3, 1, 0, 9, 5, 1, 0]) "hop" (stubWorld 2)
    { stubWorld 2 with inFlight := 1 } (.other "unexpected end of payload")
    (by decide) rfl
  ⟨h.1, h.2.2.1, h.2.2.2.2.2.2.1, by decide⟩

/-- C8: empty batch. For every message that passes pre-processing and
unmarshals to a batch with zero elements, `ProcessReceivedMessage` returns
`ErrNoDataInMessage`, and after admission it makes these calls and no other:
the unmarshalling and one `EndProcessing`, which releases the throttle slot. In
particular it asks for no quota, blacklists nobody and gives nothing to the
factory or the processor. -/
theorem empty_batch_is_refused {W D : Type} [InterceptedData D]
    (mdi : MultiDataInterceptor W D) (message : MessageP2P) (fromConnectedPeer : PeerID)
    (w w1 : W) (b : Batch)
    (hpre : (admission mdi message fromConnectedPeer w).ret = none)
    (hun : mdi.marshalizer.Unmarshal message.Data
      (admission mdi message fromConnectedPeer w).world = (.ok b, w1))
    (hlen : b.Data.length = 0) :
    (ProcessReceivedMessage mdi message fromConnectedPeer w).ret
        = some .ErrNoDataInMessage
      ∧ (ProcessReceivedMessage mdi message fromConnectedPeer w).world
        = mdi.throttler.EndProcessing w1
      ∧ callsAfterAdmission mdi message fromConnectedPeer w =
          [.Unmarshal message.Data (.ok b), .EndProcessing]
      ∧ quotaChecks (callsAfterAdmission mdi message fromConnectedPeer w) = []
      ∧ blacklistings (callsAfterAdmission mdi message fromConnectedPeer w) = []
      ∧ creations (callsAfterAdmission mdi message fromConnectedPeer w) = []
      ∧ commits (callsAfterAdmission mdi message fromConnectedPeer w) = [] := by
  have h := ProcessReceivedMessage_empty mdi message fromConnectedPeer w w1 b hpre hun hlen
  have hc := callsAfterAdmission_eq mdi message fromConnectedPeer w _ (by rw [h])
  rw [hc]
  refine ⟨by rw [h], by rw [h], ?_, ?_, ?_, ?_, ?_⟩ <;>
    simp [blacklistings, creations, quotaChecks, commits]

/-- C8, on the stub collaborators: the empty payload is the empty batch, and
the slot taken at admission is given back. -/
theorem empty_batch_is_refused_witness :
    (ProcessReceivedMessage stubInterceptor (stubMessage []) "hop" (stubWorld 2)).ret
        = some .ErrNoDataInMessage
      ∧ (ProcessReceivedMessage stubInterceptor (stubMessage []) "hop"
          (stubWorld 2)).world = stubWorld 2
      ∧ callsAfterAdmission stubInterceptor (stubMessage []) "hop" (stubWorld 2) =
          [.Unmarshal [] (.ok ⟨[]⟩), .EndProcessing] :=
  have h := empty_batch_is_refused stubInterceptor (stubMessage []) "hop" (stubWorld 2)
    { stubWorld 2 with inFlight := 1 } ⟨[]⟩ (by decide) rfl (by decide)
  ⟨h.1, h.2.1, h.2.2.1⟩

/-- C5: quota violation. For every message that passes pre-processing and
unmarshals to a non-empty batch, if `CanProcessMessagesOnTopic` answers with an
error then `ProcessReceivedMessage` returns exactly that error, and after
admission it makes these calls and no other: the unmarshalling and the quota
check. In particular no element is given to the factory, no validity is
checked, the white list is not asked, nothing is committed and nobody is
blacklisted. -/
theorem quota_error_aborts_the_message {W D : Type} [InterceptedData D]
    (mdi : MultiDataInterceptor W D) (message : MessageP2P) (fromConnectedPeer : PeerID)
    (w w1 w2 : W) (b : Batch) (err : Error)
    (hpre : (admission mdi message fromConnectedPeer w).ret = none)
    (hun : mdi.marshalizer.Unmarshal message.Data
      (admission mdi message fromConnectedPeer w).world = (.ok b, w1))
    (hlen : b.Data.length ≠ 0)
    (hquota : mdi.antifloodHandler.CanProcessMessagesOnTopic fromConnectedPeer mdi.topic
      (b.Data.length % 2 ^ 32) (message.Data.length % 2 ^ 64) message.SeqNo w1
        = (some err, w2)) :
    (ProcessReceivedMessage mdi message fromConnectedPeer w).ret = some err
      ∧ callsAfterAdmission mdi message fromConnectedPeer w =
          [.Unmarshal message.Data (.ok b),
           .CanProcessMessagesOnTopic fromConnectedPeer mdi.topic
             (b.Data.length % 2 ^ 32) (message.Data.length % 2 ^ 64) message.SeqNo
             (some err)]
      ∧ creations (callsAfterAdmission mdi message fromConnectedPeer w) = []
      ∧ validityChecks (callsAfterAdmission mdi message fromConnectedPeer w) = []
      ∧ whiteListChecks (callsAfterAdmission mdi message fromConnectedPeer w) = []
      ∧ commits (callsAfterAdmission mdi message fromConnectedPeer w) = []
      ∧ blacklistings (callsAfterAdmission mdi message fromConnectedPeer w) = [] := by
  have h := ProcessReceivedMessage_quota_error mdi message fromConnectedPeer w w1 w2 b err
    hpre hun hlen hquota
  have hc := callsAfterAdmission_eq mdi message fromConnectedPeer w _ (by rw [h])
  rw [hc]
  refine ⟨by rw [h], ?_, ?_, ?_, ?_, ?_, ?_⟩ <;>
    simp [blacklistings, creations, validityChecks, whiteListChecks, commits]

/-- C5, on the stub collaborators: two elements against a quota of one. -/
theorem quota_error_aborts_the_message_witness :
    (ProcessReceivedMessage stubInterceptor (stubMessage [3, 1, 0, 9, 3, 2, 0, 8]) "hop"
        (stubWorld 1)).ret = some (.other "topic quota exceeded")
      ∧ creations (callsAfterAdmission stubInterceptor
          (stubMessage [3, 1, 0, 9, 3, 2, 0, 8]) "hop" (stubWorld 1)) = []
      ∧ commits (callsAfterAdmission stubInterceptor
          (stubMessage [3, 1, 0, 9, 3, 2, 0, 8]) "hop" (stubWorld 1)) = []
      ∧ blacklistings (callsAfterAdmission stubInterceptor
          (stubMessage [3, 1, 0, 9, 3, 2, 0, 8]) "hop" (stubWorld 1)) = [] :=
  have h := quota_error_aborts_the_message stubInterceptor
    (stubMessage [3, 1, 0, 9, 3, 2, 0, 8]) "hop" (stubWorld 1)
    { stubWorld 1 with inFlight := 1 } { stubWorld 1 with inFlight := 1 }
    ⟨[[1, 0, 9], [2, 0, 8]]⟩ (.other "topic quota exceeded")
    (by decide) rfl (by decide) (by decide)
  ⟨h.1, h.2.2.1, h.2.2.2.2.2.1, h.2.2.2.2.2.2⟩

/-! ## The element loop inside `ProcessReceivedMessage` -/

/-- Some element failed exactly when a factory creation, a validity check or a
commit failed. -/
theorem failures_eq_nil_iff {D : Type} (calls : List (Call D)) :
    failures calls = []
      ↔ createFailures calls = [] ∧ invalids calls = [] ∧ commitFailures calls = [] := by
  induction calls with
  | nil => simp [failures, createFailures, invalids, commitFailures]
  | cons c t ih =>
    simp only [failures, createFailures, invalids, commitFailures] at ih
    cases c
    case Create buff res =>
      cases res <;>
        simp [failures, createFailures, invalids, commitFailures, List.filterMap_cons, ih]
    case CheckValidity data res =>
      cases res <;>
        simp [failures, createFailures, invalids, commitFailures, List.filterMap_cons, ih]
    case Commit data topic message res =>
      cases res <;>
        simp [failures, createFailures, invalids, commitFailures, List.filterMap_cons, ih]
    all_goals
      simp [failures, createFailures, invalids, commitFailures, List.filterMap_cons, ih]

/-- The calls after admission of a message whose batch reaches the element
loop: the unmarshalling, the quota check, the calls of the loop, and one
`EndProcessing`. -/
theorem callsAfterAdmission_loop {W D : Type} [InterceptedData D]
    (mdi : MultiDataInterceptor W D) (message : MessageP2P) (fromConnectedPeer : PeerID)
    (w w1 w2 : W) (b : Batch)
    (hpre : (admission mdi message fromConnectedPeer w).ret = none)
    (hun : mdi.marshalizer.Unmarshal message.Data
      (admission mdi message fromConnectedPeer w).world = (.ok b, w1))
    (hlen : b.Data.length ≠ 0)
    (hquota : mdi.antifloodHandler.CanProcessMessagesOnTopic fromConnectedPeer mdi.topic
      (b.Data.length % 2 ^ 32) (message.Data.length % 2 ^ 64) message.SeqNo w1
        = (none, w2)) :
    callsAfterAdmission mdi message fromConnectedPeer w =
      .Unmarshal message.Data (.ok b)
        :: .CanProcessMessagesOnTopic fromConnectedPeer mdi.topic
            (b.Data.length % 2 ^ 32) (message.Data.length % 2 ^ 64) message.SeqNo none
        :: (processElements mdi message fromConnectedPeer b.Data none w2).calls
          ++ [.EndProcessing] :=
  callsAfterAdmission_eq mdi message fromConnectedPeer w _
    (by rw [ProcessReceivedMessage_loop mdi message fromConnectedPeer w w1 w2 b
      hpre hun hlen hquota])

/-- The calls around the element loop are no factory, validity, white list,
processor or blacklisting calls. -/
theorem frame_of_loop {D : Type} (buff : Bytes) (res : Except Error Batch)
    (peer : PeerID) (topic : String) (n size sequence : Nat) (answer : Option Error)
    (t : List (Call D)) :
    let all : List (Call D) :=
      .Unmarshal buff res :: .CanProcessMessagesOnTopic peer topic n size sequence answer
        :: t ++ [.EndProcessing]
    creations all = creations t ∧ created all = created t
      ∧ createFailures all = createFailures t ∧ validityChecks all = validityChecks t
      ∧ invalids all = invalids t ∧ whiteListChecks all = whiteListChecks t
      ∧ commits all = commits t ∧ commitFailures all = commitFailures t
      ∧ failures all = failures t ∧ blacklistings all = blacklistings t := by
  simp [creations, created, createFailures, validityChecks, invalids, whiteListChecks,
    commits, commitFailures, failures, blacklistings, List.filterMap_cons,
    List.filterMap_append]

/-! ## Aggregate result and element-level failures -/

/-- After the element loop, the result is the last of the errors met. -/
theorem ret_eq_getLast_failures {W D : Type} [InterceptedData D]
    (mdi : MultiDataInterceptor W D) (message : MessageP2P) (fromConnectedPeer : PeerID)
    (w w1 w2 : W) (b : Batch)
    (hpre : (admission mdi message fromConnectedPeer w).ret = none)
    (hun : mdi.marshalizer.Unmarshal message.Data
      (admission mdi message fromConnectedPeer w).world = (.ok b, w1))
    (hlen : b.Data.length ≠ 0)
    (hquota : mdi.antifloodHandler.CanProcessMessagesOnTopic fromConnectedPeer mdi.topic
      (b.Data.length % 2 ^ 32) (message.Data.length % 2 ^ 64) message.SeqNo w1
        = (none, w2)) :
    (ProcessReceivedMessage mdi message fromConnectedPeer w).ret
        = (failures (callsAfterAdmission mdi message fromConnectedPeer w)).getLast? := by
  rw [callsAfterAdmission_loop mdi message fromConnectedPeer w w1 w2 b hpre hun hlen hquota,
    (frame_of_loop _ _ _ _ _ _ _ _ _).2.2.2.2.2.2.2.2.1,
    ProcessReceivedMessage_loop mdi message fromConnectedPeer w w1 w2 b hpre hun hlen hquota]
  simp only
  rw [processElements_ret]
  cases (failures (processElements mdi message fromConnectedPeer b.Data none w2).calls).getLast?
    <;> rfl

/-- After the element loop, the result is nil exactly when nothing failed. -/
theorem ret_eq_none_iff {W D : Type} [InterceptedData D]
    (mdi : MultiDataInterceptor W D) (message : MessageP2P) (fromConnectedPeer : PeerID)
    (w w1 w2 : W) (b : Batch)
    (hpre : (admission mdi message fromConnectedPeer w).ret = none)
    (hun : mdi.marshalizer.Unmarshal message.Data
      (admission mdi message fromConnectedPeer w).world = (.ok b, w1))
    (hlen : b.Data.length ≠ 0)
    (hquota : mdi.antifloodHandler.CanProcessMessagesOnTopic fromConnectedPeer mdi.topic
      (b.Data.length % 2 ^ 32) (message.Data.length % 2 ^ 64) message.SeqNo w1
        = (none, w2)) :
    (ProcessReceivedMessage mdi message fromConnectedPeer w).ret = none
      ↔ createFailures (callsAfterAdmission mdi message fromConnectedPeer w) = []
        ∧ invalids (callsAfterAdmission mdi message fromConnectedPeer w) = []
        ∧ commitFailures (callsAfterAdmission mdi message fromConnectedPeer w) = [] := by
  rw [ret_eq_getLast_failures mdi message fromConnectedPeer w w1 w2 b hpre hun hlen hquota,
    List.getLast?_eq_none_iff, failures_eq_nil_iff]

/-- C6: last error wins. For every message that passes pre-processing,
unmarshals to a non-empty batch and passes the quota check,
`ProcessReceivedMessage` returns the last of the errors met in the element loop
(failed factory creations, failed validity checks, failed commits, in the order
of the batch), whatever happens to later elements; so it returns nil exactly
when no factory creation, no validity check and no commit failed. Elements
dropped as irrelevant contribute no error. -/
theorem last_error_wins {W D : Type} [InterceptedData D]
    (mdi : MultiDataInterceptor W D) (message : MessageP2P) (fromConnectedPeer : PeerID)
    (w w1 w2 : W) (b : Batch)
    (hpre : (admission mdi message fromConnectedPeer w).ret = none)
    (hun : mdi.marshalizer.Unmarshal message.Data
      (admission mdi message fromConnectedPeer w).world = (.ok b, w1))
    (hlen : b.Data.length ≠ 0)
    (hquota : mdi.antifloodHandler.CanProcessMessagesOnTopic fromConnectedPeer mdi.topic
      (b.Data.length % 2 ^ 32) (message.Data.length % 2 ^ 64) message.SeqNo w1
        = (none, w2)) :
    (ProcessReceivedMessage mdi message fromConnectedPeer w).ret
        = (failures (callsAfterAdmission mdi message fromConnectedPeer w)).getLast?
      ∧ ((ProcessReceivedMessage mdi message fromConnectedPeer w).ret = none
          ↔ createFailures (callsAfterAdmission mdi message fromConnectedPeer w) = []
            ∧ invalids (callsAfterAdmission mdi message fromConnectedPeer w) = []
            ∧ commitFailures (callsAfterAdmission mdi message fromConnectedPeer w) = []) :=
  ⟨ret_eq_getLast_failures mdi message fromConnectedPeer w w1 w2 b hpre hun hlen hquota,
    ret_eq_none_iff mdi message fromConnectedPeer w w1 w2 b hpre hun hlen hquota⟩

/-- C6, on the stub collaborators: in a batch of three the second element is
invalid and the third is committed; the error of the second is returned. -/
theorem last_error_wins_witness :
    (ProcessReceivedMessage stubInterceptor
        (stubMessage [3, 1, 0, 9, 2, 1, 0, 3, 2, 0, 8]) "hop" (stubWorld 5)).ret
        = some (.other "missing fields")
      ∧ failures (callsAfterAdmission stubInterceptor
          (stubMessage [3, 1, 0, 9, 2, 1, 0, 3, 2, 0, 8]) "hop" (stubWorld 5))
        = [.other "missing fields"]
      ∧ commits (callsAfterAdmission stubInterceptor
          (stubMessage [3, 1, 0, 9, 2, 1, 0, 3, 2, 0, 8]) "hop" (stubWorld 5))
        = [⟨[1, 0, 9]⟩, ⟨[2, 0, 8]⟩] :=
  have h := last_error_wins stubInterceptor
    (stubMessage [3, 1, 0, 9, 2, 1, 0, 3, 2, 0, 8]) "hop" (stubWorld 5)
    { stubWorld 5 with inFlight := 1 } { stubWorld 5 with inFlight := 1, quotaLeft := 2 }
    ⟨[[1, 0, 9], [1, 0], [2, 0, 8]]⟩
    (by decide) rfl (by decide) (by decide)
  have hf : failures (callsAfterAdmission stubInterceptor
      (stubMessage [3, 1, 0, 9, 2, 1, 0, 3, 2, 0, 8]) "hop" (stubWorld 5))
      = [.other "missing fields"] := by decide
  ⟨by rw [h.1, hf]; rfl, hf, by decide⟩

/-- An element the factory cannot build: both peers are blacklisted, the error
is recorded and the loop goes on with the next element. -/
theorem processElements_cons_createFailed {W D : Type} [InterceptedData D]
    (mdi : MultiDataInterceptor W D) (message : MessageP2P) (fromConnectedPeer : PeerID)
    (buff : Bytes) (rest : List Bytes) (e : Option Error) (w w1 : W) (err : Error)
    (hc : mdi.factory.Create buff w = (.error err, w1)) :
    processElements mdi message fromConnectedPeer (buff :: rest) e w =
      ⟨(processElements mdi message fromConnectedPeer rest (some err)
          (mdi.antifloodHandler.BlacklistPeer fromConnectedPeer (createReason mdi)
            .InvalidMessageBlacklistDuration
            (mdi.antifloodHandler.BlacklistPeer message.Peer (createReason mdi)
              .InvalidMessageBlacklistDuration w1))).ret,
        (processElements mdi message fromConnectedPeer rest (some err)
          (mdi.antifloodHandler.BlacklistPeer fromConnectedPeer (createReason mdi)
            .InvalidMessageBlacklistDuration
            (mdi.antifloodHandler.BlacklistPeer message.Peer (createReason mdi)
              .InvalidMessageBlacklistDuration w1))).world,
        .Create buff (.error err)
          :: .BlacklistPeer message.Peer (createReason mdi) .InvalidMessageBlacklistDuration
          :: .BlacklistPeer fromConnectedPeer (createReason mdi)
              .InvalidMessageBlacklistDuration
          :: (processElements mdi message fromConnectedPeer rest (some err)
              (mdi.antifloodHandler.BlacklistPeer fromConnectedPeer (createReason mdi)
                .InvalidMessageBlacklistDuration
                (mdi.antifloodHandler.BlacklistPeer message.Peer (createReason mdi)
                  .InvalidMessageBlacklistDuration w1))).calls⟩ := by
  simp [processElements, interceptedData, hc, createReason]

/-- A valid datum that is neither for the current shard nor white-listed: it is
traced and skipped; the recorded error is left as it was. -/
theorem processElements_cons_dropped {W D : Type} [InterceptedData D]
    (mdi : MultiDataInterceptor W D) (message : MessageP2P) (fromConnectedPeer : PeerID)
    (buff : Bytes) (rest : List Bytes) (e : Option Error) (w w1 w2 : W) (data : D)
    (hc : mdi.factory.Create buff w = (.ok data, w1))
    (hv : InterceptedData.CheckValidity data = none)
    (hs : InterceptedData.IsForCurrentShard data = false)
    (hw : mdi.whiteListRequest.IsWhiteListed data
      (mdi.interceptedDebugHandler.LogReceived mdi.topic data w1) = (false, w2)) :
    processElements mdi message fromConnectedPeer (buff :: rest) e w =
      ⟨(processElements mdi message fromConnectedPeer rest e w2).ret,
        (processElements mdi message fromConnectedPeer rest e w2).world,
        .Create buff (.ok data) :: .LogReceived mdi.topic data
          :: .CheckValidity data none :: .IsForCurrentShard data false
          :: .IsWhiteListed data false :: .Hash data
          :: (processElements mdi message fromConnectedPeer rest e w2).calls⟩ := by
  simp [processElements, interceptedData, hc, hv, hs, hw, receivedDebugInterceptedData]

/-- A valid datum that is for the current shard or white-listed: it is handed
to the processor, whose error, if any, is recorded. -/
theorem processElements_cons_committed {W D : Type} [InterceptedData D]
    (mdi : MultiDataInterceptor W D) (message : MessageP2P) (fromConnectedPeer : PeerID)
    (buff : Bytes) (rest : List Bytes) (e : Option Error) (w w1 w2 w3 : W) (data : D)
    (listed : Bool) (res : Option Error)
    (hc : mdi.factory.Create buff w = (.ok data, w1))
    (hv : InterceptedData.CheckValidity data = none)
    (hw : mdi.whiteListRequest.IsWhiteListed data
      (mdi.interceptedDebugHandler.LogReceived mdi.topic data w1) = (listed, w2))
    (hr : (InterceptedData.IsForCurrentShard data || listed) = true)
    (hp : mdi.processor.Commit data mdi.topic message w2 = (res, w3)) :
    processElements mdi message fromConnectedPeer (buff :: rest) e w =
      ⟨(processElements mdi message fromConnectedPeer rest (recordError res e)
          (mdi.interceptedDebugHandler.LogProcessed mdi.topic data res w3)).ret,
        (processElements mdi message fromConnectedPeer rest (recordError res e)
          (mdi.interceptedDebugHandler.LogProcessed mdi.topic data res w3)).world,
        .Create buff (.ok data) :: .LogReceived mdi.topic data
          :: .CheckValidity data none
          :: .IsForCurrentShard data (InterceptedData.IsForCurrentShard data)
          :: .IsWhiteListed data listed :: .Commit data mdi.topic message res
          :: .LogProcessed mdi.topic data res
          :: (processElements mdi message fromConnectedPeer rest (recordError res e)
              (mdi.interceptedDebugHandler.LogProcessed mdi.topic data res w3)).calls⟩ := by
  simp [processElements, interceptedData, hc, hv, hw, hr, hp, receivedDebugInterceptedData,
    processDebugInterceptedData, processInterceptedData]

/-- An invalid datum: the validation error is recorded, nobody is blacklisted
and the loop goes on with the next element. -/
theorem processElements_cons_invalid {W D : Type} [InterceptedData D]
    (mdi : MultiDataInterceptor W D) (message : MessageP2P) (fromConnectedPeer : PeerID)
    (buff : Bytes) (rest : List Bytes) (e : Option Error) (w w1 : W) (data : D)
    (err : Error)
    (hc : mdi.factory.Create buff w = (.ok data, w1))
    (hv : InterceptedData.CheckValidity data = some err) :
    processElements mdi message fromConnectedPeer (buff :: rest) e w =
      ⟨(processElements mdi message fromConnectedPeer rest (some err)
          (mdi.interceptedDebugHandler.LogProcessed mdi.topic data (some err)
            (mdi.interceptedDebugHandler.LogReceived mdi.topic data w1))).ret,
        (processElements mdi message fromConnectedPeer rest (some err)
          (mdi.interceptedDebugHandler.LogProcessed mdi.topic data (some err)
            (mdi.interceptedDebugHandler.LogReceived mdi.topic data w1))).world,
        .Create buff (.ok data) :: .LogReceived mdi.topic data
          :: .CheckValidity data (some err) :: .LogProcessed mdi.topic data (some err)
          :: (processElements mdi message fromConnectedPeer rest (some err)
              (mdi.interceptedDebugHandler.LogProcessed mdi.topic data (some err)
                (mdi.interceptedDebugHandler.LogReceived mdi.topic data w1))).calls⟩ := by
  simp [processElements, interceptedData, hc, hv, receivedDebugInterceptedData,
    processDebugInterceptedData]

/-- C7: element-level factory failure. For every element on which
`factory.Create` answers with an error, the loop makes exactly three calls for
that element (the creation, `BlacklistPeer` for the originator `message.Peer`
and `BlacklistPeer` for `fromConnectedPeer`, each with
`InvalidMessageBlacklistDuration`), hence no validity check, no white list
question and no commit, and goes on with the next element with the factory
error recorded. Over the whole loop the number of `BlacklistPeer` calls is
twice the number of failed factory creations. -/
theorem factory_failure_blacklists_twice {W D : Type} [InterceptedData D]
    (mdi : MultiDataInterceptor W D) (message : MessageP2P) (fromConnectedPeer : PeerID) :
    (∀ (buff : Bytes) (rest : List Bytes) (e : Option Error) (w w1 : W) (err : Error),
      mdi.factory.Create buff w = (.error err, w1) →
      let reason := "can not create object from received bytes, topic " ++ mdi.topic
      let next := processElements mdi message fromConnectedPeer rest (some err)
        (mdi.antifloodHandler.BlacklistPeer fromConnectedPeer reason
          .InvalidMessageBlacklistDuration
          (mdi.antifloodHandler.BlacklistPeer message.Peer reason
            .InvalidMessageBlacklistDuration w1))
      processElements mdi message fromConnectedPeer (buff :: rest) e w =
        ⟨next.ret, next.world,
          .Create buff (.error err)
            :: .BlacklistPeer message.Peer reason .InvalidMessageBlacklistDuration
            :: .BlacklistPeer fromConnectedPeer reason .InvalidMessageBlacklistDuration
            :: next.calls⟩)
    ∧ (∀ (bufs : List Bytes) (e : Option Error) (w : W),
      (blacklistings (processElements mdi message fromConnectedPeer bufs e w).calls).length
          = 2 * (createFailures
            (processElements mdi message fromConnectedPeer bufs e w).calls).length
        ∧ ∀ x ∈ blacklistings (processElements mdi message fromConnectedPeer bufs e w).calls,
            (x.1 = message.Peer ∨ x.1 = fromConnectedPeer)
              ∧ x.2.2 = Duration.InvalidMessageBlacklistDuration) := by
  refine ⟨?_, ?_⟩
  · intro buff rest e w w1 err hc
    exact processElements_cons_createFailed mdi message fromConnectedPeer buff rest e w w1
      err hc
  · intro bufs e w
    have h := processElements_blacklistings mdi message fromConnectedPeer bufs e w
    exact ⟨h.1, fun x hx => ⟨(h.2 x hx).1, (h.2 x hx).2.2⟩⟩

/-- C7, on the stub collaborators: of three elements the factory refuses the
second and the third; four blacklistings follow, two per refusal, and the
first element, which is valid but irrelevant, causes none. -/
theorem factory_failure_blacklists_twice_witness :
    stubFactory.Create [255] (stubWorld 5)
        = (.error (.other "malformed element"), stubWorld 5)
      ∧ (processElements stubInterceptor (stubMessage []) "hop" [[255]] none
          (stubWorld 5)).calls
        = [.Create [255] (.error (.other "malformed element")),
           .BlacklistPeer "origin" "can not create object from received bytes, topic txs"
             .InvalidMessageBlacklistDuration,
           .BlacklistPeer "hop" "can not create object from received bytes, topic txs"
             .InvalidMessageBlacklistDuration]
      ∧ (createFailures (processElements stubInterceptor (stubMessage []) "hop"
          [[1, 1, 9], [255], []] none (stubWorld 5)).calls).length = 2
      ∧ (blacklistings (processElements stubInterceptor (stubMessage []) "hop"
          [[1, 1, 9], [255], []] none (stubWorld 5)).calls).length = 2 * 2 :=
  have h := factory_failure_blacklists_twice stubInterceptor (stubMessage []) "hop"
  have hn : (createFailures (processElements stubInterceptor (stubMessage []) "hop"
      [[1, 1, 9], [255], []] none (stubWorld 5)).calls).length = 2 := by decide
  ⟨rfl,
    by rw [h.1 [255] [] none (stubWorld 5) (stubWorld 5) (.other "malformed element") rfl]
       rfl,
    hn,
    by rw [(h.2 [[1, 1, 9], [255], []] none (stubWorld 5)).1, hn]⟩

/-! ## The world after the calls -/

/-- The world a list of calls followed by another leads to. -/
theorem replay_append {W D : Type} (mdi : MultiDataInterceptor W D)
    (first second : List (Call D)) (w : W) :
    replay mdi (first ++ second) w = replay mdi second (replay mdi first w) := by
  induction first generalizing w with
  | nil => rfl
  | cons call rest ih => exact ih (effect mdi call w)

/-- A list of calls followed by another carries the collaborators' answers when
both do, the second from the world the first leads to. -/
theorem faithful_append {W D : Type} [InterceptedData D] (mdi : MultiDataInterceptor W D)
    (first second : List (Call D)) (w : W) :
    faithful mdi (first ++ second) w
      ↔ faithful mdi first w ∧ faithful mdi second (replay mdi first w) := by
  induction first generalizing w with
  | nil => simp [faithful, replay]
  | cons call rest ih =>
    show (answered mdi call w ∧ faithful mdi (rest ++ second) (effect mdi call w))
      ↔ ((answered mdi call w ∧ faithful mdi rest (effect mdi call w))
        ∧ faithful mdi second (replay mdi rest (effect mdi call w)))
    rw [ih, and_assoc]

/-- The world the element loop leaves is the world its calls lead to, and every
call carries the answer its collaborator gave: nothing the loop does to the
world escapes the list of calls, and no call of the list is without its
effect. -/
theorem processElements_replay {W D : Type} [InterceptedData D]
    (mdi : MultiDataInterceptor W D) (message : MessageP2P) (fromConnectedPeer : PeerID)
    (bufs : List Bytes) (e : Option Error) (w : W) :
    (processElements mdi message fromConnectedPeer bufs e w).world
        = replay mdi (processElements mdi message fromConnectedPeer bufs e w).calls w
      ∧ faithful mdi (processElements mdi message fromConnectedPeer bufs e w).calls w := by
  induction bufs generalizing e w with
  | nil => exact ⟨rfl, trivial⟩
  | cons buff rest ih =>
    rcases hc : mdi.factory.Create buff w with ⟨res, w1⟩
    cases res with
    | error err =>
      rw [processElements_cons_createFailed mdi message fromConnectedPeer buff rest e w w1
        err hc]
      simp only [replay, faithful, effect, answered, hc, true_and]
      exact ih _ _
    | ok data =>
      cases hv : InterceptedData.CheckValidity data with
      | some err =>
        rw [processElements_cons_invalid mdi message fromConnectedPeer buff rest e w w1 data
          err hc hv]
        simp only [replay, faithful, effect, answered, hc, hv, true_and]
        exact ih _ _
      | none =>
        rcases hw : mdi.whiteListRequest.IsWhiteListed data
          (mdi.interceptedDebugHandler.LogReceived mdi.topic data w1) with ⟨answer, w2⟩
        by_cases hr : (InterceptedData.IsForCurrentShard data || answer) = true
        · rcases hp : mdi.processor.Commit data mdi.topic message w2 with ⟨res, w3⟩
          rw [processElements_cons_committed mdi message fromConnectedPeer buff rest e w w1
            w2 w3 data answer res hc hv hw hr hp]
          simp only [replay, faithful, effect, answered, hc, hv, hw, hp, true_and]
          exact ih _ _
        · simp only [Bool.not_eq_true, Bool.or_eq_false_iff] at hr
          rw [hr.2] at hw
          rw [processElements_cons_dropped mdi message fromConnectedPeer buff rest e w w1 w2
            data hc hv hr.1 hw]
          simp only [replay, faithful, effect, answered, hc, hv, hw, hr.1, true_and]
          exact ih _ _

/-- The world `ProcessReceivedMessage` leaves after the element loop is the
world its calls after admission lead to from the world pre-processing left, one
effect per call and in the order of the calls; and every call carries the
answer its collaborator gave. -/
theorem world_after_loop {W D : Type} [InterceptedData D]
    (mdi : MultiDataInterceptor W D) (message : MessageP2P) (fromConnectedPeer : PeerID)
    (w w1 w2 : W) (b : Batch)
    (hpre : (admission mdi message fromConnectedPeer w).ret = none)
    (hun : mdi.marshalizer.Unmarshal message.Data
      (admission mdi message fromConnectedPeer w).world = (.ok b, w1))
    (hlen : b.Data.length ≠ 0)
    (hquota : mdi.antifloodHandler.CanProcessMessagesOnTopic fromConnectedPeer mdi.topic
      (b.Data.length % 2 ^ 32) (message.Data.length % 2 ^ 64) message.SeqNo w1
        = (none, w2)) :
    (ProcessReceivedMessage mdi message fromConnectedPeer w).world
        = replay mdi (callsAfterAdmission mdi message fromConnectedPeer w)
            (admission mdi message fromConnectedPeer w).world
      ∧ faithful mdi (callsAfterAdmission mdi message fromConnectedPeer w)
          (admission mdi message fromConnectedPeer w).world := by
  have hloop := processElements_replay mdi message fromConnectedPeer b.Data none w2
  rw [callsAfterAdmission_loop mdi message fromConnectedPeer w w1 w2 b hpre hun hlen hquota,
    ProcessReceivedMessage_loop mdi message fromConnectedPeer w w1 w2 b hpre hun hlen hquota]
  have hu : effect mdi (.Unmarshal message.Data (.ok b))
      (admission mdi message fromConnectedPeer w).world = w1 := by
    simp [effect, hun]
  have hq : effect mdi (.CanProcessMessagesOnTopic fromConnectedPeer mdi.topic
      (b.Data.length % 2 ^ 32) (message.Data.length % 2 ^ 64) message.SeqNo none) w1
      = w2 := by
    show (mdi.antifloodHandler.CanProcessMessagesOnTopic fromConnectedPeer mdi.topic
      (b.Data.length % 2 ^ 32) (message.Data.length % 2 ^ 64) message.SeqNo w1).2 = w2
    rw [hquota]
  refine ⟨?_, ?_⟩
  · show mdi.throttler.EndProcessing
        (processElements mdi message fromConnectedPeer b.Data none w2).world
      = replay mdi
          ((processElements mdi message fromConnectedPeer b.Data none w2).calls
            ++ [.EndProcessing])
          (effect mdi (.CanProcessMessagesOnTopic fromConnectedPeer mdi.topic
            (b.Data.length % 2 ^ 32) (message.Data.length % 2 ^ 64) message.SeqNo none)
            (effect mdi (.Unmarshal message.Data (.ok b))
              (admission mdi message fromConnectedPeer w).world))
    rw [hu, hq, replay_append, ← hloop.1]
    rfl
  · show answered mdi (.Unmarshal message.Data (.ok b))
          (admission mdi message fromConnectedPeer w).world
        ∧ answered mdi (.CanProcessMessagesOnTopic fromConnectedPeer mdi.topic
            (b.Data.length % 2 ^ 32) (message.Data.length % 2 ^ 64) message.SeqNo none)
            (effect mdi (.Unmarshal message.Data (.ok b))
              (admission mdi message fromConnectedPeer w).world)
        ∧ faithful mdi
            ((processElements mdi message fromConnectedPeer b.Data none w2).calls
              ++ [.EndProcessing])
            (effect mdi (.CanProcessMessagesOnTopic fromConnectedPeer mdi.topic
              (b.Data.length % 2 ^ 32) (message.Data.length % 2 ^ 64) message.SeqNo none)
              (effect mdi (.Unmarshal message.Data (.ok b))
                (admission mdi message fromConnectedPeer w).world))
    rw [hu, hq, faithful_append]
    refine ⟨by simp [answered, hun], ?_, hloop.2, trivial, trivial⟩
    show (mdi.antifloodHandler.CanProcessMessagesOnTopic fromConnectedPeer mdi.topic
      (b.Data.length % 2 ^ 32) (message.Data.length % 2 ^ 64) message.SeqNo w1).1 = none
    rw [hquota]

/-! ## Batch isolation and the relevance filter -/

/-- C3: batch isolation. Take a message that passes pre-processing, unmarshals
to a non-empty batch of `n` elements and passes the quota check, and suppose
that in its run the factory fails on no element, exactly `k` validity checks
fail, every datum the white list is asked about is relevant (for the current
shard or white-listed) and no commit fails. Then the data handed to the
processor are exactly the created data that are valid, in wire order; there are
`n - k` of them; `BlacklistPeer` is never called; and the returned error is
non-nil exactly when `k > 0`. The world the run leaves is the world its calls
lead to, each call with its effect and in its order, the commits among them, so
that every datum listed as handed to the processor has reached it; and every
call carries the answer its collaborator gave. -/
theorem batch_isolation {W D : Type} [InterceptedData D]
    (mdi : MultiDataInterceptor W D) (message : MessageP2P) (fromConnectedPeer : PeerID)
    (w w1 w2 : W) (b : Batch) (k : Nat)
    (hpre : (admission mdi message fromConnectedPeer w).ret = none)
    (hun : mdi.marshalizer.Unmarshal message.Data
      (admission mdi message fromConnectedPeer w).world = (.ok b, w1))
    (hlen : b.Data.length ≠ 0)
    (hquota : mdi.antifloodHandler.CanProcessMessagesOnTopic fromConnectedPeer mdi.topic
      (b.Data.length % 2 ^ 32) (message.Data.length % 2 ^ 64) message.SeqNo w1
        = (none, w2))
    (hcreate : createFailures (callsAfterAdmission mdi message fromConnectedPeer w) = [])
    (hk : (invalids (callsAfterAdmission mdi message fromConnectedPeer w)).length = k)
    (hrel : ∀ c ∈ whiteListChecks (callsAfterAdmission mdi message fromConnectedPeer w),
      relevant c = true)
    (hproc : commitFailures (callsAfterAdmission mdi message fromConnectedPeer w) = []) :
    (created (callsAfterAdmission mdi message fromConnectedPeer w)).length = b.Data.length
      ∧ commits (callsAfterAdmission mdi message fromConnectedPeer w)
        = (created (callsAfterAdmission mdi message fromConnectedPeer w)).filter
            (fun d => (InterceptedData.CheckValidity d).isNone)
      ∧ (commits (callsAfterAdmission mdi message fromConnectedPeer w)).length
        = b.Data.length - k
      ∧ blacklistings (callsAfterAdmission mdi message fromConnectedPeer w) = []
      ∧ ((ProcessReceivedMessage mdi message fromConnectedPeer w).ret ≠ none ↔ 0 < k)
      ∧ (ProcessReceivedMessage mdi message fromConnectedPeer w).world
        = replay mdi (callsAfterAdmission mdi message fromConnectedPeer w)
            (admission mdi message fromConnectedPeer w).world
      ∧ faithful mdi (callsAfterAdmission mdi message fromConnectedPeer w)
          (admission mdi message fromConnectedPeer w).world := by
  have hret := ret_eq_none_iff mdi message fromConnectedPeer w w1 w2 b hpre hun hlen hquota
  have hworld := world_after_loop mdi message fromConnectedPeer w w1 w2 b hpre hun hlen
    hquota
  rw [callsAfterAdmission_loop mdi message fromConnectedPeer w w1 w2 b hpre hun hlen hquota]
    at hcreate hk hrel hproc hret hworld ⊢
  obtain ⟨-, f2, f3, -, f5, f6, f7, f8, -, f10⟩ := frame_of_loop (D := D) message.Data
    (.ok b) fromConnectedPeer mdi.topic (b.Data.length % 2 ^ 32)
    (message.Data.length % 2 ^ 64) message.SeqNo none
    (processElements mdi message fromConnectedPeer b.Data none w2).calls
  simp only at f2 f3 f5 f6 f7 f8 f10
  rw [f3] at hcreate hret
  rw [f5] at hk hret
  rw [f6] at hrel
  rw [f8] at hproc hret
  rw [f2, f7, f10]
  have hlenc := processElements_created_length mdi message fromConnectedPeer b.Data none w2
  have hbl := (processElements_blacklistings mdi message fromConnectedPeer b.Data none w2).1
  have hcm := processElements_commits mdi message fromConnectedPeer b.Data none w2
  have hwl := processElements_whiteListChecks mdi message fromConnectedPeer b.Data none w2
  have hinv := processElements_invalids mdi message fromConnectedPeer b.Data none w2
  rw [hcreate] at hlenc hbl
  simp only [List.length_nil, Nat.add_zero, Nat.mul_zero] at hlenc hbl
  have hcommits : commits (processElements mdi message fromConnectedPeer b.Data none w2).calls
      = (created (processElements mdi message fromConnectedPeer b.Data none w2).calls).filter
          (fun d => (InterceptedData.CheckValidity d).isNone) := by
    rw [hcm, List.filter_eq_self.mpr hrel, hwl]
  have hsplit := List.length_eq_length_filter_add
    (l := created (processElements mdi message fromConnectedPeer b.Data none w2).calls)
    (fun d => (InterceptedData.CheckValidity d).isNone)
  have hnot : (fun d : D => !(InterceptedData.CheckValidity d).isNone)
      = (fun d => (InterceptedData.CheckValidity d).isSome) := by
    funext d; cases InterceptedData.CheckValidity d <;> rfl
  rw [hnot, ← hinv, hk, hlenc] at hsplit
  refine ⟨hlenc, hcommits, ?_, List.length_eq_zero.mp hbl, ?_, hworld.1, hworld.2⟩
  · rw [hcommits]; omega
  · rw [Ne, hret, hcreate, hproc]
    constructor
    · intro h
      rcases Nat.eq_zero_or_pos k with h0 | h0
      · exact absurd ⟨rfl, List.length_eq_zero.mp (hk.trans h0), rfl⟩ h
      · exact h0
    · intro h0 h
      rw [h.2.1] at hk
      simp at hk
      omega

/-- Every failed commit is a commit. -/
theorem commitFailures_length_le {D : Type} (calls : List (Call D)) :
    (commitFailures calls).length ≤ (commits calls).length := by
  induction calls with
  | nil => simp [commitFailures, commits]
  | cons c t ih =>
    simp only [commitFailures, commits] at ih
    cases c
    case Commit data topic message res =>
      cases res <;> simp [commitFailures, commits, List.filterMap_cons] <;> omega
    all_goals simpa [commitFailures, commits, List.filterMap_cons] using ih

/-- C3, on the stub collaborators: a batch of three elements whose second
element is invalid gives exactly two commits, an error and no blacklisting;
afterwards the pool holds the two committed data, nobody is blacklisted and no
message is in flight. -/
theorem batch_isolation_witness :
    commits (callsAfterAdmission stubInterceptor
        (stubMessage [3, 1, 0, 9, 2, 1, 0, 3, 2, 0, 8]) "hop" (stubWorld 5))
        = [⟨[1, 0, 9]⟩, ⟨[2, 0, 8]⟩]
      ∧ (commits (callsAfterAdmission stubInterceptor
        (stubMessage [3, 1, 0, 9, 2, 1, 0, 3, 2, 0, 8]) "hop" (stubWorld 5))).length = 3 - 1
      ∧ blacklistings (callsAfterAdmission stubInterceptor
        (stubMessage [3, 1, 0, 9, 2, 1, 0, 3, 2, 0, 8]) "hop" (stubWorld 5)) = []
      ∧ (ProcessReceivedMessage stubInterceptor
        (stubMessage [3, 1, 0, 9, 2, 1, 0, 3, 2, 0, 8]) "hop" (stubWorld 5)).ret ≠ none
      ∧ (ProcessReceivedMessage stubInterceptor
        (stubMessage [3, 1, 0, 9, 2, 1, 0, 3, 2, 0, 8]) "hop" (stubWorld 5)).world
        = { inFlight := 0, blacklist := [], quotaLeft := 2, whiteList := [],
            pool := [[1, 0, 9], [2, 0, 8]] } :=
  have h := batch_isolation stubInterceptor
    (stubMessage [3, 1, 0, 9, 2, 1, 0, 3, 2, 0, 8]) "hop" (stubWorld 5)
    { stubWorld 5 with inFlight := 1 } { stubWorld 5 with inFlight := 1, quotaLeft := 2 }
    ⟨[[1, 0, 9], [1, 0], [2, 0, 8]]⟩ 1
    (by decide) rfl (by decide) (by decide) (by decide) (by decide) (by decide) (by decide)
  ⟨h.2.1.trans (by decide), h.2.2.1, h.2.2.2.1, h.2.2.2.2.1.mpr (by decide), by decide⟩

/-- C4: relevance filter. For a message that passes pre-processing, unmarshals
to a non-empty batch and passes the quota check: the white list is asked about
exactly the data that were created and are valid, and the data handed to the
processor are exactly those among them that are for the current shard or for
which the white list answered `true`, in wire order. A valid datum for which
both are false is traced and skipped: the recorded error is left as it was and
nobody is blacklisted. So when every element is created, valid and irrelevant,
`ProcessReceivedMessage` returns nil with no commit and no blacklisting; and
when the white list answers `true` for every element asked about, every created
datum is committed. A valid datum that is relevant goes through the processor:
the loop goes on from the world the processor's `Commit` leaves. The world the
run leaves is the world its calls lead to, each call with its effect and in its
order, so that every datum listed as handed to the processor has reached it;
and every call carries the answer its collaborator gave. -/
theorem relevance_filter {W D : Type} [InterceptedData D]
    (mdi : MultiDataInterceptor W D) (message : MessageP2P) (fromConnectedPeer : PeerID)
    (w w1 w2 : W) (b : Batch)
    (hpre : (admission mdi message fromConnectedPeer w).ret = none)
    (hun : mdi.marshalizer.Unmarshal message.Data
      (admission mdi message fromConnectedPeer w).world = (.ok b, w1))
    (hlen : b.Data.length ≠ 0)
    (hquota : mdi.antifloodHandler.CanProcessMessagesOnTopic fromConnectedPeer mdi.topic
      (b.Data.length % 2 ^ 32) (message.Data.length % 2 ^ 64) message.SeqNo w1
        = (none, w2)) :
    (whiteListChecks (callsAfterAdmission mdi message fromConnectedPeer w)).map Prod.fst
        = (created (callsAfterAdmission mdi message fromConnectedPeer w)).filter
            (fun d => (InterceptedData.CheckValidity d).isNone)
      ∧ commits (callsAfterAdmission mdi message fromConnectedPeer w)
        = ((whiteListChecks (callsAfterAdmission mdi message fromConnectedPeer w)).filter
            (fun c => InterceptedData.IsForCurrentShard c.1 || c.2)).map Prod.fst
      ∧ (∀ (buff : Bytes) (rest : List Bytes) (e : Option Error) (v v1 v2 : W) (data : D),
          mdi.factory.Create buff v = (.ok data, v1) →
          InterceptedData.CheckValidity data = none →
          InterceptedData.IsForCurrentShard data = false →
          mdi.whiteListRequest.IsWhiteListed data
            (mdi.interceptedDebugHandler.LogReceived mdi.topic data v1) = (false, v2) →
          processElements mdi message fromConnectedPeer (buff :: rest) e v =
            ⟨(processElements mdi message fromConnectedPeer rest e v2).ret,
              (processElements mdi message fromConnectedPeer rest e v2).world,
              .Create buff (.ok data) :: .LogReceived mdi.topic data
                :: .CheckValidity data none :: .IsForCurrentShard data false
                :: .IsWhiteListed data false :: .Hash data
                :: (processElements mdi message fromConnectedPeer rest e v2).calls⟩)
      ∧ (createFailures (callsAfterAdmission mdi message fromConnectedPeer w) = [] →
          invalids (callsAfterAdmission mdi message fromConnectedPeer w) = [] →
          (∀ c ∈ whiteListChecks (callsAfterAdmission mdi message fromConnectedPeer w),
            InterceptedData.IsForCurrentShard c.1 = false ∧ c.2 = false) →
          (ProcessReceivedMessage mdi message fromConnectedPeer w).ret = none
            ∧ commits (callsAfterAdmission mdi message fromConnectedPeer w) = []
            ∧ blacklistings (callsAfterAdmission mdi message fromConnectedPeer w) = [])
      ∧ (createFailures (callsAfterAdmission mdi message fromConnectedPeer w) = [] →
          invalids (callsAfterAdmission mdi message fromConnectedPeer w) = [] →
          (∀ c ∈ whiteListChecks (callsAfterAdmission mdi message fromConnectedPeer w),
            c.2 = true) →
          commits (callsAfterAdmission mdi message fromConnectedPeer w)
              = created (callsAfterAdmission mdi message fromConnectedPeer w)
            ∧ (commits (callsAfterAdmission mdi message fromConnectedPeer w)).length
              = b.Data.length)
      ∧ (∀ (buff : Bytes) (rest : List Bytes) (e : Option Error) (v v1 v2 v3 : W) (data : D)
          (listed : Bool) (res : Option Error),
          mdi.factory.Create buff v = (.ok data, v1) →
          InterceptedData.CheckValidity data = none →
          mdi.whiteListRequest.IsWhiteListed data
            (mdi.interceptedDebugHandler.LogReceived mdi.topic data v1) = (listed, v2) →
          (InterceptedData.IsForCurrentShard data || listed) = true →
          mdi.processor.Commit data mdi.topic message v2 = (res, v3) →
          processElements mdi message fromConnectedPeer (buff :: rest) e v =
            ⟨(processElements mdi message fromConnectedPeer rest (recordError res e)
                (mdi.interceptedDebugHandler.LogProcessed mdi.topic data res v3)).ret,
              (processElements mdi message fromConnectedPeer rest (recordError res e)
                (mdi.interceptedDebugHandler.LogProcessed mdi.topic data res v3)).world,
              .Create buff (.ok data) :: .LogReceived mdi.topic data
                :: .CheckValidity data none
                :: .IsForCurrentShard data (InterceptedData.IsForCurrentShard data)
                :: .IsWhiteListed data listed :: .Commit data mdi.topic message res
                :: .LogProcessed mdi.topic data res
                :: (processElements mdi message fromConnectedPeer rest (recordError res e)
                    (mdi.interceptedDebugHandler.LogProcessed mdi.topic data res
                      v3)).calls⟩)
      ∧ (ProcessReceivedMessage mdi message fromConnectedPeer w).world
        = replay mdi (callsAfterAdmission mdi message fromConnectedPeer w)
            (admission mdi message fromConnectedPeer w).world
      ∧ faithful mdi (callsAfterAdmission mdi message fromConnectedPeer w)
          (admission mdi message fromConnectedPeer w).world := by
  have hret := ret_eq_none_iff mdi message fromConnectedPeer w w1 w2 b hpre hun hlen hquota
  have hworld := world_after_loop mdi message fromConnectedPeer w w1 w2 b hpre hun hlen
    hquota
  rw [callsAfterAdmission_loop mdi message fromConnectedPeer w w1 w2 b hpre hun hlen hquota]
    at hret hworld ⊢
  obtain ⟨-, f2, f3, -, f5, f6, f7, f8, -, f10⟩ := frame_of_loop (D := D) message.Data
    (.ok b) fromConnectedPeer mdi.topic (b.Data.length % 2 ^ 32)
    (message.Data.length % 2 ^ 64) message.SeqNo none
    (processElements mdi message fromConnectedPeer b.Data none w2).calls
  simp only at f2 f3 f5 f6 f7 f8 f10
  rw [f3, f5, f8] at hret
  rw [f2, f3, f5, f6, f7, f10]
  have hlenc := processElements_created_length mdi message fromConnectedPeer b.Data none w2
  have hbl := (processElements_blacklistings mdi message fromConnectedPeer b.Data none w2).1
  have hcm := processElements_commits mdi message fromConnectedPeer b.Data none w2
  have hwl := processElements_whiteListChecks mdi message fromConnectedPeer b.Data none w2
  have hinv := processElements_invalids mdi message fromConnectedPeer b.Data none w2
  have hvalid : invalids (processElements mdi message fromConnectedPeer b.Data none w2).calls
      = [] →
      (created (processElements mdi message fromConnectedPeer b.Data none w2).calls).filter
          (fun d => (InterceptedData.CheckValidity d).isNone)
        = created (processElements mdi message fromConnectedPeer b.Data none w2).calls := by
    intro h0
    rw [hinv, List.filter_eq_nil_iff] at h0
    rw [List.filter_eq_self]
    intro d hd
    have := h0 d hd
    cases hcv : InterceptedData.CheckValidity d <;> simp [hcv] at this ⊢
  refine ⟨hwl, hcm, ?_, ?_, ?_, ?_, hworld.1, hworld.2⟩
  · intro buff rest e v v1 v2 data hc hv hs hw
    exact processElements_cons_dropped mdi message fromConnectedPeer buff rest e v v1 v2
      data hc hv hs hw
  · intro hcreate hinv0 hirr
    have hnone : commits (processElements mdi message fromConnectedPeer b.Data none w2).calls
        = [] := by
      rw [hcm, List.map_eq_nil_iff, List.filter_eq_nil_iff]
      intro c hc
      simp [relevant, (hirr c hc).1, (hirr c hc).2]
    rw [hcreate] at hbl
    refine ⟨hret.mpr ⟨hcreate, hinv0, ?_⟩, hnone, List.length_eq_zero.mp (by simpa using hbl)⟩
    have : (commitFailures
        (processElements mdi message fromConnectedPeer b.Data none w2).calls).length
        ≤ (commits (processElements mdi message fromConnectedPeer b.Data none w2).calls).length :=
      commitFailures_length_le _
    rw [hnone] at this
    exact List.length_eq_zero.mp (Nat.le_zero.mp this)
  · intro hcreate hinv0 hall
    have hcommits : commits (processElements mdi message fromConnectedPeer b.Data none w2).calls
        = created (processElements mdi message fromConnectedPeer b.Data none w2).calls := by
      rw [hcm, List.filter_eq_self.mpr (fun c hc => by simp [relevant, hall c hc]), hwl,
        hvalid hinv0]
    rw [hcreate] at hlenc
    exact ⟨hcommits, by rw [hcommits]; simpa using hlenc⟩
  · intro buff rest e v v1 v2 v3 data listed res hc hv hw hr hp
    exact processElements_cons_committed mdi message fromConnectedPeer buff rest e v v1 v2
      v3 data listed res hc hv hw hr hp

/-- C4, on the stub collaborators: two valid elements of another shard are
dropped without error, commit or blacklisting; once their hashes are on the
white list, the same two elements are committed. The pool is empty after the
first run and holds the two data after the second. -/
theorem relevance_filter_witness :
    ((ProcessReceivedMessage stubInterceptor
          (stubMessage [3, 1, 1, 9, 3, 2, 1, 8]) "hop" (stubWorld 5)).ret = none
        ∧ commits (callsAfterAdmission stubInterceptor
          (stubMessage [3, 1, 1, 9, 3, 2, 1, 8]) "hop" (stubWorld 5)) = []
        ∧ blacklistings (callsAfterAdmission stubInterceptor
          (stubMessage [3, 1, 1, 9, 3, 2, 1, 8]) "hop" (stubWorld 5)) = [])
      ∧ commits (callsAfterAdmission stubInterceptor
          (stubMessage [3, 1, 1, 9, 3, 2, 1, 8]) "hop"
          { stubWorld 5 with whiteList := [[1, 1, 9], [2, 1, 8]] })
        = created (callsAfterAdmission stubInterceptor
          (stubMessage [3, 1, 1, 9, 3, 2, 1, 8]) "hop"
          { stubWorld 5 with whiteList := [[1, 1, 9], [2, 1, 8]] })
      ∧ created (callsAfterAdmission stubInterceptor
          (stubMessage [3, 1, 1, 9, 3, 2, 1, 8]) "hop"
          { stubWorld 5 with whiteList := [[1, 1, 9], [2, 1, 8]] })
        = [⟨[1, 1, 9]⟩, ⟨[2, 1, 8]⟩]
      ∧ (ProcessReceivedMessage stubInterceptor
          (stubMessage [3, 1, 1, 9, 3, 2, 1, 8]) "hop" (stubWorld 5)).world
        = { inFlight := 0, blacklist := [], quotaLeft := 3, whiteList := [], pool := [] }
      ∧ (ProcessReceivedMessage stubInterceptor
          (stubMessage [3, 1, 1, 9, 3, 2, 1, 8]) "hop"
          { stubWorld 5 with whiteList := [[1, 1, 9], [2, 1, 8]] }).world
        = { inFlight := 0, blacklist := [], quotaLeft := 3,
            whiteList := [[1, 1, 9], [2, 1, 8]], pool := [[1, 1, 9], [2, 1, 8]] } :=
  have h := relevance_filter stubInterceptor
    (stubMessage [3, 1, 1, 9, 3, 2, 1, 8]) "hop" (stubWorld 5)
    { stubWorld 5 with inFlight := 1 } { stubWorld 5 with inFlight := 1, quotaLeft := 3 }
    ⟨[[1, 1, 9], [2, 1, 8]]⟩ (by decide) rfl (by decide) (by decide)
  have h2 := relevance_filter stubInterceptor
    (stubMessage [3, 1, 1, 9, 3, 2, 1, 8]) "hop"
    { stubWorld 5 with whiteList := [[1, 1, 9], [2, 1, 8]] }
    { stubWorld 5 with inFlight := 1, whiteList := [[1, 1, 9], [2, 1, 8]] }
    { stubWorld 5 with inFlight := 1, quotaLeft := 3, whiteList := [[1, 1, 9], [2, 1, 8]] }
    ⟨[[1, 1, 9], [2, 1, 8]]⟩ (by decide) rfl (by decide) (by decide)
  ⟨h.2.2.2.1 (by decide) (by decide) (by decide),
    (h2.2.2.2.2.1 (by decide) (by decide) (by decide)).1, by decide, by decide, by decide⟩

/-! ## Construction and the debug handler -/

/-- C9: construction is all-or-nothing. `NewMultiDataInterceptor` answers with
the error of the first failing check, in the order topic, marshalizer, factory,
processor, throttler, anti-flood handler, white list, and then with no
interceptor; when the topic is non-empty and all six collaborators are non-nil
it answers with an interceptor that holds exactly the given topic and
collaborators and the disabled debug handler; and it answers with an
interceptor if and only if the topic is non-empty and no collaborator is
nil. -/
theorem construction_is_all_or_nothing {W D : Type}
    (topic : String)
    (marshalizer : Option (Marshalizer W))
    (factory : Option (InterceptedDataFactory W D))
    (processor : Option (InterceptorProcessor W D))
    (throttler : Option (InterceptorThrottler W))
    (antifloodHandler : Option (P2PAntifloodHandler W))
    (whiteListRequest : Option (WhiteListHandler W D)) :
    (topic = "" →
      NewMultiDataInterceptor topic marshalizer factory processor throttler antifloodHandler
        whiteListRequest = .error .ErrEmptyTopic)
    ∧ (topic ≠ "" → marshalizer = none →
      NewMultiDataInterceptor topic marshalizer factory processor throttler antifloodHandler
        whiteListRequest = .error .ErrNilMarshalizer)
    ∧ (topic ≠ "" → marshalizer ≠ none → factory = none →
      NewMultiDataInterceptor topic marshalizer factory processor throttler antifloodHandler
        whiteListRequest = .error .ErrNilInterceptedDataFactory)
    ∧ (topic ≠ "" → marshalizer ≠ none → factory ≠ none → processor = none →
      NewMultiDataInterceptor topic marshalizer factory processor throttler antifloodHandler
        whiteListRequest = .error .ErrNilInterceptedDataProcessor)
    ∧ (topic ≠ "" → marshalizer ≠ none → factory ≠ none → processor ≠ none →
      throttler = none →
      NewMultiDataInterceptor topic marshalizer factory processor throttler antifloodHandler
        whiteListRequest = .error .ErrNilInterceptorThrottler)
    ∧ (topic ≠ "" → marshalizer ≠ none → factory ≠ none → processor ≠ none →
      throttler ≠ none → antifloodHandler = none →
      NewMultiDataInterceptor topic marshalizer factory processor throttler antifloodHandler
        whiteListRequest = .error .ErrNilAntifloodHandler)
    ∧ (topic ≠ "" → marshalizer ≠ none → factory ≠ none → processor ≠ none →
      throttler ≠ none → antifloodHandler ≠ none → whiteListRequest = none →
      NewMultiDataInterceptor topic marshalizer factory processor throttler antifloodHandler
        whiteListRequest = .error .ErrNilWhiteListHandler)
    ∧ (∀ m f p t a l, topic ≠ "" → marshalizer = some m → factory = some f →
      processor = some p → throttler = some t → antifloodHandler = some a →
      whiteListRequest = some l →
      NewMultiDataInterceptor topic marshalizer factory processor throttler antifloodHandler
        whiteListRequest =
        .ok { topic := topic, marshalizer := m, factory := f, processor := p,
              throttler := t, whiteListRequest := l, antifloodHandler := a,
              interceptedDebugHandler := NewDisabledInterceptorResolver })
    ∧ ((∃ mdi, NewMultiDataInterceptor topic marshalizer factory processor throttler
          antifloodHandler whiteListRequest = .ok mdi)
        ↔ topic ≠ "" ∧ marshalizer ≠ none ∧ factory ≠ none ∧ processor ≠ none
          ∧ throttler ≠ none ∧ antifloodHandler ≠ none ∧ whiteListRequest ≠ none) := by
  have hlen : topic.length = 0 ↔ topic = "" := by
    rcases topic with ⟨l⟩
    cases l with
    | nil => exact ⟨fun _ => rfl, fun _ => rfl⟩
    | cons c t =>
      constructor
      · intro h; simp [String.length] at h
      · intro h
        have h2 : c :: t = [] := congrArg String.data h
        cases h2
  by_cases ht : topic = ""
  · have h0 : topic.length = 0 := hlen.mpr ht
    simp [NewMultiDataInterceptor, h0, ht]
  · have h0 : ¬ topic.length = 0 := fun h => ht (hlen.mp h)
    cases marshalizer <;> cases factory <;> cases processor <;> cases throttler <;>
      cases antifloodHandler <;> cases whiteListRequest <;>
      simp [NewMultiDataInterceptor, h0, ht]
    intro m f p t a l hm hf hp hth ha hl
    exact ⟨hm, hf, hp, hth, hl, ha⟩

/-- C9, on the stub collaborators: with every collaborator present the
interceptor is built; without a throttler, or with an empty topic, it is
not. -/
theorem construction_is_all_or_nothing_witness :
    NewMultiDataInterceptor "txs" (some stubMarshalizer) (some stubFactory)
        (some stubProcessor) (some stubThrottler) (some stubAntiflood) (some stubWhiteList)
        = .ok stubInterceptor
      ∧ NewMultiDataInterceptor "txs" (some stubMarshalizer) (some stubFactory)
        (some stubProcessor) none (some stubAntiflood) (some stubWhiteList)
        = .error .ErrNilInterceptorThrottler
      ∧ NewMultiDataInterceptor "" (none : Option (Marshalizer World)) (some stubFactory)
        (some stubProcessor) none (some stubAntiflood) (some stubWhiteList)
        = .error .ErrEmptyTopic :=
  ⟨(construction_is_all_or_nothing "txs" (some stubMarshalizer) (some stubFactory)
      (some stubProcessor) (some stubThrottler) (some stubAntiflood)
      (some stubWhiteList)).2.2.2.2.2.2.2.1 stubMarshalizer stubFactory stubProcessor
      stubThrottler stubAntiflood stubWhiteList (by decide) rfl rfl rfl rfl rfl rfl,
    (construction_is_all_or_nothing "txs" (some stubMarshalizer) (some stubFactory)
      (some stubProcessor) none (some stubAntiflood) (some stubWhiteList)).2.2.2.2.1
      (by decide) (by simp) (by simp) (by simp) rfl,
    (construction_is_all_or_nothing "" none (some stubFactory)
      (some stubProcessor) none (some stubAntiflood) (some stubWhiteList)).1 rfl⟩

/-- C10: debug handler replacement. With a nil handler
`SetInterceptedDebugHandler` returns `ErrNilDebugger` and leaves the interceptor
as it was; with a handler `h` it returns nil, the debug handler of the
interceptor is `h` afterwards, and every other field is as before. -/
theorem debug_handler_replacement {W D : Type}
    (mdi : MultiDataInterceptor W D) (h : InterceptedDebugger W D) :
    SetInterceptedDebugHandler mdi none = (some .ErrNilDebugger, mdi)
      ∧ (SetInterceptedDebugHandler mdi (some h)).1 = none
      ∧ (SetInterceptedDebugHandler mdi (some h)).2.interceptedDebugHandler = h
      ∧ (SetInterceptedDebugHandler mdi (some h)).2.topic = mdi.topic
      ∧ (SetInterceptedDebugHandler mdi (some h)).2.marshalizer = mdi.marshalizer
      ∧ (SetInterceptedDebugHandler mdi (some h)).2.factory = mdi.factory
      ∧ (SetInterceptedDebugHandler mdi (some h)).2.processor = mdi.processor
      ∧ (SetInterceptedDebugHandler mdi (some h)).2.throttler = mdi.throttler
      ∧ (SetInterceptedDebugHandler mdi (some h)).2.whiteListRequest = mdi.whiteListRequest
      ∧ (SetInterceptedDebugHandler mdi (some h)).2.antifloodHandler
        = mdi.antifloodHandler :=
  ⟨rfl, rfl, rfl, rfl, rfl, rfl, rfl, rfl, rfl, rfl⟩

end interceptors

namespace seednode

/-! ## The seed-based reader -/

/-- The loop of `Read`, started at an index within the seed, writes the next
bytes of the repeated seed and leaves the index advanced by the length of the
buffer, modulo the length of the seed. -/
theorem readLoop_eq (seed : Bytes) (buff : Bytes) (i : Nat) (hi : i < seed.length) :
    readLoop seed (i : Int) buff
      = some (cycle seed i buff.length, (((i + buff.length) % seed.length : Nat) : Int)) := by
  induction buff generalizing i with
  | nil => simp [readLoop, cycle, Nat.mod_eq_of_lt hi]
  | cons b rest ih =>
    have hpos : 0 < seed.length := Nat.lt_of_le_of_lt (Nat.zero_le _) hi
    have hmod : Int.tmod ((i : Int) + 1) (seed.length : Int)
        = (((i + 1) % seed.length : Nat) : Int) := by
      rw [Int.tmod_eq_emod (by omega) (by omega)]
      norm_cast
    have hlt : (i + 1) % seed.length < seed.length := Nat.mod_lt _ hpos
    have hcond : (0 : Int) ≤ (i : Int) ∧ (i : Int) < (seed.length : Int) :=
      ⟨by omega, by exact_mod_cast hi⟩
    rw [readLoop, if_pos hcond, hmod, ih _ hlt]
    have hget : seed[((i : Int)).toNat]? = some (seed.getD (i % seed.length) 0) := by
      simp [Nat.mod_eq_of_lt hi, hi]
    rw [hget]
    simp only [List.length_cons, Option.some.injEq, Prod.mk.injEq]
    refine ⟨?_, ?_⟩
    · simp only [cycle, List.range_succ_eq_map, List.map_cons, List.map_map, Nat.add_zero]
      congr 1
      apply List.map_congr_left
      intro k _
      simp only [Function.comp, Nat.mod_add_mod]
      congr 2
      omega
    · congr 1
      rw [Nat.mod_add_mod]
      congr 1
      omega

/-- One `Read` of a reader whose index is within its seed, into a non-empty
buffer. -/
theorem Read_eq (seed p : Bytes) (i : Nat) (hi : i < seed.length) (hp : p ≠ []) :
    seedRandReader.Read { index := (i : Int), seed := some seed } (some p)
      = some { n := (p.length : Int), err := none, p := some (cycle seed i p.length),
               srr := { index := (((i + p.length) % seed.length : Nat) : Int),
                        seed := some seed } } := by
  have hs : ¬ seed.length = 0 := by omega
  have hpl : ¬ p.length = 0 := by
    intro h; exact hp (List.length_eq_zero.mp h)
  simp only [seedRandReader.Read, hs, hpl, if_false, readLoop_eq seed p i hi]

/-- Starting the repetition at a position or at that position modulo the length
of the seed gives the same bytes. -/
theorem cycle_mod (seed : Bytes) (t n : Nat) :
    cycle seed (t % seed.length) n = cycle seed t n := by
  simp only [cycle, Nat.mod_add_mod]

/-- A sequence of reads into non-empty buffers, on a reader that has read `t`
bytes so far. -/
theorem readAll_eq (seed : Bytes) (hs : seed ≠ []) (bufs : List Bytes) (t : Nat)
    (hne : ∀ b ∈ bufs, b ≠ []) :
    readAll { index := ((t % seed.length : Nat) : Int), seed := some seed }
        (bufs.map some)
      = expectedReads seed t (bufs.map List.length) := by
  have hpos : 0 < seed.length := List.length_pos.mpr hs
  induction bufs generalizing t with
  | nil => rfl
  | cons b rest ih =>
    have hb : b ≠ [] := hne b (List.mem_cons_self _ _)
    have hrest : ∀ x ∈ rest, x ≠ [] := fun x hx => hne x (List.mem_cons_of_mem _ hx)
    simp only [List.map_cons, readAll, expectedReads,
      Read_eq seed b (t % seed.length) (Nat.mod_lt _ hpos) hb, Nat.mod_add_mod, cycle_mod]
    rw [ih (t + b.length) hrest]

/-- C12: seed-based reader output. For a reader with a non-empty seed `s` whose
index `i` is within the seed, and a non-empty buffer of length `n`, `Read`
returns `(n, nil)`, leaves in the buffer, at every position `k < n`, the byte
`s[(i + k) mod len(s)]`, and leaves the index at `(i + n) mod len(s)`. A reader
fresh from `NewSeedRandReader` emits the seed repeated cyclically from its
first byte. -/
theorem seed_reader_output (seed p : Bytes) (i : Int)
    (hs : seed ≠ []) (hi : 0 ≤ i ∧ i < seed.length) (hp : p ≠ []) :
    seedRandReader.Read { index := i, seed := some seed } (some p)
        = some { n := (p.length : Int), err := none,
                 p := some (cycle seed i.toNat p.length),
                 srr := { index := (i + p.length) % seed.length, seed := some seed } }
      ∧ (cycle seed i.toNat p.length).length = p.length
      ∧ (∀ k, k < p.length →
          (cycle seed i.toNat p.length)[k]? = seed[(i.toNat + k) % seed.length]?)
      ∧ (NewSeedRandReader (some seed)).Read (some p)
        = some { n := (p.length : Int), err := none, p := some (cycle seed 0 p.length),
                 srr := { index := (p.length : Int) % seed.length, seed := some seed } } := by
  have hpos : 0 < seed.length := List.length_pos.mpr hs
  obtain ⟨j, rfl⟩ := Int.eq_ofNat_of_zero_le hi.1
  have hj : j < seed.length := by exact_mod_cast hi.2
  refine ⟨?_, ?_, ?_, ?_⟩
  · rw [Read_eq seed p j hj hp]
    simp only [Int.toNat_ofNat]
    norm_cast
  · simp [cycle]
  · intro k hk
    have hlt : (j + k) % seed.length < seed.length := Nat.mod_lt _ hpos
    simp [cycle, hk, List.getD_eq_getElem?_getD, List.getElem?_eq_getElem hlt]
  · have h0 := Read_eq seed p 0 hpos hp
    simp only [Nat.zero_add] at h0
    simp only [NewSeedRandReader]
    rw [show ((0 : Nat) : Int) = 0 from rfl] at h0
    rw [h0]
    norm_cast

/-- C12, on the seed `[7, 8, 9]`: from index 2 a buffer of four bytes receives
`9, 7, 8, 9` and the index is left at 0. -/
theorem seed_reader_output_witness :
    seedRandReader.Read { index := 2, seed := some [7, 8, 9] } (some [0, 0, 0, 0])
        = some { n := 4, err := none, p := some [9, 7, 8, 9],
                 srr := { index := 0, seed := some [7, 8, 9] } }
      ∧ (NewSeedRandReader (some [7, 8, 9])).Read (some [0, 0, 0, 0])
        = some { n := 4, err := none, p := some [7, 8, 9, 7],
                 srr := { index := 1, seed := some [7, 8, 9] } } :=
  have h := seed_reader_output [7, 8, 9] [0, 0, 0, 0] 2 (by decide) (by decide) (by decide)
  ⟨h.1.trans (by decide), h.2.2.2.trans (by decide)⟩

/-- C11: seeded randomness is deterministic. For a non-empty seed and any
sequence of non-empty buffers, the reads of a reader fresh from
`NewSeedRandReader` return, each, the length of its buffer, no error, and the
bytes of the seed repeated cyclically from the position given by the number of
bytes read so far; so two readers made from equal seeds, read with buffers of
the same lengths, return identical counts, errors and contents. The reader
`createNode` chooses depends on the configuration through its seed alone. -/
theorem seeded_randomness_is_deterministic (seed : Bytes) (hs : seed ≠ []) :
    (∀ bufs : List Bytes, (∀ b ∈ bufs, b ≠ []) →
      readAll (NewSeedRandReader (some seed)) (bufs.map some)
        = expectedReads seed 0 (bufs.map List.length))
    ∧ (∀ bufs1 bufs2 : List Bytes, (∀ b ∈ bufs1, b ≠ []) →
      bufs1.map List.length = bufs2.map List.length →
      readAll (NewSeedRandReader (some seed)) (bufs1.map some)
        = readAll (NewSeedRandReader (some seed)) (bufs2.map some))
    ∧ (∀ (C K M : Type) (lib : Libraries C K M) (c1 c2 : P2PConfig C),
      c1.Node.Seed = c2.Node.Seed → chooseRandReader lib c1 = chooseRandReader lib c2) := by
  have hpos : 0 < seed.length := List.length_pos.mpr hs
  have hfresh : NewSeedRandReader (some seed)
      = { index := ((0 % seed.length : Nat) : Int), seed := some seed } := by
    simp [NewSeedRandReader]
  refine ⟨?_, ?_, ?_⟩
  · intro bufs hne
    rw [hfresh, readAll_eq seed hs bufs 0 hne]
  · intro bufs1 bufs2 hne hlen
    have hne2 : ∀ b ∈ bufs2, b ≠ [] := by
      intro b hb hnil
      have hmem : b.length ∈ bufs2.map List.length := List.mem_map_of_mem _ hb
      rw [← hlen, List.mem_map] at hmem
      obtain ⟨a, ha, hla⟩ := hmem
      rw [hnil] at hla
      exact hne a ha (List.length_eq_zero.mp hla)
    rw [hfresh, readAll_eq seed hs bufs1 0 hne, readAll_eq seed hs bufs2 0 hne2, hlen]
  · intro C K M lib c1 c2 h
    simp [chooseRandReader, h]

/-- C11, on the seed `[7, 8, 9]`: two readers read with buffers of lengths two
and four, of different contents, return the same bytes. -/
theorem seeded_randomness_is_deterministic_witness :
    readAll (NewSeedRandReader (some [7, 8, 9])) [some [0, 0], some [0, 0, 0, 0]]
        = readAll (NewSeedRandReader (some [7, 8, 9])) [some [1, 1], some [2, 2, 2, 2]]
      ∧ readAll (NewSeedRandReader (some [7, 8, 9])) [some [0, 0], some [0, 0, 0, 0]]
        = [some (2, none, some [7, 8]), some (4, none, some [9, 7, 8, 9])] :=
  have h := seeded_randomness_is_deterministic [7, 8, 9] (by decide)
  ⟨h.2.1 [[0, 0], [0, 0, 0, 0]] [[1, 1], [2, 2, 2, 2]] (by decide) (by decide),
    (h.1 [[0, 0], [0, 0, 0, 0]] (by decide)).trans (by decide)⟩

/-! ## Construction of the messenger -/

/-- C13: invalid port fails construction. For a configuration whose port is not
positive, `createNetMessenger` answers with no messenger and the error
`"cannot start node on port <= 0"` having made no construction (no peer
discoverer, no private key), and `createNode` answers with the same error. For
a positive port and a discoverer that is not the Kad-DHT one, both answer with
no messenger and the error `"kad-dht peer discovery should have been enabled"`,
before any private key is generated. Whatever the port, a configuration for
which the factory gives no Kad-DHT discoverer gets no messenger. -/
theorem invalid_port_fails_construction {C K M : Type} (lib : Libraries C K M)
    (p2pConfig : P2PConfig C) :
    (p2pConfig.Node.Port ≤ 0 →
      (∀ randReader, createNetMessenger lib p2pConfig randReader
        = (.error (.New "cannot start node on port <= 0"), []))
      ∧ createNode lib p2pConfig = (.error (.New "cannot start node on port <= 0"), []))
    ∧ (∀ name, 0 < p2pConfig.Node.Port →
      lib.CreatePeerDiscoverer p2pConfig = .ok (.other name) →
      (∀ randReader, createNetMessenger lib p2pConfig randReader
        = (.error (.New "kad-dht peer discovery should have been enabled"),
            [.CreatePeerDiscoverer]))
      ∧ createNode lib p2pConfig
        = (.error (.New "kad-dht peer discovery should have been enabled"),
            [.CreatePeerDiscoverer]))
    ∧ ((∀ name, lib.CreatePeerDiscoverer p2pConfig ≠ .ok (.KadDhtDiscoverer name)) →
      (∀ randReader, ∃ err made,
        createNetMessenger lib p2pConfig randReader = (.error err, made)
          ∧ Construction.GenerateKey ∉ made ∧ Construction.NewNetworkMessenger ∉ made)
      ∧ ∃ err made, createNode lib p2pConfig = (.error err, made)) := by
  refine ⟨?_, ?_, ?_⟩
  · intro hport
    have h : ∀ randReader, createNetMessenger lib p2pConfig randReader
        = (.error (.New "cannot start node on port <= 0"), []) := by
      intro randReader
      simp [createNetMessenger, hport]
    exact ⟨h, by simp [createNode, h]⟩
  · intro name hport hdisc
    have hnot : ¬ p2pConfig.Node.Port ≤ 0 := by omega
    have h : ∀ randReader, createNetMessenger lib p2pConfig randReader
        = (.error (.New "kad-dht peer discovery should have been enabled"),
            [.CreatePeerDiscoverer]) := by
      intro randReader
      simp [createNetMessenger, hnot, hdisc]
    exact ⟨h, by simp [createNode, h]⟩
  · intro hnone
    have h : ∀ randReader, ∃ err made,
        createNetMessenger lib p2pConfig randReader = (.error err, made)
          ∧ Construction.GenerateKey ∉ made ∧ Construction.NewNetworkMessenger ∉ made := by
      intro randReader
      by_cases hport : p2pConfig.Node.Port ≤ 0
      · exact ⟨.New "cannot start node on port <= 0", [],
          by simp [createNetMessenger, hport], by simp, by simp⟩
      · cases hd : lib.CreatePeerDiscoverer p2pConfig with
        | error err =>
          exact ⟨err, [.CreatePeerDiscoverer], by simp [createNetMessenger, hport, hd],
            by simp, by simp⟩
        | ok d =>
          cases d with
          | KadDhtDiscoverer name => exact absurd hd (hnone name)
          | other name =>
            exact ⟨.New "kad-dht peer discovery should have been enabled",
              [.CreatePeerDiscoverer], by simp [createNetMessenger, hport, hd],
              by simp, by simp⟩
    refine ⟨h, ?_⟩
    obtain ⟨err, made, hm, -, -⟩ := h (chooseRandReader lib p2pConfig)
    exact ⟨err, made, by simp [createNode, hm]⟩

/-- C13, on the stub libraries: port 0 is refused before anything is built, and
port 10 with another discoverer than Kad-DHT is refused after the discoverer is
built. -/
theorem invalid_port_fails_construction_witness :
    createNode stubLibraries { Node := { Port := 0, Seed := "s" }, Discovery := true }
        = (.error (.New "cannot start node on port <= 0"), [])
      ∧ createNode stubLibraries { Node := { Port := 10, Seed := "s" }, Discovery := false }
        = (.error (.New "kad-dht peer discovery should have been enabled"),
            [.CreatePeerDiscoverer]) :=
  ⟨((invalid_port_fails_construction stubLibraries
      { Node := { Port := 0, Seed := "s" }, Discovery := true }).1 (by decide)).2,
    ((invalid_port_fails_construction stubLibraries
      { Node := { Port := 10, Seed := "s" }, Discovery := false }).2.1 "mdns" (by decide)
      rfl).2⟩

end seednode

namespace builtInFunctions

/-! ## Change of owner address -/

/-- C14: change-owner validation. `ProcessBuiltinFunction` returns no value and
the error of the first failing check, in this order: `ErrNilVmInput` for a nil
input; `ErrInvalidArguments` for an input without arguments;
`ErrNilSCDestAccount` for a nil destination account;
`ErrOperationNotPermitted` when the caller is not the owner of the destination
account; `ErrInvalidAddressLength` when the first argument has not the length
of the account's address. In each of these cases the account is not changed.
The sender account never influences the outcome. -/
theorem change_owner_validation {A : Type} [UserAccountHandler A]
    (c : changeOwnerAddress) (acntSnd acntDst : Option A) :
    c.ProcessBuiltinFunction acntSnd acntDst none
        = { value := none, err := some .ErrNilVmInput, acntDst := acntDst, changes := [] }
    ∧ (∀ vmInput : ContractCallInput, vmInput.Arguments = [] →
      c.ProcessBuiltinFunction acntSnd acntDst (some vmInput)
        = { value := none, err := some .ErrInvalidArguments, acntDst := acntDst,
            changes := [] })
    ∧ (∀ vmInput : ContractCallInput, vmInput.Arguments ≠ [] → acntDst = none →
      c.ProcessBuiltinFunction acntSnd acntDst (some vmInput)
        = { value := none, err := some .ErrNilSCDestAccount, acntDst := none,
            changes := [] })
    ∧ (∀ (vmInput : ContractCallInput) (dst : A), vmInput.Arguments ≠ [] →
      acntDst = some dst →
      vmInput.CallerAddr ≠ UserAccountHandler.GetOwnerAddress dst →
      c.ProcessBuiltinFunction acntSnd acntDst (some vmInput)
        = { value := none, err := some .ErrOperationNotPermitted, acntDst := some dst,
            changes := [] })
    ∧ (∀ (vmInput : ContractCallInput) (dst : A) (argument0 : Bytes) (more : List Bytes),
      vmInput.Arguments = argument0 :: more → acntDst = some dst →
      vmInput.CallerAddr = UserAccountHandler.GetOwnerAddress dst →
      argument0.length ≠ (UserAccountHandler.AddressContainerBytes dst).length →
      c.ProcessBuiltinFunction acntSnd acntDst (some vmInput)
        = { value := none, err := some .ErrInvalidAddressLength, acntDst := some dst,
            changes := [] })
    ∧ (∀ (other : Option A) (vmInput : Option ContractCallInput),
      c.ProcessBuiltinFunction other acntDst vmInput
        = c.ProcessBuiltinFunction acntSnd acntDst vmInput) := by
  refine ⟨rfl, ?_, ?_, ?_, ?_, ?_⟩
  · intro vmInput h
    simp [changeOwnerAddress.ProcessBuiltinFunction, h]
  · intro vmInput h hd
    cases ha : vmInput.Arguments with
    | nil => exact absurd ha h
    | cons a t => simp [changeOwnerAddress.ProcessBuiltinFunction, ha, hd]
  · intro vmInput dst h hd hc
    cases ha : vmInput.Arguments with
    | nil => exact absurd ha h
    | cons a t => simp [changeOwnerAddress.ProcessBuiltinFunction, ha, hd, hc]
  · intro vmInput dst argument0 more ha hd hc hl
    simp [changeOwnerAddress.ProcessBuiltinFunction, ha, hd, hc, hl]
  · intro other vmInput
    rfl

/-- C14, on a stub account of address `[1, 2]` owned by `[5, 6]`: a caller that
is not the owner is refused, and so is the owner proposing an address of three
bytes. -/
theorem change_owner_validation_witness :
    (NewChangeOwnerAddressFunc 10).ProcessBuiltinFunction none
        (some ({ address := [1, 2], owner := [5, 6], frozen := false } : StubAccount))
        (some { CallerAddr := [9, 9], Arguments := [[3, 4]] })
        = { value := none, err := some .ErrOperationNotPermitted,
            acntDst := some { address := [1, 2], owner := [5, 6], frozen := false },
            changes := [] }
      ∧ (NewChangeOwnerAddressFunc 10).ProcessBuiltinFunction none
        (some ({ address := [1, 2], owner := [5, 6], frozen := false } : StubAccount))
        (some { CallerAddr := [5, 6], Arguments := [[3, 4, 5]] })
        = { value := none, err := some .ErrInvalidAddressLength,
            acntDst := some { address := [1, 2], owner := [5, 6], frozen := false },
            changes := [] } :=
  have h := change_owner_validation (NewChangeOwnerAddressFunc 10) none
    (some ({ address := [1, 2], owner := [5, 6], frozen := false } : StubAccount))
  ⟨h.2.2.2.1 { CallerAddr := [9, 9], Arguments := [[3, 4]] } _ (by decide) rfl (by decide),
    h.2.2.2.2.1 { CallerAddr := [5, 6], Arguments := [[3, 4, 5]] } _ [3, 4, 5] [] rfl rfl
      (by decide) (by decide)⟩

/-- C15: change-owner success. For an input with at least one argument and a
destination account owned by the caller, whose address has the length of the
first argument, `ProcessBuiltinFunction` calls
`ChangeOwnerAddress(CallerAddr, Arguments[0])` on the account exactly once,
whatever the further arguments, and returns `(0, nil)` when the call succeeds
and `(nil, e)` when it fails with `e`. A nil error is returned only when the
caller is the owner of the account. -/
theorem change_owner_success {A : Type} [UserAccountHandler A]
    (c : changeOwnerAddress) (acntSnd : Option A) (dst : A) :
    (∀ (vmInput : ContractCallInput) (argument0 : Bytes) (more : List Bytes),
      vmInput.Arguments = argument0 :: more →
      vmInput.CallerAddr = UserAccountHandler.GetOwnerAddress dst →
      argument0.length = (UserAccountHandler.AddressContainerBytes dst).length →
      (c.ProcessBuiltinFunction acntSnd (some dst) (some vmInput)).changes
          = [(vmInput.CallerAddr, argument0)]
        ∧ (c.ProcessBuiltinFunction acntSnd (some dst) (some vmInput)).acntDst
          = some (UserAccountHandler.ChangeOwnerAddress vmInput.CallerAddr argument0 dst).2
        ∧ ((UserAccountHandler.ChangeOwnerAddress vmInput.CallerAddr argument0 dst).1 = none →
          (c.ProcessBuiltinFunction acntSnd (some dst) (some vmInput)).value = some 0
            ∧ (c.ProcessBuiltinFunction acntSnd (some dst) (some vmInput)).err = none)
        ∧ (∀ e,
          (UserAccountHandler.ChangeOwnerAddress vmInput.CallerAddr argument0 dst).1 = some e →
          (c.ProcessBuiltinFunction acntSnd (some dst) (some vmInput)).value = none
            ∧ (c.ProcessBuiltinFunction acntSnd (some dst) (some vmInput)).err = some e))
    ∧ (∀ vmInput : Option ContractCallInput,
      (c.ProcessBuiltinFunction acntSnd (some dst) vmInput).err = none →
      ∃ input, vmInput = some input
        ∧ input.CallerAddr = UserAccountHandler.GetOwnerAddress dst) := by
  refine ⟨?_, ?_⟩
  · intro vmInput argument0 more ha hc hl
    rcases hch : UserAccountHandler.ChangeOwnerAddress vmInput.CallerAddr argument0 dst
      with ⟨res, dst1⟩
    cases res <;>
      simp [changeOwnerAddress.ProcessBuiltinFunction, ha, hc, hl, hc ▸ hch]
  · intro vmInput h
    cases vmInput with
    | none => simp [changeOwnerAddress.ProcessBuiltinFunction] at h
    | some input =>
      refine ⟨input, rfl, ?_⟩
      by_contra hne
      cases ha : input.Arguments with
      | nil => simp [changeOwnerAddress.ProcessBuiltinFunction, ha] at h
      | cons a t => simp [changeOwnerAddress.ProcessBuiltinFunction, ha, hne] at h

/-- C15, on a stub account of address `[1, 2]` owned by `[5, 6]`: the owner
hands the account to `[3, 4]`; the second argument is ignored. -/
theorem change_owner_success_witness :
    ((NewChangeOwnerAddressFunc 10).ProcessBuiltinFunction none
        (some ({ address := [1, 2], owner := [5, 6], frozen := false } : StubAccount))
        (some { CallerAddr := [5, 6], Arguments := [[3, 4], [7]] })).changes
        = [([5, 6], [3, 4])]
      ∧ ((NewChangeOwnerAddressFunc 10).ProcessBuiltinFunction none
        (some ({ address := [1, 2], owner := [5, 6], frozen := false } : StubAccount))
        (some { CallerAddr := [5, 6], Arguments := [[3, 4], [7]] })).value = some 0
      ∧ ((NewChangeOwnerAddressFunc 10).ProcessBuiltinFunction none
        (some ({ address := [1, 2], owner := [5, 6], frozen := false } : StubAccount))
        (some { CallerAddr := [5, 6], Arguments := [[3, 4], [7]] })).acntDst
        = some { address := [1, 2], owner := [3, 4], frozen := false } :=
  have h := (change_owner_success (NewChangeOwnerAddressFunc 10) none
    ({ address := [1, 2], owner := [5, 6], frozen := false } : StubAccount)).1
    { CallerAddr := [5, 6], Arguments := [[3, 4], [7]] } [3, 4] [[7]] rfl rfl rfl
  ⟨h.1, (h.2.2.1 rfl).1, h.2.1⟩

end builtInFunctions

namespace parsing

/-! ## Validation of an entry -/

/-- A string has no character exactly when it is the empty string. -/
theorem length_eq_zero_iff (s : String) : s.length = 0 ↔ s = "" := by
  rcases s with ⟨l⟩
  cases l with
  | nil => exact ⟨fun _ => rfl, fun _ => rfl⟩
  | cons c t =>
    constructor
    · intro h; simp [String.length] at h
    · intro h
      have h2 : c :: t = [] := congrArg String.data h
      cases h2

/-- The decoder of hexadecimal strings succeeds exactly on an even number of
bytes that are all hexadecimal digits. -/
theorem hexDecode_ok_iff (cs : Bytes) :
    (∃ bytes, hexDecode cs = .ok bytes)
      ↔ cs.length % 2 = 0 ∧ ∀ c ∈ cs, (fromHexChar c).isSome := by
  induction cs using hexDecode.induct with
  | case1 => simp [hexDecode]
  | case2 p h => simp [hexDecode, h]
  | case3 p a h => simp [hexDecode, h]
  | case4 p q rest h => simp [hexDecode, h]
  | case5 p q rest a h hq => simp [hexDecode, h, hq]
  | case6 p q rest a h b hq err hrest ih =>
    simp only [hexDecode, h, hq, hrest] at ih ⊢
    simp only [List.length_cons, List.mem_cons, forall_eq_or_imp, Option.isSome_some,
      true_and]
    constructor
    · rintro ⟨_, h0⟩; cases h0
    · rintro ⟨hl, hall⟩
      exact absurd (ih.mpr ⟨by omega, hall.2.2⟩) (by simp)
  | case7 p q rest a h b hq bytes hrest ih =>
    simp only [hexDecode, h, hq, hrest] at ih ⊢
    simp only [List.length_cons, List.mem_cons, forall_eq_or_imp, Option.isSome_some,
      true_and]
    have := ih.mp ⟨bytes, rfl⟩
    exact ⟨fun _ => ⟨by omega, by simp [h], by simp [hq], this.2⟩, fun _ => ⟨_, rfl⟩⟩

/-- A hexadecimal digit is an ASCII byte. -/
theorem fromHexChar_isSome_lt (b : Nat) (h : (fromHexChar b).isSome) : b < 0x80 := by
  unfold fromHexChar at h
  split_ifs at h with h1 h2 h3
  · omega
  · omega
  · omega
  · simp at h

/-- An ASCII character is encoded by the one byte of its code. -/
theorem utf8EncodeChar_ascii (c : Char) (h : c.toNat < 0x80) :
    utf8EncodeChar c = [c.toNat] := by
  simp [utf8EncodeChar, h]

/-- The encoding of a character outside ASCII starts with a byte from `0x80`
on. -/
theorem utf8EncodeChar_not_ascii (c : Char) (h : ¬ c.toNat < 0x80) :
    ∃ b rest, utf8EncodeChar c = b :: rest ∧ 0x80 ≤ b := by
  unfold utf8EncodeChar
  simp only [h, if_false]
  split_ifs
  · exact ⟨_, _, rfl, by omega⟩
  · exact ⟨_, _, rfl, by omega⟩
  · exact ⟨_, _, rfl, by omega⟩

/-- The bytes of a character are all hexadecimal digits exactly when the
character is one, and then it is encoded by one byte. -/
theorem utf8EncodeChar_hex (c : Char) :
    (∀ b ∈ utf8EncodeChar c, (fromHexChar b).isSome) ↔ (fromHexChar c.toNat).isSome := by
  constructor
  · intro h
    by_cases hc : c.toNat < 0x80
    · rw [utf8EncodeChar_ascii c hc] at h
      exact h _ (List.mem_singleton.mpr rfl)
    · obtain ⟨b, rest, hb, hge⟩ := utf8EncodeChar_not_ascii c hc
      have := fromHexChar_isSome_lt b (h b (by rw [hb]; exact List.mem_cons_self _ _))
      omega
  · intro h b hb
    rw [utf8EncodeChar_ascii c (fromHexChar_isSome_lt _ h), List.mem_singleton] at hb
    rw [hb]
    exact h

/-- The bytes of a list of characters are all hexadecimal digits exactly when
the characters are, and then there are as many bytes as characters. -/
theorem utf8Encode_hex (cs : List Char) :
    ((∀ b ∈ utf8Encode cs, (fromHexChar b).isSome)
        ↔ ∀ c ∈ cs, (fromHexChar c.toNat).isSome)
      ∧ ((∀ c ∈ cs, (fromHexChar c.toNat).isSome) → (utf8Encode cs).length = cs.length) := by
  induction cs with
  | nil => simp [utf8Encode]
  | cons c cs ih =>
    refine ⟨?_, ?_⟩
    · simp only [utf8Encode, List.mem_append, List.mem_cons, forall_eq_or_imp]
      rw [← utf8EncodeChar_hex c, ← ih.1]
      constructor
      · intro h
        exact ⟨fun b hb => h b (Or.inl hb), fun b hb => h b (Or.inr hb)⟩
      · rintro ⟨h1, h2⟩ b (hb | hb)
        · exact h1 b hb
        · exact h2 b hb
    · intro h
      have hc := h c (List.mem_cons_self _ _)
      have hcs := ih.2 (fun d hd => h d (List.mem_cons_of_mem _ hd))
      simp [utf8Encode, utf8EncodeChar_ascii c (fromHexChar_isSome_lt _ hc), hcs]

/-- `hex.DecodeString` succeeds exactly on the valid hexadecimal strings. -/
theorem DecodeString_ok_iff (s : String) :
    (∃ bytes, DecodeString s = .ok bytes) ↔ validHex s := by
  have hs := utf8Encode_hex s.toList
  simp only [DecodeString, stringBytes, validHex, hexDecode_ok_iff, String.length]
  constructor
  · rintro ⟨hl, hall⟩
    have hc := hs.1.mp hall
    have hlen : (utf8Encode s.toList).length = s.data.length := hs.2 hc
    exact ⟨by rw [← hlen]; exact hl, hc⟩
  · rintro ⟨hl, hc⟩
    have hlen : (utf8Encode s.toList).length = s.data.length := hs.2 hc
    exact ⟨by rw [hlen]; exact hl, hs.1.mpr hc⟩

/-- The decoder reports the first byte that is no digit: for `"é0"` the first
byte `0xC3` of the two bytes of `é`; and a bad length for a digit left over. -/
theorem DecodeString_errors :
    DecodeString "é0" = .error (.InvalidByteError 0xC3)
      ∧ DecodeString "05x" = .error (.InvalidByteError 0x78)
      ∧ DecodeString "050" = .error .ErrLength
      ∧ DecodeString "05fF" = .ok [5, 255] := by
  refine ⟨?_, ?_, ?_, ?_⟩ <;> rfl

/-- C16: genesis smart-contract entry validation. `parseElement` returns, by
the first failing check in this order: `ErrEmptyOwnerAddress` when the owner is
the empty string; an error wrapping `ErrInvalidOwnerAddress` when the converter
cannot decode the owner; an error wrapping `ErrEmptyVmType` when the VM type is
the empty string; an error wrapping `ErrInvalidVmType` when the VM type is not
valid hexadecimal (an odd number of characters, or a character that is no
hexadecimal digit); and otherwise nil, with the owner bytes of the entry set to
the decoded owner. -/
theorem parse_element_validation {Addr : Type} (pubkeyConverter : PubkeyConverter Addr)
    (isc : InitialSmartContract) :
    (isc.Owner = "" → parseElement pubkeyConverter isc = (some .ErrEmptyOwnerAddress, isc))
    ∧ (isc.Owner ≠ "" → (∀ bytes, pubkeyConverter.Decode isc.Owner ≠ .ok bytes) →
      ∃ err, parseElement pubkeyConverter isc = (some err, isc)
        ∧ err.wraps .ErrInvalidOwnerAddress)
    ∧ (∀ ownerBytes, isc.Owner ≠ "" → pubkeyConverter.Decode isc.Owner = .ok ownerBytes →
      isc.VmType = "" →
      ∃ err, parseElement pubkeyConverter isc = (some err, isc.SetOwnerBytes ownerBytes)
        ∧ err.wraps .ErrEmptyVmType)
    ∧ (∀ ownerBytes, isc.Owner ≠ "" → pubkeyConverter.Decode isc.Owner = .ok ownerBytes →
      isc.VmType ≠ "" → ¬ validHex isc.VmType →
      ∃ err, parseElement pubkeyConverter isc = (some err, isc.SetOwnerBytes ownerBytes)
        ∧ err.wraps .ErrInvalidVmType)
    ∧ (∀ ownerBytes, isc.Owner ≠ "" → pubkeyConverter.Decode isc.Owner = .ok ownerBytes →
      isc.VmType ≠ "" → validHex isc.VmType →
      parseElement pubkeyConverter isc = (none, isc.SetOwnerBytes ownerBytes)
        ∧ (isc.SetOwnerBytes ownerBytes).OwnerBytes = ownerBytes) := by
  refine ⟨?_, ?_, ?_, ?_, ?_⟩
  · intro h
    simp [parseElement, h]
  · intro h hdec
    have h0 : ¬ isc.Owner.length = 0 := fun hl => h ((length_eq_zero_iff _).mp hl)
    cases hd : pubkeyConverter.Decode isc.Owner with
    | ok bytes => exact absurd hd (hdec bytes)
    | error e =>
      exact ⟨.wrap .ErrInvalidOwnerAddress isc.Owner none,
        by simp [parseElement, h0, hd], _, _, rfl⟩
  · intro ownerBytes h hd hvm
    have h0 : ¬ isc.Owner.length = 0 := fun hl => h ((length_eq_zero_iff _).mp hl)
    exact ⟨.wrap .ErrEmptyVmType isc.Owner none,
      by simp [parseElement, h0, hd, hvm, InitialSmartContract.SetOwnerBytes], _, _, rfl⟩
  · intro ownerBytes h hd hvm hhex
    have h0 : ¬ isc.Owner.length = 0 := fun hl => h ((length_eq_zero_iff _).mp hl)
    have h1 : ¬ isc.VmType.length = 0 := fun hl => hvm ((length_eq_zero_iff _).mp hl)
    cases hx : DecodeString isc.VmType with
    | ok bytes => exact absurd ((DecodeString_ok_iff _).mp ⟨bytes, hx⟩) hhex
    | error e =>
      exact ⟨.wrap .ErrInvalidVmType isc.VmType (some e),
        by simp [parseElement, h0, hd, h1, hx, InitialSmartContract.SetOwnerBytes],
        _, _, rfl⟩
  · intro ownerBytes h hd hvm hhex
    have h0 : ¬ isc.Owner.length = 0 := fun hl => h ((length_eq_zero_iff _).mp hl)
    have h1 : ¬ isc.VmType.length = 0 := fun hl => hvm ((length_eq_zero_iff _).mp hl)
    obtain ⟨bytes, hx⟩ := (DecodeString_ok_iff _).mpr hhex
    exact ⟨by simp [parseElement, h0, hd, h1, hx, InitialSmartContract.SetOwnerBytes], rfl⟩

/-- C16, on the stub converter: an entry with owner `"ab"` and VM type `"0500"`
is accepted with owner bytes `[97, 98]`; with VM type `"05x"` it is refused;
with an empty owner it is refused with the bare sentinel. -/
theorem parse_element_validation_witness :
    parseElement stubConverter
        { Owner := "ab", Filename := "f", VmType := "0500", ownerBytes := [] }
        = (none, { Owner := "ab", Filename := "f", VmType := "0500", ownerBytes := [97, 98] })
      ∧ (∃ err, parseElement stubConverter
          { Owner := "ab", Filename := "f", VmType := "05x", ownerBytes := [] }
          = (some err,
              { Owner := "ab", Filename := "f", VmType := "05x", ownerBytes := [97, 98] })
        ∧ err.wraps .ErrInvalidVmType)
      ∧ parseElement stubConverter
        { Owner := "", Filename := "f", VmType := "0500", ownerBytes := [] }
        = (some .ErrEmptyOwnerAddress,
            { Owner := "", Filename := "f", VmType := "0500", ownerBytes := [] }) :=
  ⟨((parse_element_validation stubConverter
      { Owner := "ab", Filename := "f", VmType := "0500", ownerBytes := [] }).2.2.2.2
      [97, 98] (by decide) rfl (by decide) ⟨by decide, by decide⟩).1,
    (parse_element_validation stubConverter
      { Owner := "ab", Filename := "f", VmType := "05x", ownerBytes := [] }).2.2.2.1
      [97, 98] (by decide) rfl (by decide) (fun h => absurd h.1 (by decide)),
    (parse_element_validation stubConverter
      { Owner := "", Filename := "f", VmType := "0500", ownerBytes := [] }).1 rfl⟩

/-! ## Duplicate owners -/

/-- A search over the indexes `0 .. n-1` that finds something finds it at a
first index. -/
theorem findSome_range_first {β : Type} (f : Nat → Option β) (n : Nat) (b : β)
    (h : (List.range n).findSome? f = some b) :
    ∃ i, i < n ∧ f i = some b ∧ ∀ k, k < i → f k = none := by
  induction n with
  | zero => simp at h
  | succ n ih =>
    rw [List.range_succ, List.findSome?_append] at h
    cases hn : (List.range n).findSome? f with
    | some b1 =>
      rw [hn] at h
      simp only [Option.or_some, Option.some.injEq] at h
      obtain ⟨i, hi, hf, hmin⟩ := ih (h ▸ hn)
      exact ⟨i, by omega, hf, hmin⟩
    | none =>
      rw [hn] at h
      simp only [Option.none_or, List.findSome?_cons, List.findSome?_nil] at h
      rw [List.findSome?_eq_none_iff] at hn
      refine ⟨n, by omega, ?_, fun k hk => hn k (List.mem_range.mpr hk)⟩
      cases hf : f n with
      | none => simp [hf] at h
      | some b2 => simpa [hf] using h

/-- The owners of a list of entries are pairwise distinct exactly when no two
positions have the same owner. -/
theorem nodup_owners_iff (entries : List InitialSmartContract) :
    (entries.map (fun isc => isc.Owner)).Nodup
      ↔ ∀ i j, i < j → ¬ sameOwner entries i j := by
  rw [List.nodup_iff_getElem?_ne_getElem?]
  constructor
  · intro h i j hij ⟨ib1, ib2, h1, h2, ho⟩
    have hj : j < (entries.map (fun isc => isc.Owner)).length := by
      rw [List.length_map]
      exact (List.getElem?_eq_some_iff.mp h2).1
    apply h i j hij hj
    simp [h1, h2, ho]
  · intro h i j hij hj heq
    rw [List.length_map] at hj
    have hi : i < entries.length := by omega
    apply h i j hij
    refine ⟨entries[i], entries[j], List.getElem?_eq_getElem hi, List.getElem?_eq_getElem hj, ?_⟩
    simpa [List.getElem?_eq_getElem hi, List.getElem?_eq_getElem hj] using heq

/-- The inner loop of `checkForDuplicates` finds nothing exactly when no later
entry has the owner of the entry at `idx1`. -/
theorem inner_loop_none_iff (entries : List InitialSmartContract) (idx1 : Nat) :
    ((List.range' (idx1 + 1) (entries.length - (idx1 + 1))).findSome? fun idx2 =>
        match entries[idx1]?, entries[idx2]? with
        | some ib1, some ib2 =>
          if ib1.Owner = ib2.Owner then
            some (Error.wrap .ErrDuplicateOwnerAddress ib1.Owner none)
          else none
        | _, _ => none) = none
      ↔ ∀ j, idx1 < j → ¬ sameOwner entries idx1 j := by
  rw [List.findSome?_eq_none_iff]
  constructor
  · intro h j hij ⟨ib1, ib2, h1, h2, ho⟩
    have hj : j < entries.length := (List.getElem?_eq_some_iff.mp h2).1
    have := h j (List.mem_range'_1.mpr ⟨by omega, by omega⟩)
    simp [h1, h2, ho] at this
  · intro h j hj
    have hij : idx1 < j := by
      have := (List.mem_range'_1.mp hj).1
      omega
    cases h1 : entries[idx1]? with
    | none => rfl
    | some ib1 =>
      cases h2 : entries[j]? with
      | none => rfl
      | some ib2 =>
        by_cases ho : ib1.Owner = ib2.Owner
        · exact absurd ⟨ib1, ib2, h1, h2, ho⟩ (h j hij)
        · simp [ho]

/-- What the inner loop of `checkForDuplicates` finds is a later entry with the
owner of the entry at `idx1`, and the error tells that owner. -/
theorem inner_loop_some (entries : List InitialSmartContract) (idx1 : Nat) (err : Error)
    (h : ((List.range' (idx1 + 1) (entries.length - (idx1 + 1))).findSome? fun idx2 =>
        match entries[idx1]?, entries[idx2]? with
        | some ib1, some ib2 =>
          if ib1.Owner = ib2.Owner then
            some (Error.wrap .ErrDuplicateOwnerAddress ib1.Owner none)
          else none
        | _, _ => none) = some err) :
    ∃ j ib1, idx1 < j ∧ sameOwner entries idx1 j ∧ entries[idx1]? = some ib1
      ∧ err = .wrap .ErrDuplicateOwnerAddress ib1.Owner none := by
  obtain ⟨j, hj, hf⟩ := List.exists_of_findSome?_eq_some h
  have hij : idx1 < j := by
    have := (List.mem_range'_1.mp hj).1
    omega
  cases h1 : entries[idx1]? with
  | none => simp [h1] at hf
  | some ib1 =>
    cases h2 : entries[j]? with
    | none => simp [h1, h2] at hf
    | some ib2 =>
      by_cases ho : ib1.Owner = ib2.Owner
      · simp only [h1, h2, ho, if_true, Option.some.injEq] at hf
        exact ⟨j, ib1, hij, ⟨ib1, ib2, h1, h2, ho⟩, rfl, by rw [← hf, ho]⟩
      · simp [h1, h2, ho] at hf

/-- Parsing an entry leaves its owner as it is. -/
theorem parseElement_owner {Addr : Type} (pubkeyConverter : PubkeyConverter Addr)
    (isc : InitialSmartContract) :
    (parseElement pubkeyConverter isc).2.Owner = isc.Owner := by
  by_cases h0 : isc.Owner.length = 0
  · simp [parseElement, h0]
  · cases hd : pubkeyConverter.Decode isc.Owner with
    | error e => simp [parseElement, h0, hd]
    | ok ownerBytes =>
      by_cases h1 : isc.VmType.length = 0
      · simp [parseElement, h0, hd, h1, InitialSmartContract.SetOwnerBytes]
      · cases hx : DecodeString isc.VmType <;>
          simp [parseElement, h0, hd, h1, hx, InitialSmartContract.SetOwnerBytes]

/-- The first loop of `process` leaves the owners of the entries as they
are. -/
theorem processEntries_owners {Addr : Type} (pubkeyConverter : PubkeyConverter Addr)
    (checkForFileHandler : String → Option Error) (entries : List InitialSmartContract) :
    (processEntries pubkeyConverter checkForFileHandler entries).2.map (fun isc => isc.Owner)
      = entries.map (fun isc => isc.Owner) := by
  induction entries with
  | nil => rfl
  | cons isc rest ih =>
    have ho := parseElement_owner pubkeyConverter isc
    rcases hp : parseElement pubkeyConverter isc with ⟨res, parsed⟩
    rw [hp] at ho
    simp only at ho
    cases res with
    | some err => simp [processEntries, hp, ho]
    | none =>
      cases hf : checkForFileHandler parsed.Filename with
      | some err => simp [processEntries, hp, hf, ho]
      | none =>
        simp only [processEntries, hp, hf, List.map_cons, ho]
        rw [ih]

/-- The two loops of `checkForDuplicates` find nothing exactly when no two
positions have the same owner. -/
theorem checkForDuplicates_none_iff (entries : List InitialSmartContract) :
    checkForDuplicates entries = none ↔ ¬ ∃ i j, i < j ∧ sameOwner entries i j := by
  unfold checkForDuplicates
  rw [List.findSome?_eq_none_iff]
  constructor
  · intro h ⟨i, j, hij, hs⟩
    have hi : i < entries.length := by
      obtain ⟨ib1, _, h1, _, _⟩ := hs
      exact (List.getElem?_eq_some_iff.mp h1).1
    exact (inner_loop_none_iff entries i).mp (h i (List.mem_range.mpr hi)) j hij hs
  · intro h i _
    exact (inner_loop_none_iff entries i).mpr (fun j hij hs => h ⟨i, j, hij, hs⟩)

/-- The two loops of `checkForDuplicates` find nothing exactly when the owners
are pairwise distinct. -/
theorem checkForDuplicates_none_iff_nodup (entries : List InitialSmartContract) :
    checkForDuplicates entries = none ↔ (entries.map (fun isc => isc.Owner)).Nodup := by
  rw [checkForDuplicates_none_iff, nodup_owners_iff]
  constructor
  · intro h i j hij hs
    exact h ⟨i, j, hij, hs⟩
  · rintro h ⟨i, j, hij, hs⟩
    exact h i j hij hs

/-- What `checkForDuplicates` finds: the first position that has a later
position with the same owner, and the error tells that owner. -/
theorem checkForDuplicates_some (entries : List InitialSmartContract) (err : Error)
    (h : checkForDuplicates entries = some err) :
    ∃ i j ib1, i < j ∧ sameOwner entries i j ∧ entries[i]? = some ib1
      ∧ err = .wrap .ErrDuplicateOwnerAddress ib1.Owner none
      ∧ ∀ k m, k < i → k < m → ¬ sameOwner entries k m := by
  unfold checkForDuplicates at h
  obtain ⟨i, _, hf, hmin⟩ := findSome_range_first _ _ _ h
  obtain ⟨j, ib1, hij, hs, h1, he⟩ := inner_loop_some entries i err hf
  exact ⟨i, j, ib1, hij, hs, h1, he,
    fun k m hk hkm => (inner_loop_none_iff entries k).mp (hmin k hk) m hkm⟩

/-- C17: duplicate owners are rejected. `checkForDuplicates` returns an error
wrapping `ErrDuplicateOwnerAddress` if and only if two entries at different
positions have the same owner, and nil otherwise, that is, exactly when the
owners are pairwise distinct. When it fails, the owner it reports is that of
the entry of lowest index that has a later entry with the same owner. Hence
after a successful `process` the owners of the entries of the parser are
pairwise distinct. -/
theorem duplicate_owners_are_rejected (entries : List InitialSmartContract) :
    ((∃ err, checkForDuplicates entries = some err ∧ err.wraps .ErrDuplicateOwnerAddress)
        ↔ ∃ i j, i < j ∧ sameOwner entries i j)
    ∧ (checkForDuplicates entries = none ↔ ¬ ∃ i j, i < j ∧ sameOwner entries i j)
    ∧ (checkForDuplicates entries = none
        ↔ (entries.map (fun isc => isc.Owner)).Nodup)
    ∧ (∀ err, checkForDuplicates entries = some err →
        ∃ i j ib1, i < j ∧ sameOwner entries i j ∧ entries[i]? = some ib1
          ∧ err = .wrap .ErrDuplicateOwnerAddress ib1.Owner none
          ∧ ∀ k m, k < i → k < m → ¬ sameOwner entries k m)
    ∧ (∀ (Addr : Type) (scp : smartContractParser Addr),
        scp.initialSmartContracts = entries → scp.process.1 = none →
        (scp.process.2.initialSmartContracts.map (fun isc => isc.Owner)).Nodup
          ∧ scp.process.2.initialSmartContracts.map (fun isc => isc.Owner)
            = entries.map (fun isc => isc.Owner)) := by
  refine ⟨?_, checkForDuplicates_none_iff entries, checkForDuplicates_none_iff_nodup entries,
    checkForDuplicates_some entries, ?_⟩
  · constructor
    · rintro ⟨err, h, _⟩
      obtain ⟨i, j, _, hij, hs, _⟩ := checkForDuplicates_some entries err h
      exact ⟨i, j, hij, hs⟩
    · intro h
      cases hc : checkForDuplicates entries with
      | none => exact absurd h ((checkForDuplicates_none_iff entries).mp hc)
      | some err =>
        obtain ⟨_, _, ib1, _, _, _, he, _⟩ := checkForDuplicates_some entries err hc
        exact ⟨err, rfl, _, _, he⟩
  · intro Addr scp hl hp
    have ho := processEntries_owners scp.pubkeyConverter scp.checkForFileHandler
      scp.initialSmartContracts
    unfold smartContractParser.process at hp ⊢
    rcases hpe : processEntries scp.pubkeyConverter scp.checkForFileHandler
      scp.initialSmartContracts with ⟨res, done⟩
    rw [hpe] at ho hp
    simp only at ho
    cases res with
    | some err => simp at hp
    | none =>
      cases hc : checkForDuplicates done with
      | some err => simp [hc] at hp
      | none =>
        simp only [hc]
        exact ⟨(checkForDuplicates_none_iff_nodup done).mp hc, by rw [ho, hl]⟩

/-- C17, on three entries: with owners `a`, `b`, `a` the duplicate `a` is
reported; with owners `a`, `b`, `c` the stub parser processes them and their
owners are pairwise distinct. -/
theorem duplicate_owners_are_rejected_witness :
    checkForDuplicates
        [{ Owner := "a", Filename := "f", VmType := "05", ownerBytes := [] },
         { Owner := "b", Filename := "f", VmType := "05", ownerBytes := [] },
         { Owner := "a", Filename := "f", VmType := "05", ownerBytes := [] }]
        = some (.wrap .ErrDuplicateOwnerAddress "a" none)
      ∧ ((stubParser
        [{ Owner := "a", Filename := "f", VmType := "05", ownerBytes := [] },
         { Owner := "b", Filename := "f", VmType := "05", ownerBytes := [] },
         { Owner := "c", Filename := "f", VmType := "05", ownerBytes := [] }]).process.2
          |>.initialSmartContracts.map (fun isc => isc.Owner)).Nodup :=
  ⟨by decide,
    ((duplicate_owners_are_rejected
        [{ Owner := "a", Filename := "f", VmType := "05", ownerBytes := [] },
         { Owner := "b", Filename := "f", VmType := "05", ownerBytes := [] },
         { Owner := "c", Filename := "f", VmType := "05", ownerBytes := [] }]).2.2.2.2
      Bytes (stubParser _) rfl (by decide)).1⟩

/-! ## Split on the shards of the owners -/

/-- The loop of the split, when an address can be made for every entry still to
be placed: it ends with a map that holds, under each key, what the map held
before followed by the entries of that shard, in their order. -/
theorem splitEntries_ok {Addr : Type} (pubkeyConverter : PubkeyConverter Addr)
    (shardCoordinator : Coordinator Addr) (rest : List InitialSmartContract) (m : ShardMap)
    (hall : ∀ isc ∈ rest, ∃ a, pubkeyConverter.CreateAddressFromBytes isc.OwnerBytes = .ok a) :
    ∃ split, splitEntries pubkeyConverter shardCoordinator rest m = .ok split
      ∧ ∀ k, split k =
        if rest.filter (fun isc => ownerShard pubkeyConverter shardCoordinator isc = k) = []
        then m k
        else some (m.get k
          ++ rest.filter (fun isc => ownerShard pubkeyConverter shardCoordinator isc = k)) := by
  induction rest generalizing m with
  | nil => exact ⟨m, rfl, fun k => by simp⟩
  | cons isc rest ih =>
    obtain ⟨a, ha⟩ := hall isc (List.mem_cons_self _ _)
    have hshard : ownerShard pubkeyConverter shardCoordinator isc
        = shardCoordinator.ComputeId a := by
      simp [ownerShard, ha]
    obtain ⟨split, hsplit, hk⟩ := ih
      (m.set (shardCoordinator.ComputeId a) (m.get (shardCoordinator.ComputeId a) ++ [isc]))
      (fun x hx => hall x (List.mem_cons_of_mem _ hx))
    refine ⟨split, by simp [splitEntries, ha, hsplit], ?_⟩
    intro k
    rw [hk k]
    by_cases hkey : k = shardCoordinator.ComputeId a
    · subst hkey
      simp only [List.filter_cons, hshard, decide_True, if_true, ShardMap.set, ShardMap.get,
        Option.getD_some]
      split <;> simp_all
    · have hne : ¬ shardCoordinator.ComputeId a = k := fun h => hkey h.symm
      simp [List.filter_cons, hshard, hne, hkey, ShardMap.set, ShardMap.get]

/-- The number of entries of a shard is the number of times the shard occurs
among the shards of the owners. -/
theorem length_filter_shard (f : InitialSmartContract → Nat)
    (entries : List InitialSmartContract) (k : Nat) :
    (entries.filter (fun isc => f isc = k)).length = (entries.map f).count k := by
  induction entries with
  | nil => rfl
  | cons isc rest ih =>
    by_cases h : f isc = k
    · simp [List.filter_cons, h, ih]
    · simp [List.filter_cons, h, ih, List.count_cons]

/-- C18: split by owner shard is a partition. With a nil coordinator
`InitialSmartContractsSplitOnOwnersShards` returns `ErrNilShardCoordinator`.
With a coordinator, when an address can be made from the owner bytes of every
entry, it returns a map that holds under each key exactly the entries whose
owner is of that shard, in the order of the parser, and no key for a shard
without entries. So no key maps to an empty list; an entry is found under the
key of its owner's shard and under no other key, as many times as in the
parser; each list is a sublist of the parser's list; and the lengths of the
lists sum to the number of entries. -/
theorem split_on_owners_shards_is_a_partition {Addr : Type}
    (scp : smartContractParser Addr) :
    scp.InitialSmartContractsSplitOnOwnersShards none = .error .ErrNilShardCoordinator
    ∧ scp.InitialSmartContracts = scp.initialSmartContracts
    ∧ ∀ shardCoordinator : Coordinator Addr,
      (∀ isc ∈ scp.initialSmartContracts,
        ∃ a, scp.pubkeyConverter.CreateAddressFromBytes isc.OwnerBytes = .ok a) →
      ∃ split : ShardMap,
        scp.InitialSmartContractsSplitOnOwnersShards (some shardCoordinator) = .ok split
        ∧ (∀ k, split k =
            if scp.initialSmartContracts.filter
                (fun isc => ownerShard scp.pubkeyConverter shardCoordinator isc = k) = []
            then none
            else some (scp.initialSmartContracts.filter
                (fun isc => ownerShard scp.pubkeyConverter shardCoordinator isc = k)))
        ∧ (∀ k l, split k = some l → l ≠ [] ∧ l.Sublist scp.initialSmartContracts)
        ∧ (∀ isc ∈ scp.initialSmartContracts,
            ∃ l, split (ownerShard scp.pubkeyConverter shardCoordinator isc) = some l
              ∧ isc ∈ l ∧ l.count isc = scp.initialSmartContracts.count isc)
        ∧ (∀ k l isc, split k = some l → isc ∈ l →
            ownerShard scp.pubkeyConverter shardCoordinator isc = k)
        ∧ (((scp.initialSmartContracts.map
              (ownerShard scp.pubkeyConverter shardCoordinator)).dedup.map
              (fun k => (split.get k).length)).sum = scp.initialSmartContracts.length) := by
  refine ⟨rfl, by simp [smartContractParser.InitialSmartContracts], ?_⟩
  intro shardCoordinator hall
  obtain ⟨split, hsplit, hk⟩ := splitEntries_ok scp.pubkeyConverter shardCoordinator
    scp.initialSmartContracts ShardMap.empty hall
  have hkey : ∀ k, split k =
      if scp.initialSmartContracts.filter
          (fun isc => ownerShard scp.pubkeyConverter shardCoordinator isc = k) = []
      then none
      else some (scp.initialSmartContracts.filter
          (fun isc => ownerShard scp.pubkeyConverter shardCoordinator isc = k)) := by
    intro k
    rw [hk k]
    simp [ShardMap.empty, ShardMap.get]
  have hsome : ∀ k l, split k = some l →
      l = scp.initialSmartContracts.filter
          (fun isc => ownerShard scp.pubkeyConverter shardCoordinator isc = k)
        ∧ l ≠ [] := by
    intro k l h
    rw [hkey k] at h
    split at h
    · cases h
    · rename_i hne
      injection h with h
      exact ⟨h.symm, h ▸ hne⟩
  refine ⟨split, hsplit, hkey, ?_, ?_, ?_, ?_⟩
  · intro k l h
    obtain ⟨hl, hne⟩ := hsome k l h
    exact ⟨hne, hl ▸ List.filter_sublist _⟩
  · intro isc hisc
    have hmem : isc ∈ scp.initialSmartContracts.filter
        (fun x => ownerShard scp.pubkeyConverter shardCoordinator x
          = ownerShard scp.pubkeyConverter shardCoordinator isc) := by
      simp [List.mem_filter, hisc]
    refine ⟨_, ?_, hmem, List.count_filter (by simp)⟩
    rw [hkey]
    rw [if_neg (List.ne_nil_of_mem hmem)]
  · intro k l isc h hisc
    obtain ⟨hl, _⟩ := hsome k l h
    rw [hl, List.mem_filter] at hisc
    simpa using hisc.2
  · have hget : ∀ k, (split.get k).length
        = (scp.initialSmartContracts.map
            (ownerShard scp.pubkeyConverter shardCoordinator)).count k := by
      intro k
      rw [← length_filter_shard]
      simp only [ShardMap.get, hkey k]
      split
      · rename_i h0
        simp [h0]
      · rfl
    simp only [hget]
    rw [List.sum_map_count_dedup_eq_length, List.length_map]

/-- C18, on the stub parser and the stub coordinator: of three entries with
owner bytes ending in 97, 98 and 99, the first and the third go to shard 1 and
the second to shard 0, and shard 2 has no key. -/
theorem split_on_owners_shards_is_a_partition_witness :
    ∃ split : ShardMap,
      (stubParser
        [{ Owner := "a", Filename := "f", VmType := "05", ownerBytes := [97] },
         { Owner := "b", Filename := "f", VmType := "05", ownerBytes := [98] },
         { Owner := "c", Filename := "f", VmType := "05", ownerBytes := [99] }]
        ).InitialSmartContractsSplitOnOwnersShards (some stubCoordinator) = .ok split
      ∧ split 0 = some [{ Owner := "b", Filename := "f", VmType := "05", ownerBytes := [98] }]
      ∧ split 1 = some [{ Owner := "a", Filename := "f", VmType := "05", ownerBytes := [97] },
          { Owner := "c", Filename := "f", VmType := "05", ownerBytes := [99] }]
      ∧ split 2 = none :=
  have h := (split_on_owners_shards_is_a_partition (stubParser
    [{ Owner := "a", Filename := "f", VmType := "05", ownerBytes := [97] },
     { Owner := "b", Filename := "f", VmType := "05", ownerBytes := [98] },
     { Owner := "c", Filename := "f", VmType := "05", ownerBytes := [99] }])).2.2
    stubCoordinator (by
      intro isc hisc
      simp only [stubParser, List.mem_cons, List.mem_singleton, List.not_mem_nil,
        or_false] at hisc
      rcases hisc with rfl | rfl | rfl
      · exact ⟨[97], rfl⟩
      · exact ⟨[98], rfl⟩
      · exact ⟨[99], rfl⟩)
  Exists.elim h fun split hs =>
    ⟨split, hs.1, (hs.2.1 0).trans (by decide), (hs.2.1 1).trans (by decide),
      (hs.2.1 2).trans (by decide)⟩

end parsing

namespace interceptors

/-! ## Order and independence of the elements -/

/-- When the factory and the white list answer by the element alone, the data
handed to the processor by the loop are the selected data of the batch, in wire
order. -/
theorem processElements_commits_selected {W D : Type} [InterceptedData D]
    (mdi : MultiDataInterceptor W D) (message : MessageP2P) (fromConnectedPeer : PeerID)
    (create : Bytes → Except Error D) (listed : D → Bool)
    (hcreate : ∀ buff w, (mdi.factory.Create buff w).1 = create buff)
    (hlisted : ∀ data w, (mdi.whiteListRequest.IsWhiteListed data w).1 = listed data)
    (bufs : List Bytes) (e : Option Error) (w : W) :
    commits (processElements mdi message fromConnectedPeer bufs e w).calls
      = bufs.filterMap (selected create listed) := by
  induction bufs generalizing e w with
  | nil => rfl
  | cons buff rest ih =>
    rcases hc : mdi.factory.Create buff w with ⟨res, w1⟩
    have hres : create buff = res := by rw [← hcreate buff w, hc]
    cases res with
    | error err =>
      rw [processElements_cons_createFailed mdi message fromConnectedPeer buff rest e w w1
        err hc]
      have := ih (some err)
        (mdi.antifloodHandler.BlacklistPeer fromConnectedPeer (createReason mdi)
          .InvalidMessageBlacklistDuration
          (mdi.antifloodHandler.BlacklistPeer message.Peer (createReason mdi)
            .InvalidMessageBlacklistDuration w1))
      simp only [commits] at this
      simp only [commits, List.filterMap_cons, selected, hres, this]
    | ok data =>
      cases hv : InterceptedData.CheckValidity data with
      | some err =>
        rw [processElements_cons_invalid mdi message fromConnectedPeer buff rest e w w1 data
          err hc hv]
        have := ih (some err)
          (mdi.interceptedDebugHandler.LogProcessed mdi.topic data (some err)
            (mdi.interceptedDebugHandler.LogReceived mdi.topic data w1))
        simp only [commits] at this
        simp [commits, List.filterMap_cons, selected, hres, hv, this]
      | none =>
        rcases hw : mdi.whiteListRequest.IsWhiteListed data
          (mdi.interceptedDebugHandler.LogReceived mdi.topic data w1) with ⟨answer, w2⟩
        have hans : listed data = answer := by
          rw [← hlisted data (mdi.interceptedDebugHandler.LogReceived mdi.topic data w1), hw]
        by_cases hr : (InterceptedData.IsForCurrentShard data || answer) = true
        · rcases hp : mdi.processor.Commit data mdi.topic message w2 with ⟨res, w3⟩
          rw [processElements_cons_committed mdi message fromConnectedPeer buff rest e w w1
            w2 w3 data answer res hc hv hw hr hp]
          have := ih (recordError res e)
            (mdi.interceptedDebugHandler.LogProcessed mdi.topic data res w3)
          simp only [commits] at this
          simp [commits, List.filterMap_cons, selected, hres, hv, hans, hr, this]
        · simp only [Bool.not_eq_true, Bool.or_eq_false_iff] at hr
          rw [hr.2] at hw hans
          rw [processElements_cons_dropped mdi message fromConnectedPeer buff rest e w w1 w2
            data hc hv hr.1 hw]
          have := ih e w2
          simp only [commits] at this
          simp [commits, List.filterMap_cons, selected, hres, hv, hans, hr.1, this]

/-- When the factory and the white list answer by the element alone, the data
handed to the processor for an admitted batch are the selected data of the
batch, in wire order. -/
theorem commits_after_admission_selected {W D : Type} [InterceptedData D]
    (mdi : MultiDataInterceptor W D)
    (create : Bytes → Except Error D) (listed : D → Bool)
    (hcreate : ∀ buff w, (mdi.factory.Create buff w).1 = create buff)
    (hlisted : ∀ data w, (mdi.whiteListRequest.IsWhiteListed data w).1 = listed data)
    (message : MessageP2P) (fromConnectedPeer : PeerID) (w w1 w2 : W) (b : Batch)
    (hpre : (admission mdi message fromConnectedPeer w).ret = none)
    (hun : mdi.marshalizer.Unmarshal message.Data
      (admission mdi message fromConnectedPeer w).world = (.ok b, w1))
    (hlen : b.Data.length ≠ 0)
    (hquota : mdi.antifloodHandler.CanProcessMessagesOnTopic fromConnectedPeer mdi.topic
      (b.Data.length % 2 ^ 32) (message.Data.length % 2 ^ 64) message.SeqNo w1
        = (none, w2)) :
    commits (callsAfterAdmission mdi message fromConnectedPeer w)
      = b.Data.filterMap (selected create listed) := by
  rw [callsAfterAdmission_loop mdi message fromConnectedPeer w w1 w2 b hpre hun hlen hquota,
    (frame_of_loop _ _ _ _ _ _ _ _ _).2.2.2.2.2.2.1,
    processElements_commits_selected mdi message fromConnectedPeer create listed hcreate
      hlisted]

/-- C19: order and independence of element processing. For an admitted batch
(pre-processing, unmarshalling and quota check pass) and a factory and a white
list whose answers depend only on the element they are given, the data handed
to the processor are exactly, in wire order, the data of the elements for which
`factory.Create` succeeds, `CheckValidity` succeeds and the datum is for the
current shard or white-listed. Whether an element is committed is decided by
the element alone; so for two admitted messages whose batches are permutations
of each other the commits are permutations of each other, and the same data are
committed. The world the run leaves is the world its calls lead to, each call
with its effect and in its order, so that every datum listed as handed to the
processor has reached it, in that order; and every call carries the answer its
collaborator gave. -/
theorem element_processing_is_ordered_and_independent {W D : Type} [InterceptedData D]
    (mdi : MultiDataInterceptor W D)
    (create : Bytes → Except Error D) (listed : D → Bool)
    (hcreate : ∀ buff w, (mdi.factory.Create buff w).1 = create buff)
    (hlisted : ∀ data w, (mdi.whiteListRequest.IsWhiteListed data w).1 = listed data)
    (message : MessageP2P) (fromConnectedPeer : PeerID) (w w1 w2 : W) (b : Batch)
    (hpre : (admission mdi message fromConnectedPeer w).ret = none)
    (hun : mdi.marshalizer.Unmarshal message.Data
      (admission mdi message fromConnectedPeer w).world = (.ok b, w1))
    (hlen : b.Data.length ≠ 0)
    (hquota : mdi.antifloodHandler.CanProcessMessagesOnTopic fromConnectedPeer mdi.topic
      (b.Data.length % 2 ^ 32) (message.Data.length % 2 ^ 64) message.SeqNo w1
        = (none, w2)) :
    commits (callsAfterAdmission mdi message fromConnectedPeer w)
        = b.Data.filterMap (selected create listed)
    ∧ (ProcessReceivedMessage mdi message fromConnectedPeer w).world
        = replay mdi (callsAfterAdmission mdi message fromConnectedPeer w)
            (admission mdi message fromConnectedPeer w).world
    ∧ faithful mdi (callsAfterAdmission mdi message fromConnectedPeer w)
        (admission mdi message fromConnectedPeer w).world
    ∧ ∀ (message2 : MessageP2P) (peer2 : PeerID) (v v1 v2 : W) (b2 : Batch),
      (admission mdi message2 peer2 v).ret = none →
      mdi.marshalizer.Unmarshal message2.Data (admission mdi message2 peer2 v).world
        = (.ok b2, v1) →
      b2.Data.length ≠ 0 →
      mdi.antifloodHandler.CanProcessMessagesOnTopic peer2 mdi.topic
        (b2.Data.length % 2 ^ 32) (message2.Data.length % 2 ^ 64) message2.SeqNo v1
          = (none, v2) →
      b2.Data.Perm b.Data →
      (commits (callsAfterAdmission mdi message2 peer2 v)).Perm
          (commits (callsAfterAdmission mdi message fromConnectedPeer w))
        ∧ ∀ data, data ∈ commits (callsAfterAdmission mdi message2 peer2 v)
            ↔ data ∈ commits (callsAfterAdmission mdi message fromConnectedPeer w) := by
  have h1 := commits_after_admission_selected mdi create listed hcreate hlisted message
    fromConnectedPeer w w1 w2 b hpre hun hlen hquota
  have hworld := world_after_loop mdi message fromConnectedPeer w w1 w2 b hpre hun hlen
    hquota
  refine ⟨h1, hworld.1, hworld.2, ?_⟩
  intro message2 peer2 v v1 v2 b2 hpre2 hun2 hlen2 hquota2 hperm
  have h2 := commits_after_admission_selected mdi create listed hcreate hlisted message2
    peer2 v v1 v2 b2 hpre2 hun2 hlen2 hquota2
  rw [h1, h2]
  have hp := hperm.filterMap (selected create listed)
  exact ⟨hp, fun data => hp.mem_iff⟩

/-- The stub factory answers by the element alone. -/
theorem stubFactory_reads_the_element (buff : Bytes) (w : World) :
    (stubFactory.Create buff w).1 = stubCreate buff := by
  cases buff with
  | nil => rfl
  | cons b t =>
    by_cases h : b = 255 <;> simp [stubFactory, stubCreate, h]

/-- C19, on the stub collaborators with the fixed white list of `[1, 1, 9]`: of
the batch `[1, 0, 9]`, `[1, 1, 9]`, `[2, 1, 8]` the first element is for the
current shard, the second is white-listed and the third is dropped; the
reversed batch commits the same two data in the reverse order. After each run
the pool holds the two committed data, in the order of the run. -/
theorem element_processing_is_ordered_and_independent_witness :
    commits (callsAfterAdmission (fixedInterceptor [[1, 1, 9]])
        (stubMessage [3, 1, 0, 9, 3, 1, 1, 9, 3, 2, 1, 8]) "hop" (stubWorld 5))
        = [⟨[1, 0, 9]⟩, ⟨[1, 1, 9]⟩]
      ∧ (commits (callsAfterAdmission (fixedInterceptor [[1, 1, 9]])
        (stubMessage [3, 2, 1, 8, 3, 1, 1, 9, 3, 1, 0, 9]) "hop" (stubWorld 5))).Perm
        (commits (callsAfterAdmission (fixedInterceptor [[1, 1, 9]])
          (stubMessage [3, 1, 0, 9, 3, 1, 1, 9, 3, 2, 1, 8]) "hop" (stubWorld 5)))
      ∧ (ProcessReceivedMessage (fixedInterceptor [[1, 1, 9]])
          (stubMessage [3, 1, 0, 9, 3, 1, 1, 9, 3, 2, 1, 8]) "hop" (stubWorld 5)).world
        = { inFlight := 0, blacklist := [], quotaLeft := 2, whiteList := [],
            pool := [[1, 0, 9], [1, 1, 9]] }
      ∧ (ProcessReceivedMessage (fixedInterceptor [[1, 1, 9]])
          (stubMessage [3, 2, 1, 8, 3, 1, 1, 9, 3, 1, 0, 9]) "hop" (stubWorld 5)).world
        = { inFlight := 0, blacklist := [], quotaLeft := 2, whiteList := [],
            pool := [[1, 1, 9], [1, 0, 9]] } :=
  have h := element_processing_is_ordered_and_independent (fixedInterceptor [[1, 1, 9]])
    stubCreate (fun d => decide (d.raw ∈ [[1, 1, 9]]))
    (fun buff w => stubFactory_reads_the_element buff w) (fun _ _ => rfl)
    (stubMessage [3, 1, 0, 9, 3, 1, 1, 9, 3, 2, 1, 8]) "hop" (stubWorld 5)
    { stubWorld 5 with inFlight := 1 } { stubWorld 5 with inFlight := 1, quotaLeft := 2 }
    ⟨[[1, 0, 9], [1, 1, 9], [2, 1, 8]]⟩ (by decide) rfl (by decide) (by decide)
  ⟨h.1.trans (by decide),
    (h.2.2.2 (stubMessage [3, 2, 1, 8, 3, 1, 1, 9, 3, 1, 0, 9]) "hop" (stubWorld 5)
      { stubWorld 5 with inFlight := 1 } { stubWorld 5 with inFlight := 1, quotaLeft := 2 }
      ⟨[[2, 1, 8], [1, 1, 9], [1, 0, 9]]⟩ (by decide) rfl (by decide) (by decide)
      (by decide)).1,
    by decide, by decide⟩

/-! ## The arguments of the quota check -/

/-- For a message that passes pre-processing and unmarshals to a non-empty
batch, the calls after admission start with the unmarshalling and the quota
check, whose element count and size are the conversions to `uint32` and
`uint64` of the lengths and whose answer is the one the anti-flood handler
gives for these arguments in the world the unmarshalling left, and no other
quota check follows. -/
theorem quota_check_is_second {W D : Type} [InterceptedData D]
    (mdi : MultiDataInterceptor W D) (message : MessageP2P) (fromConnectedPeer : PeerID)
    (w w1 : W) (b : Batch)
    (hpre : (admission mdi message fromConnectedPeer w).ret = none)
    (hun : mdi.marshalizer.Unmarshal message.Data
      (admission mdi message fromConnectedPeer w).world = (.ok b, w1))
    (hlen : b.Data.length ≠ 0) :
    ∃ rest,
      callsAfterAdmission mdi message fromConnectedPeer w
        = .Unmarshal message.Data (.ok b)
          :: .CanProcessMessagesOnTopic fromConnectedPeer mdi.topic
              (b.Data.length % 2 ^ 32) (message.Data.length % 2 ^ 64) message.SeqNo
              (mdi.antifloodHandler.CanProcessMessagesOnTopic fromConnectedPeer mdi.topic
                (b.Data.length % 2 ^ 32) (message.Data.length % 2 ^ 64) message.SeqNo w1).1
          :: rest
      ∧ quotaChecks rest = [] := by
  rcases hq : mdi.antifloodHandler.CanProcessMessagesOnTopic fromConnectedPeer mdi.topic
    (b.Data.length % 2 ^ 32) (message.Data.length % 2 ^ 64) message.SeqNo w1
    with ⟨answer, w2⟩
  cases answer with
  | none =>
    refine ⟨_, callsAfterAdmission_loop mdi message fromConnectedPeer w w1 w2 b hpre
      hun hlen hq, ?_⟩
    have h := (processElements_throttle mdi message fromConnectedPeer b.Data none w2).2.2
    simp only [quotaChecks] at h
    simp [quotaChecks, List.filterMap_append, h]
  | some err =>
    refine ⟨[], callsAfterAdmission_eq mdi message fromConnectedPeer w _
      (by rw [ProcessReceivedMessage_quota_error mdi message fromConnectedPeer w w1 w2 b err
        hpre hun hlen hq]), rfl⟩

/-- The quota checks after admission of a message that unmarshals to a
non-empty batch: exactly one. -/
theorem quotaChecks_nonempty_batch {W D : Type} [InterceptedData D]
    (mdi : MultiDataInterceptor W D) (message : MessageP2P) (fromConnectedPeer : PeerID)
    (w w1 : W) (b : Batch)
    (hpre : (admission mdi message fromConnectedPeer w).ret = none)
    (hun : mdi.marshalizer.Unmarshal message.Data
      (admission mdi message fromConnectedPeer w).world = (.ok b, w1))
    (hlen : b.Data.length ≠ 0) :
    quotaChecks (callsAfterAdmission mdi message fromConnectedPeer w)
      = [(fromConnectedPeer, mdi.topic, b.Data.length % 2 ^ 32,
          message.Data.length % 2 ^ 64, message.SeqNo)] := by
  obtain ⟨rest, hc, hrest⟩ := quota_check_is_second mdi message fromConnectedPeer
    w w1 b hpre hun hlen
  simp only [quotaChecks] at hrest
  rw [hc]
  simp [quotaChecks, List.filterMap_cons, hrest]

/-- The calls of a run are the calls of pre-processing followed by the calls
after admission. -/
theorem calls_eq_admission_append {W D : Type} [InterceptedData D]
    (mdi : MultiDataInterceptor W D) (message : MessageP2P) (fromConnectedPeer : PeerID)
    (w : W) :
    (ProcessReceivedMessage mdi message fromConnectedPeer w).calls
      = (admission mdi message fromConnectedPeer w).calls
        ++ callsAfterAdmission mdi message fromConnectedPeer w := by
  have h : ∃ t, (ProcessReceivedMessage mdi message fromConnectedPeer w).calls
      = (admission mdi message fromConnectedPeer w).calls ++ t := by
    cases hpre : (admission mdi message fromConnectedPeer w).ret with
    | some err =>
      refine ⟨[], ?_⟩
      unfold admission at hpre
      simp [ProcessReceivedMessage, hpre, admission]
    | none =>
      rcases hun : mdi.marshalizer.Unmarshal message.Data
        (admission mdi message fromConnectedPeer w).world with ⟨res, w1⟩
      cases res with
      | error err =>
        exact ⟨_, by rw [ProcessReceivedMessage_unmarshal_error mdi message fromConnectedPeer
          w w1 err hpre hun]⟩
      | ok b =>
        by_cases hlen : b.Data.length = 0
        · exact ⟨_, by rw [ProcessReceivedMessage_empty mdi message fromConnectedPeer w w1 b
            hpre hun hlen]⟩
        · rcases hq : mdi.antifloodHandler.CanProcessMessagesOnTopic fromConnectedPeer
            mdi.topic (b.Data.length % 2 ^ 32) (message.Data.length % 2 ^ 64) message.SeqNo w1
            with ⟨answer, w2⟩
          cases answer with
          | none =>
            exact ⟨_, by rw [ProcessReceivedMessage_loop mdi message fromConnectedPeer w w1
              w2 b hpre hun hlen hq]⟩
          | some err =>
            exact ⟨_, by rw [ProcessReceivedMessage_quota_error mdi message
              fromConnectedPeer w w1 w2 b err hpre hun hlen hq]⟩
  obtain ⟨t, ht⟩ := h
  rw [callsAfterAdmission_eq mdi message fromConnectedPeer w t ht]
  exact ht

/-- Pre-processing asks for no quota. -/
theorem quotaChecks_admission {W D : Type}
    (mdi : MultiDataInterceptor W D) (message : MessageP2P) (fromConnectedPeer : PeerID)
    (w : W) :
    quotaChecks (admission mdi message fromConnectedPeer w).calls = [] := by
  unfold admission preProcessMesage
  rcases h1 : mdi.antifloodHandler.CanProcessMessage message fromConnectedPeer w with ⟨a, w1⟩
  cases a with
  | some err => simp [quotaChecks]
  | none =>
    rcases h2 : mdi.throttler.CanProcess w1 with ⟨c, w2⟩
    cases c <;> simp [quotaChecks, h2]

/-- The quota checks of a run are those made after admission. -/
theorem quotaChecks_run {W D : Type} [InterceptedData D]
    (mdi : MultiDataInterceptor W D) (message : MessageP2P) (fromConnectedPeer : PeerID)
    (w : W) :
    quotaChecks (ProcessReceivedMessage mdi message fromConnectedPeer w).calls
      = quotaChecks (callsAfterAdmission mdi message fromConnectedPeer w) := by
  have h := quotaChecks_admission mdi message fromConnectedPeer w
  rw [calls_eq_admission_append mdi message fromConnectedPeer w]
  simp only [quotaChecks] at h ⊢
  rw [List.filterMap_append, h, List.nil_append]

/-- C20: quota check arguments. For every message that passes pre-processing
and unmarshals to a non-empty batch, `ProcessReceivedMessage` calls
`CanProcessMessagesOnTopic` exactly once, as the second call after admission:
right after the unmarshalling and so before any element is given to the
factory. The handler is asked, in the world the unmarshalling left, with
`fromConnectedPeer`, the interceptor's topic, `uint32` of the number of
elements of the batch, `uint64` of the byte length of `message.Data`, and
`message.SeqNo`, and the answer recorded is the handler's answer to these
arguments. For a batch of fewer than `2 ^ 32` elements and a payload of fewer
than `2 ^ 64` bytes the two conversions change nothing: the handler is asked
with the number of elements and the byte length themselves. The quota is not
asked for when unmarshalling fails or the batch is empty. Pre-processing asks
for no quota, so that the quota checks after admission are those of the whole
run. -/
theorem quota_check_arguments {W D : Type} [InterceptedData D]
    (mdi : MultiDataInterceptor W D) (message : MessageP2P) (fromConnectedPeer : PeerID)
    (w : W)
    (hpre : (admission mdi message fromConnectedPeer w).ret = none) :
    (∀ b w1,
      mdi.marshalizer.Unmarshal message.Data
        (admission mdi message fromConnectedPeer w).world = (.ok b, w1) →
      b.Data.length ≠ 0 →
      quotaChecks (callsAfterAdmission mdi message fromConnectedPeer w)
          = [(fromConnectedPeer, mdi.topic, b.Data.length % 2 ^ 32,
              message.Data.length % 2 ^ 64, message.SeqNo)]
        ∧ (∃ rest,
            callsAfterAdmission mdi message fromConnectedPeer w
              = .Unmarshal message.Data (.ok b)
                :: .CanProcessMessagesOnTopic fromConnectedPeer mdi.topic
                    (b.Data.length % 2 ^ 32) (message.Data.length % 2 ^ 64) message.SeqNo
                    (mdi.antifloodHandler.CanProcessMessagesOnTopic fromConnectedPeer
                      mdi.topic (b.Data.length % 2 ^ 32) (message.Data.length % 2 ^ 64)
                      message.SeqNo w1).1
                :: rest
            ∧ quotaChecks rest = [])
        ∧ (b.Data.length < 2 ^ 32 → message.Data.length < 2 ^ 64 →
            quotaChecks (callsAfterAdmission mdi message fromConnectedPeer w)
              = [(fromConnectedPeer, mdi.topic, b.Data.length, message.Data.length,
                  message.SeqNo)]))
    ∧ (∀ err w1,
      mdi.marshalizer.Unmarshal message.Data
        (admission mdi message fromConnectedPeer w).world = (.error err, w1) →
      quotaChecks (callsAfterAdmission mdi message fromConnectedPeer w) = [])
    ∧ (∀ b w1,
      mdi.marshalizer.Unmarshal message.Data
        (admission mdi message fromConnectedPeer w).world = (.ok b, w1) →
      b.Data.length = 0 →
      quotaChecks (callsAfterAdmission mdi message fromConnectedPeer w) = [])
    ∧ quotaChecks (ProcessReceivedMessage mdi message fromConnectedPeer w).calls
      = quotaChecks (callsAfterAdmission mdi message fromConnectedPeer w) := by
  refine ⟨?_, ?_, ?_, quotaChecks_run mdi message fromConnectedPeer w⟩
  · intro b w1 hun hlen
    have h := quotaChecks_nonempty_batch mdi message fromConnectedPeer w w1 b hpre hun hlen
    refine ⟨h, quota_check_is_second mdi message fromConnectedPeer w w1 b hpre hun hlen, ?_⟩
    intro h32 h64
    rw [h, Nat.mod_eq_of_lt h32, Nat.mod_eq_of_lt h64]
  · intro err w1 hun
    rw [callsAfterAdmission_eq mdi message fromConnectedPeer w _
      (by rw [ProcessReceivedMessage_unmarshal_error mdi message fromConnectedPeer w w1 err
        hpre hun])]
    simp [quotaChecks]
  · intro b w1 hun hlen
    rw [callsAfterAdmission_eq mdi message fromConnectedPeer w _
      (by rw [ProcessReceivedMessage_empty mdi message fromConnectedPeer w w1 b
        hpre hun hlen])]
    simp [quotaChecks]

/-- C20, on the stub collaborators: for a batch of three elements in a payload
of eleven bytes the quota is asked once in the whole run, for three elements
and eleven bytes, and the quota of five elements stands at two afterwards; for
a payload that does not unmarshal the quota is not asked and stands at five. -/
theorem quota_check_arguments_witness :
    quotaChecks (callsAfterAdmission stubInterceptor
        (stubMessage [3, 1, 0, 9, 2, 1, 0, 3, 2, 0, 8]) "hop" (stubWorld 5))
        = [("hop", "txs", 3, 11, 7)]
      ∧ quotaChecks (callsAfterAdmission stubInterceptor
        (stubMessage [3, 1, 0, 9, 5, 1, 0]) "hop" (stubWorld 5)) = []
      ∧ quotaChecks (ProcessReceivedMessage stubInterceptor
        (stubMessage [3, 1, 0, 9, 2, 1, 0, 3, 2, 0, 8]) "hop" (stubWorld 5)).calls
        = [("hop", "txs", 3, 11, 7)]
      ∧ quotaChecks (ProcessReceivedMessage stubInterceptor
        (stubMessage [3, 1, 0, 9, 5, 1, 0]) "hop" (stubWorld 5)).calls = []
      ∧ (ProcessReceivedMessage stubInterceptor
        (stubMessage [3, 1, 0, 9, 2, 1, 0, 3, 2, 0, 8]) "hop" (stubWorld 5)).world.quotaLeft
        = 2
      ∧ (ProcessReceivedMessage stubInterceptor
        (stubMessage [3, 1, 0, 9, 5, 1, 0]) "hop" (stubWorld 5)).world.quotaLeft = 5 :=
  have h := quota_check_arguments stubInterceptor
    (stubMessage [3, 1, 0, 9, 2, 1, 0, 3, 2, 0, 8]) "hop" (stubWorld 5) (by decide)
  have h2 := quota_check_arguments stubInterceptor
    (stubMessage [3, 1, 0, 9, 5, 1, 0]) "hop" (stubWorld 5) (by decide)
  ⟨(h.1 ⟨[[1, 0, 9], [1, 0], [2, 0, 8]]⟩ { stubWorld 5 with inFlight := 1 } rfl
      (by decide)).2.2 (by decide) (by decide),
    h2.2.1 (.other "unexpected end of payload") { stubWorld 5 with inFlight := 1 } rfl,
    by decide, by decide, by decide, by decide⟩

end interceptors

namespace seednode

/-! ## Rejections of the seed-based reader -/

/-- C21: seed reader rejections. `Read` checks the seed before the buffer: it
returns `(0, "nil seed")` for a nil seed, `(0, "empty seed")` for an empty one,
and then `(0, "nil buffer")` for a nil buffer and `(0, "empty buffer")` for an
empty one. It returns a count of zero with a non-nil error if and only if the
seed is nil or empty or the buffer is nil or empty; and whenever it returns an
error, the count is zero, the buffer is as it was and the reader, its index
included, is unchanged. -/
theorem seed_reader_rejections (srr : seedRandReader) (p : Option Bytes) :
    (srr.seed = none →
      srr.Read p = some { n := 0, err := some (.New "nil seed"), p := p, srr := srr })
    ∧ (srr.seed = some [] →
      srr.Read p = some { n := 0, err := some (.New "empty seed"), p := p, srr := srr })
    ∧ (∀ seed, srr.seed = some seed → seed ≠ [] → p = none →
      srr.Read p = some { n := 0, err := some (.New "nil buffer"), p := p, srr := srr })
    ∧ (∀ seed, srr.seed = some seed → seed ≠ [] → p = some [] →
      srr.Read p = some { n := 0, err := some (.New "empty buffer"), p := p, srr := srr })
    ∧ ((∃ r, srr.Read p = some r ∧ r.n = 0 ∧ r.err ≠ none)
        ↔ (srr.seed = none ∨ srr.seed = some [] ∨ p = none ∨ p = some []))
    ∧ (∀ r, srr.Read p = some r → r.err ≠ none →
        r.n = 0 ∧ r.p = p ∧ r.srr = srr ∧ r.srr.index = srr.index) := by
  have hnil : srr.seed = none →
      srr.Read p = some { n := 0, err := some (.New "nil seed"), p := p, srr := srr } := by
    intro h
    simp [seedRandReader.Read, h]
  have hempty : srr.seed = some [] →
      srr.Read p = some { n := 0, err := some (.New "empty seed"), p := p, srr := srr } := by
    intro h
    simp [seedRandReader.Read, h]
  have hnilbuf : ∀ seed, srr.seed = some seed → seed ≠ [] → p = none →
      srr.Read p = some { n := 0, err := some (.New "nil buffer"), p := p, srr := srr } := by
    intro seed h hs hp
    have h0 : ¬ seed.length = 0 := fun hl => hs (List.length_eq_zero.mp hl)
    simp [seedRandReader.Read, h, h0, hp]
  have hemptybuf : ∀ seed, srr.seed = some seed → seed ≠ [] → p = some [] →
      srr.Read p = some { n := 0, err := some (.New "empty buffer"), p := p, srr := srr } := by
    intro seed h hs hp
    have h0 : ¬ seed.length = 0 := fun hl => hs (List.length_eq_zero.mp hl)
    simp [seedRandReader.Read, h, h0, hp]
  have hgood : ∀ seed buff r, srr.seed = some seed → seed ≠ [] → p = some buff → buff ≠ [] →
      srr.Read p = some r → r.err = none := by
    intro seed buff r h hs hp hb hr
    have h0 : ¬ seed.length = 0 := fun hl => hs (List.length_eq_zero.mp hl)
    have h1 : ¬ buff.length = 0 := fun hl => hb (List.length_eq_zero.mp hl)
    simp only [seedRandReader.Read, h, h0, hp, h1, if_false] at hr
    cases hloop : readLoop seed srr.index buff with
    | none => simp [hloop] at hr
    | some res =>
      simp only [hloop, Option.some.injEq] at hr
      rw [← hr]
  have hcases : ∀ r, srr.Read p = some r → r.err ≠ none →
      (srr.seed = none ∨ srr.seed = some [] ∨ p = none ∨ p = some [])
        ∧ r.n = 0 ∧ r.p = p ∧ r.srr = srr := by
    intro r hr herr
    cases hseed : srr.seed with
    | none =>
      rw [hnil hseed] at hr
      injection hr with hr
      subst hr
      exact ⟨Or.inl rfl, rfl, rfl, rfl⟩
    | some seed =>
      by_cases hs : seed = []
      · subst hs
        rw [hempty hseed] at hr
        injection hr with hr
        subst hr
        exact ⟨Or.inr (Or.inl rfl), rfl, rfl, rfl⟩
      · cases hp : p with
        | none =>
          rw [hnilbuf seed hseed hs hp] at hr
          injection hr with hr
          subst hr
          exact ⟨Or.inr (Or.inr (Or.inl rfl)), rfl, hp, rfl⟩
        | some buff =>
          by_cases hb : buff = []
          · subst hb
            rw [hemptybuf seed hseed hs hp] at hr
            injection hr with hr
            subst hr
            exact ⟨Or.inr (Or.inr (Or.inr rfl)), rfl, hp, rfl⟩
          · exact absurd (hgood seed buff r hseed hs hp hb hr) herr
  refine ⟨hnil, hempty, hnilbuf, hemptybuf, ?_, ?_⟩
  · constructor
    · rintro ⟨r, hr, _, herr⟩
      exact (hcases r hr herr).1
    · intro h
      cases hseed : srr.seed with
      | none => exact ⟨_, hnil hseed, rfl, by simp⟩
      | some seed =>
        by_cases hs : seed = []
        · subst hs
          exact ⟨_, hempty hseed, rfl, by simp⟩
        · rcases h with h | h | h | h
          · rw [hseed] at h; cases h
          · rw [hseed] at h; injection h with h; exact absurd h hs
          · exact ⟨_, hnilbuf seed hseed hs h, rfl, by simp⟩
          · exact ⟨_, hemptybuf seed hseed hs h, rfl, by simp⟩
  · intro r hr herr
    obtain ⟨_, hn, hp, hsrr⟩ := hcases r hr herr
    exact ⟨hn, hp, hsrr, by rw [hsrr]⟩

/-- C21, on explicit readers: a nil seed is reported even with a nil buffer, an
empty buffer is reported for the seed `[7, 8, 9]`, and the reader at index 2 is
left at index 2. -/
theorem seed_reader_rejections_witness :
    seedRandReader.Read { index := 2, seed := none } none
        = some { n := 0, err := some (.New "nil seed"), p := none,
                 srr := { index := 2, seed := none } }
      ∧ seedRandReader.Read { index := 2, seed := some [7, 8, 9] } (some [])
        = some { n := 0, err := some (.New "empty buffer"), p := some [],
                 srr := { index := 2, seed := some [7, 8, 9] } }
      ∧ (∃ r, seedRandReader.Read { index := 2, seed := some [7, 8, 9] } none = some r
          ∧ r.n = 0 ∧ r.err ≠ none) :=
  ⟨(seed_reader_rejections { index := 2, seed := none } none).1 rfl,
    (seed_reader_rejections { index := 2, seed := some [7, 8, 9] } (some [])).2.2.2.1
      [7, 8, 9] rfl (by decide) rfl,
    (seed_reader_rejections { index := 2, seed := some [7, 8, 9] } none).2.2.2.2.1.mpr
      (Or.inr (Or.inr (Or.inl rfl)))⟩

end seednode
